import Mathlib

/-!
# The synchronized virtual filesystem hook

A shallow embedding of `src/hooks/useFileSystem.js` (and of the handlers of
`src/components/Codex.jsx` that call it) together with the properties of the
specification that were checked against it.

Modelling conventions.

* JavaScript values are `JVal`. Strings are well-formed Unicode (`String`);
  numbers are integers (`num`) or `NaN` (`nan`); arrays do not occur in the
  filesystem document and are not modelled.
* A plain object is the list of its own properties in insertion order (the
  special placement of integer-like keys in enumeration order is not
  modelled). Inherited properties (among them `__proto__`) and property reads
  on primitives (string indices, `length`) read as `undefined`.
* A raised exception is `none` in an `Option` result.
* React state is threaded explicitly: a state setter takes effect at the point
  where it is called. Network calls are recorded in a list of effects; the
  answer of the remote store is an argument of the operation.
-/

namespace HostX

/-! ## JavaScript values -/

/-- JavaScript values that can occur in the filesystem document or in the
options handed to `updateFileSystem`. -/
inductive JVal where
  | undef : JVal
  | null : JVal
  | bool (b : Bool) : JVal
  | num (n : Int) : JVal
  | nan : JVal
  | str (s : String) : JVal
  | obj (kvs : List (String × JVal)) : JVal

/-- The own properties of a plain object, in insertion order. -/
abbrev Props := List (String × JVal)

namespace JVal

mutual
/-- Decidable equality of values. -/
def decEq : (a b : JVal) → Decidable (a = b)
  | undef, undef => isTrue rfl
  | null, null => isTrue rfl
  | nan, nan => isTrue rfl
  | bool a, bool b =>
    if h : a = b then isTrue (by rw [h]) else isFalse (by intro e; cases e; exact h rfl)
  | num a, num b =>
    if h : a = b then isTrue (by rw [h]) else isFalse (by intro e; cases e; exact h rfl)
  | str a, str b =>
    if h : a = b then isTrue (by rw [h]) else isFalse (by intro e; cases e; exact h rfl)
  | obj a, obj b =>
    match decEqProps a b with
    | isTrue h => isTrue (by rw [h])
    | isFalse h => isFalse (by intro e; cases e; exact h rfl)
  | undef, null | undef, bool _ | undef, num _ | undef, nan | undef, str _ | undef, obj _ =>
    isFalse (by intro e; cases e)
  | null, undef | null, bool _ | null, num _ | null, nan | null, str _ | null, obj _ =>
    isFalse (by intro e; cases e)
  | bool _, undef | bool _, null | bool _, num _ | bool _, nan | bool _, str _ | bool _, obj _ =>
    isFalse (by intro e; cases e)
  | num _, undef | num _, null | num _, bool _ | num _, nan | num _, str _ | num _, obj _ =>
    isFalse (by intro e; cases e)
  | nan, undef | nan, null | nan, bool _ | nan, num _ | nan, str _ | nan, obj _ =>
    isFalse (by intro e; cases e)
  | str _, undef | str _, null | str _, bool _ | str _, num _ | str _, nan | str _, obj _ =>
    isFalse (by intro e; cases e)
  | obj _, undef | obj _, null | obj _, bool _ | obj _, num _ | obj _, nan | obj _, str _ =>
    isFalse (by intro e; cases e)
/-- Decidable equality of property lists. -/
def decEqProps : (a b : List (String × JVal)) → Decidable (a = b)
  | [], [] => isTrue rfl
  | [], _ :: _ => isFalse (by intro e; cases e)
  | _ :: _, [] => isFalse (by intro e; cases e)
  | (k, v) :: r, (k2, v2) :: r2 =>
    if hk : k = k2 then
      match decEq v v2 with
      | isTrue hv =>
        match decEqProps r r2 with
        | isTrue hr => isTrue (by rw [hk, hv, hr])
        | isFalse hr => isFalse (by intro e; cases e; exact hr rfl)
      | isFalse hv => isFalse (by intro e; cases e; exact hv rfl)
    else isFalse (by intro e; cases e; exact hk rfl)
end

instance : DecidableEq JVal := decEq

/-- JavaScript truthiness (`ToBoolean`). -/
def truthy : JVal → Bool
  | undef => false
  | null => false
  | bool b => b
  | num n => decide (n ≠ 0)
  | nan => false
  | str s => decide (s ≠ "")
  | obj _ => true

end JVal

open JVal

/-! ## Own properties of plain objects -/

/-- The value of the own property `k`, if present. -/
def lookupKey (k : String) : Props → Option JVal
  | [] => none
  | (k2, v) :: r => if k2 = k then some v else lookupKey k r

/-- Assignment `o[k] = v`: an existing property keeps its place, a new one is
added last. -/
def setKey (k : String) (v : JVal) : Props → Props
  | [] => [(k, v)]
  | (k2, v2) :: r => if k2 = k then (k, v) :: r else (k2, v2) :: setKey k v r

/-- The statement `delete o[k]`. -/
def eraseKey (k : String) : Props → Props
  | [] => []
  | (k2, v2) :: r => if k2 = k then eraseKey k r else (k2, v2) :: eraseKey k r

/-- The property read `x[k]` (also `x?.[k]` when `x` is `null` or `undefined`):
`undefined` when `x` has no own property `k`. -/
def getProp : JVal → String → JVal
  | obj kvs, k => (lookupKey k kvs).getD undef
  | _, _ => undef

/-- The in-place write `x[k] = v` on an object that is reachable from the tree. -/
def setProp : JVal → String → JVal → JVal
  | obj kvs, k, v => obj (setKey k v kvs)
  | x, _, _ => x

mutual
/-- The value read back by `JSON.parse(JSON.stringify(v))`: `NaN` becomes `null`
and properties holding `undefined` are dropped. The updater only copies
`prevFS || {}`, which is never `undefined` itself. -/
def jsonClone : JVal → JVal
  | .undef => .undef
  | .null => .null
  | .bool b => .bool b
  | .num n => .num n
  | .nan => .null
  | .str s => .str s
  | .obj kvs => .obj (jsonCloneProps kvs)
/-- The properties kept by `JSON.stringify`. -/
def jsonCloneProps : List (String × JVal) → List (String × JVal)
  | [] => []
  | (k, v) :: r =>
    if v = JVal.undef then jsonCloneProps r else (k, jsonClone v) :: jsonCloneProps r
end

/-! ## The name codec (useFileSystem.js, lines 5-23)

The builtins `encodeURIComponent`, `btoa`, `atob` and `decodeURIComponent` are
modelled after their standards (ECMA-262 `Encode`/`Decode`, WHATWG forgiving
base64). Characters are compared through their code points. -/

/-- The UTF-8 octets of a code point. -/
def utf8Octets (n : Nat) : List Nat :=
  if n < 0x80 then [n]
  else if n < 0x800 then [0xC0 + n / 64, 0x80 + n % 64]
  else if n < 0x10000 then [0xE0 + n / 4096, 0x80 + n / 64 % 64, 0x80 + n % 64]
  else [0xF0 + n / 262144, 0x80 + n / 4096 % 64, 0x80 + n / 64 % 64, 0x80 + n % 64]

/-- The characters that `encodeURIComponent` leaves as they are: the ASCII
letters and digits and `- _ . ! ~ * ' ( )`. -/
def uriUnreserved (c : Char) : Bool :=
  let n := c.toNat
  decide ((65 ≤ n ∧ n ≤ 90) ∨ (97 ≤ n ∧ n ≤ 122) ∨ (48 ≤ n ∧ n ≤ 57) ∨ n = 45 ∨ n = 95 ∨
    n = 46 ∨ n = 33 ∨ n = 126 ∨ n = 42 ∨ n = 39 ∨ n = 40 ∨ n = 41)

/-- One hexadecimal digit, upper case (`0-9`, `A-F`). -/
def upperHexDigit (d : Nat) : Char :=
  if d < 10 then Char.ofNat (48 + d) else Char.ofNat (55 + d)

/-- One hexadecimal digit, lower case, as printed by `toString(16)`. -/
def lowerHexDigit (d : Nat) : Char :=
  if d < 10 then Char.ofNat (48 + d) else Char.ofNat (87 + d)

/-- The escape `%XX` of one octet, as written by `encodeURIComponent`. -/
def percentUpper (b : Nat) : List Char :=
  ['%', upperHexDigit (b / 16), upperHexDigit (b % 16)]

/-- The builtin `encodeURIComponent` on the characters of a well-formed string. -/
def encodeURIComponentChars : List Char → List Char
  | [] => []
  | c :: rest =>
    (if uriUnreserved c then [c] else (utf8Octets c.toNat).flatMap percentUpper) ++
      encodeURIComponentChars rest

/-- The value of a character of the class `[0-9A-F]`. -/
def upperHexVal (c : Char) : Option Nat :=
  let n := c.toNat
  if 48 ≤ n ∧ n ≤ 57 then some (n - 48)
  else if 65 ≤ n ∧ n ≤ 70 then some (n - 55)
  else none

/-- The call `.replace(/%([0-9A-F]{2})/g, (match, p1) => String.fromCharCode('0x' + p1))`. -/
def replacePercentEscapes : List Char → List Char
  | [] => []
  | c :: tail =>
    let unmatched := c :: replacePercentEscapes tail
    if c = '%' then
      match tail with
      | h :: l :: rest =>
        match upperHexVal h, upperHexVal l with
        | some x, some y => Char.ofNat (16 * x + y) :: replacePercentEscapes rest
        | _, _ => unmatched
      | _ => unmatched
    else unmatched

/-- The base64 digit of a six-bit value (`A-Z`, `a-z`, `0-9`, `+`, `/`). -/
def base64Digit (n : Nat) : Char :=
  if n < 26 then Char.ofNat (65 + n)
  else if n < 52 then Char.ofNat (71 + n)
  else if n < 62 then Char.ofNat (n - 4)
  else if n = 62 then '+' else '/'

/-- Base64 of a list of octets, with `=` padding. -/
def base64Encode : List Nat → List Char
  | a :: b :: c :: rest =>
    base64Digit (a / 4) :: base64Digit (a % 4 * 16 + b / 16) ::
      base64Digit (b % 16 * 4 + c / 64) :: base64Digit (c % 64) :: base64Encode rest
  | [a, b] =>
    [base64Digit (a / 4), base64Digit (a % 4 * 16 + b / 16), base64Digit (b % 16 * 4), '=']
  | [a] => [base64Digit (a / 4), base64Digit (a % 4 * 16), '=', '=']
  | [] => []

/-- The builtin `btoa`: raises (`none`) when a character is above U+00FF. -/
def btoa (s : String) : Option String :=
  if s.data.all (fun c => decide (c.toNat < 256)) then
    some (String.mk (base64Encode (s.data.map Char.toNat)))
  else none

/-- The function `b64EncodeUnicode`. `encodeURIComponent` does not raise on a
well-formed string, so the handler runs only when `btoa` raises. -/
def b64EncodeUnicode (str : String) : Option String :=
  match btoa (String.mk (replacePercentEscapes (encodeURIComponentChars str.data))) with
  | some r => some r
  | none => btoa str

/-- The six-bit value of a base64 digit. -/
def base64Val (c : Char) : Option Nat :=
  let n := c.toNat
  if 65 ≤ n ∧ n ≤ 90 then some (n - 65)
  else if 97 ≤ n ∧ n ≤ 122 then some (n - 71)
  else if 48 ≤ n ∧ n ≤ 57 then some (n + 4)
  else if n = 43 then some 62
  else if n = 47 then some 63
  else none

/-- ASCII whitespace (tab, line feed, form feed, carriage return, space),
which `atob` skips. -/
def asciiWhitespace (c : Char) : Bool :=
  let n := c.toNat
  decide (n = 9 ∨ n = 10 ∨ n = 12 ∨ n = 13 ∨ n = 32)

/-- Removal of one or two trailing `=` signs. -/
def stripPadding (d : List Char) : List Char :=
  match d.reverse with
  | '=' :: '=' :: r => r.reverse
  | '=' :: r => r.reverse
  | _ => d

/-- The octets of a list of six-bit values; an incomplete last group gives one
or two octets and its spare bits are dropped. -/
def sextetsToOctets : List Nat → List Nat
  | a :: b :: c :: d :: rest =>
    (a * 4 + b / 16) :: (b % 16 * 16 + c / 4) :: (c % 4 * 64 + d) :: sextetsToOctets rest
  | [a, b, c] => [a * 4 + b / 16, b % 16 * 16 + c / 4]
  | [a, b] => [a * 4 + b / 16]
  | _ => []

/-- The six-bit values of a list of base64 digits, if all are digits. -/
def base64Vals : List Char → Option (List Nat)
  | [] => some []
  | c :: rest =>
    match base64Val c, base64Vals rest with
    | some v, some vs => some (v :: vs)
    | _, _ => none

/-- The builtin `atob` (forgiving base64 decoding): the result is a string of
characters below U+0100; it raises (`none`) on malformed input. -/
def atob (s : String) : Option String :=
  let d := s.data.filter (fun c => !asciiWhitespace c)
  let d := if d.length % 4 = 0 then stripPadding d else d
  if d.length % 4 = 1 then none
  else
    match base64Vals d with
    | none => none
    | some vs => some (String.mk ((sextetsToOctets vs).map Char.ofNat))

/-- The value of a hexadecimal digit of either case. -/
def hexVal (c : Char) : Option Nat :=
  let n := c.toNat
  if 48 ≤ n ∧ n ≤ 57 then some (n - 48)
  else if 65 ≤ n ∧ n ≤ 70 then some (n - 55)
  else if 97 ≤ n ∧ n ≤ 102 then some (n - 87)
  else none

/-- The items read by `decodeURIComponent`: a literal character or the octet of
an escape `%XX`. -/
inductive UriItem where
  | lit (c : Char) : UriItem
  | octet (b : Nat) : UriItem

/-- Splitting of the input of `decodeURIComponent` into items; a `%` that is not
followed by two hexadecimal digits raises a `URIError` (`none`). -/
def uriItems : List Char → Option (List UriItem)
  | [] => some []
  | c :: tail =>
    if c = '%' then
      match tail with
      | h :: l :: rest =>
        match hexVal h, hexVal l, uriItems rest with
        | some x, some y, some items => some (UriItem.octet (16 * x + y) :: items)
        | _, _, _ => none
      | _ => none
    else
      match uriItems tail with
      | some items => some (UriItem.lit c :: items)
      | none => none

/-- A continuation octet `10xxxxxx`. -/
def isContinuation (b : Nat) : Bool := decide (0x80 ≤ b ∧ b < 0xC0)

/-- The character of a decoded code point; `none` unless the octets were its
shortest UTF-8 form and it is a Unicode scalar value. -/
def scalarOfOctets (least v : Nat) : Option Char :=
  if least ≤ v ∧ v < 0x110000 ∧ ¬ (0xD800 ≤ v ∧ v < 0xE000) then some (Char.ofNat v) else none

/-- UTF-8 decoding of the items of `decodeURIComponent`, one item at a time.
Between items the decoder remembers how many continuation octets it still
needs (`need`), the least code point that the sequence may encode (`least`)
and the bits read so far (`acc`). An octet sequence that is not valid UTF-8
raises a `URIError` (`none`). -/
def decodeUriItems : Nat → Nat → Nat → List UriItem → Option (List Char)
  | need, _, _, [] => if need = 0 then some [] else none
  | need, _, _, UriItem.lit c :: rest =>
    if need = 0 then (decodeUriItems 0 0 0 rest).map (fun cs => c :: cs) else none
  | need, least, acc, UriItem.octet b :: rest =>
    if need = 0 then
      if b < 0x80 then (decodeUriItems 0 0 0 rest).map (fun cs => Char.ofNat b :: cs)
      else if b < 0xC0 then none
      else if b < 0xE0 then decodeUriItems 1 0x80 (b - 0xC0) rest
      else if b < 0xF0 then decodeUriItems 2 0x800 (b - 0xE0) rest
      else if b < 0xF8 then decodeUriItems 3 0x10000 (b - 0xF0) rest
      else none
    else if isContinuation b then
      if need = 1 then
        match scalarOfOctets least (acc * 64 + (b - 0x80)) with
        | some c => (decodeUriItems 0 0 0 rest).map (fun cs => c :: cs)
        | none => none
      else decodeUriItems (need - 1) least (acc * 64 + (b - 0x80)) rest
    else none

/-- The builtin `decodeURIComponent`. -/
def decodeURIComponent (s : String) : Option String :=
  match uriItems s.data with
  | none => none
  | some items =>
    match decodeUriItems 0 0 0 items with
    | none => none
    | some cs => some (String.mk cs)

/-- The escape written by `'%' + ('00' + c.charCodeAt(0).toString(16)).slice(-2)`
for a character below U+0100. -/
def percentLower (b : Nat) : List Char :=
  ['%', lowerHexDigit (b / 16), lowerHexDigit (b % 16)]

/-- The function `b64DecodeUnicode`: the argument itself when `atob` or
`decodeURIComponent` raises. -/
def b64DecodeUnicode (str : String) : String :=
  match atob str with
  | none => str
  | some bin =>
    match decodeURIComponent (String.mk (bin.data.flatMap (fun c => percentLower c.toNat))) with
    | none => str
    | some r => r

/-! ## `getCurrentDirectory` (useFileSystem.js, lines 310-321) -/

/-- The loop of `getCurrentDirectory`. Reading a property of `null` or
`undefined` raises a `TypeError` (`none`). -/
def getCurrentDirectoryLoop : JVal → List String → Option JVal
  | current, [] => some current
  | current, part :: rest =>
    match current with
    | .undef => none
    | .null => none
    | _ =>
      if getProp (getProp current part) "type" = str "folder" then
        getCurrentDirectoryLoop (getProp (getProp current part) "content") rest
      else some null

/-- The function `getCurrentDirectory(fs, path)`. -/
def getCurrentDirectory (fs : JVal) (path : List String) : Option JVal :=
  if truthy fs then getCurrentDirectoryLoop fs path else some null


/-! ## The optimistic patch of `updateFileSystem` (useFileSystem.js, lines 65-136) -/

/-- The `options` argument of `updateFileSystem`. A field that the caller leaves
out is `none`, `undef` or `false`. -/
structure Options where
  path : Option (List String)
  key : Option String
  value : JVal
  delete : Bool
  append : Bool
  silent : Bool
  deriving DecidableEq

/-- The property key denoted by `options.key`: an absent key is converted to the
string `undefined`. -/
def propertyKey (key : Option String) : String := key.getD "undefined"

/-- The expression `currentPath.reduce((acc, val) => [...acc, val, 'content'], [])`. -/
def contentPath (currentPath : List String) : List String :=
  currentPath.foldl (fun acc val => acc ++ [val, "content"]) []

/-- The parent path of a mutation: `options.path`, or the one derived from the
path cursor when `options.path` is `undefined`. -/
def parentPath (currentPath : List String) (path : Option (List String)) : List String :=
  match path with
  | none => contentPath currentPath
  | some p => p

/-- The conversion `ToString` of the operator `+`. -/
def jsToString : JVal → String
  | .undef => "undefined"
  | .null => "null"
  | .bool b => if b then "true" else "false"
  | .num n => toString n
  | .nan => "NaN"
  | .str s => s
  | .obj _ => "[object Object]"

/-- The conversion `ToNumber` of the operator `+` on operands that are not
strings or objects; `none` is `NaN`. -/
def jsToNumber : JVal → Option Int
  | .null => some 0
  | .bool b => some (if b then 1 else 0)
  | .num n => some n
  | _ => none

/-- The operator `+` of `content += options.value.content`: concatenation when
either operand is a string or an object, addition of numbers otherwise. -/
def jsPlus (a b : JVal) : JVal :=
  match a, b with
  | .str x, _ => .str (x ++ jsToString b)
  | .obj _, _ => .str (jsToString a ++ jsToString b)
  | _, .str y => .str (jsToString a ++ y)
  | _, .obj _ => .str (jsToString a ++ jsToString b)
  | _, _ =>
    match jsToNumber a, jsToNumber b with
    | some x, some y => .num (x + y)
    | _, _ => .nan

/-- The three statements applied to the object reached by the walk
(lines 114-120). Writing a property of a primitive and reading
`options.value.content` when `options.value` is `null` or `undefined` raise a
`TypeError` (`none`). -/
def applyMutation (parent : JVal) (options : Options) : Option JVal :=
  let key := propertyKey options.key
  match parent with
  | .undef => none
  | .null => none
  | .obj kvs =>
    if options.delete then some (.obj (eraseKey key kvs))
    else if options.append && truthy (getProp (getProp parent key) "content") then
      match options.value with
      | .undef => none
      | .null => none
      | value =>
        some (.obj (setKey key
          (setProp (getProp parent key) "content"
            (jsPlus (getProp (getProp parent key) "content") (getProp value "content"))) kvs))
    else some (.obj (setKey key options.value kvs))
  | primitive => if options.delete then some primitive else none

/-- The result of the loop `for (const segment of path)` on the copy. -/
inductive Walk where
  | missing : Walk
  | raised : Walk
  | done (v : JVal) : Walk

/-- The walk down `path` followed by the mutation of the object reached. The
mutation is made in place, so every object on the path holds the mutated child
afterwards. `missing` is the exit `return prevFS`. -/
def patchWalk (parent : JVal) (options : Options) : List String → Walk
  | [] =>
    match applyMutation parent options with
    | none => Walk.raised
    | some p => Walk.done p
  | segment :: rest =>
    if truthy (getProp parent segment) then
      match patchWalk (getProp parent segment) options rest with
      | Walk.done child => Walk.done (setProp parent segment child)
      | r => r
    else Walk.missing

/-- The updater handed to `setFileSystem` (lines 103-122), applied to the
previous tree. -/
def patchFileSystem (prevFS : JVal) (path : List String) (options : Options) : Option JVal :=
  let newFS := jsonClone (if truthy prevFS then prevFS else .obj [])
  match patchWalk newFS options path with
  | Walk.missing => some prevFS
  | Walk.raised => none
  | Walk.done t => some t

/-! ## The state of the hook and its effects -/

/-- A `Date`: its time value in milliseconds, `none` for an invalid date. -/
abbrev JsDate := Option Int

/-- The comparison `a > b` of two dates; it is false when either is invalid. -/
def dateGt (a b : JsDate) : Bool :=
  match a, b with
  | some x, some y => decide (x > y)
  | _, _ => false

/-- The state and refs of `useFileSystem` that the modelled operations use. The
user is represented by `user.id`. -/
structure HookState where
  user : Option String
  fileSystem : JVal
  isSyncing : Bool
  currentPath : List String
  lastUpdatedRef : Option JsDate
  deriving DecidableEq

/-- The arguments of the remote procedure `upsert_filesystem_entry`. -/
structure UpsertArgs where
  p_user_id : String
  p_path : List String
  p_key : JVal
  p_value : JVal
  p_delete : Bool
  p_append : Bool
  p_updated_at : Int
  deriving DecidableEq

/-- The calls that leave the hook, in the order in which they are made. -/
inductive Effect where
  | addCommandOutput (type title message : String) : Effect
  | rpcUpsert (args : UpsertArgs) : Effect
  | dispatchSignOut (message : String) : Effect
  | logToMessageCenter (logContent : String) (isError : Bool) : Effect
  | fetchFileSystemFromDB (isInitialLoad : Bool) : Effect
  deriving DecidableEq

/-- The error object returned by the remote store. -/
structure RemoteError where
  message : String
  deriving DecidableEq

/-- The test `sub` is at the head of `s`. -/
def startsWithChars : List Char → List Char → Bool
  | [], _ => true
  | _ :: _, [] => false
  | a :: sub, b :: s => decide (a = b) && startsWithChars sub s

/-- The method `includes` on the characters of two strings. -/
def includesChars (sub : List Char) : List Char → Bool
  | [] => sub.isEmpty
  | c :: s => startsWithChars sub (c :: s) || includesChars sub s

/-- The call `s.includes(sub)`. -/
def jsIncludes (s sub : String) : Bool := includesChars sub.data s.data

/-- The condition of `handleAuthError` (lines 37-43). -/
def isAuthError (error : RemoteError) : Bool :=
  jsIncludes error.message "refresh_token_not_found" || jsIncludes error.message "JWT expired"

/-- The function `handleAuthError(error)`: its result and the event it dispatches. -/
def handleAuthError (error : RemoteError) : Bool × List Effect :=
  if isAuthError error then
    (true, [Effect.dispatchSignOut "Your session has expired. Please log in again."])
  else (false, [])

/-- The arguments of the call `supabase.rpc` (lines 78-86). -/
def upsertArgs (userId : String) (path : List String) (options : Options) (now : Int) :
    UpsertArgs :=
  { p_user_id := userId
    p_path := path
    p_key := match options.key with
      | some k => if k = "" then JVal.null else JVal.str k
      | none => JVal.null
    p_value := if truthy options.value then options.value else JVal.null
    p_delete := options.delete
    p_append := options.append
    p_updated_at := now }

/-- The function `syncOperation` (lines 68-132) for the signed-in user
`userId`; `now` is the clock read by `new Date()` and `rpcError` the `error`
field of the answer of the remote store. `logToMessageCenter` and
`fetchFileSystemFromDB` are recorded as calls. -/
def syncOperation (st : HookState) (userId : String) (operationDescription : String)
    (options : Options) (now : Int) (rpcError : Option RemoteError) :
    Option (HookState × List Effect) :=
  let announce :=
    if options.silent then []
    else [Effect.addCommandOutput "info" "Syncing..." operationDescription]
  let path := parentPath st.currentPath options.path
  let call := [Effect.rpcUpsert (upsertArgs userId path options now)]
  match rpcError with
  | some error =>
    if (handleAuthError error).1 then
      some ({ st with isSyncing := false }, announce ++ call ++ (handleAuthError error).2)
    else
      let report :=
        if jsIncludes error.message "statement timeout" then
          Effect.addCommandOutput "error" "Sync State"
            "Negotiating with server; Please Stand-by..."
        else
          Effect.addCommandOutput "error" "Sync Error"
            ("Failed to save changes: " ++ error.message)
      some ({ st with isSyncing := false },
        announce ++ call ++ (handleAuthError error).2 ++
          [report,
            Effect.logToMessageCenter
              ("Sync failed for operation: '" ++ operationDescription ++ "'. Reason: " ++
                error.message) true,
            Effect.fetchFileSystemFromDB false])
  | none =>
    match patchFileSystem st.fileSystem path options with
    | none => none
    | some newFS =>
      some ({ st with fileSystem := newFS, lastUpdatedRef := some (some now), isSyncing := false },
        announce ++ call ++
          (if options.silent then []
           else
            [Effect.addCommandOutput "success" "Sync Complete" "Your desk is up to date.",
              Effect.logToMessageCenter
                ("Operation successful: '" ++ operationDescription ++ "'.") false]))

/-- The function `updateFileSystem(operationDescription, options)` when the queue is idle: the
operation runs to completion. Without a user nothing happens. -/
def updateFileSystem (st : HookState) (operationDescription : String) (options : Options)
    (now : Int) (rpcError : Option RemoteError) : Option (HookState × List Effect) :=
  match st.user with
  | none => some (st, [])
  | some userId => syncOperation st userId operationDescription options now rpcError

/-- The handler of `postgres_changes` (lines 288-297): `updatedAt` is
`payload.new?.updated_at` and `remoteUpdate` the date built from it. -/
def onPostgresChanges (lastUpdatedRef : Option JsDate) (updatedAt : JVal)
    (remoteUpdate : JsDate) : List Effect :=
  if truthy updatedAt then
    if (match lastUpdatedRef with
        | none => true
        | some last => dateGt remoteUpdate last) then
      [Effect.addCommandOutput "info" "Desk Synced"
          "Your desk has been updated from another session. Fetching changes...",
        Effect.logToMessageCenter "Desk synced from a remote session." false,
        Effect.fetchFileSystemFromDB false]
    else []
  else []

/-- The number of UTF-16 code units of a string. -/
def utf16Length (s : String) : Nat :=
  (s.data.map (fun c => if c.toNat < 0x10000 then 1 else 2)).sum

/-- The builtin `Object.keys`: it raises on `null` and `undefined`, and the keys
of a string are its indices. -/
def objectKeys : JVal → Option (List String)
  | .undef => none
  | .null => none
  | .obj kvs => some (kvs.map Prod.fst)
  | .str s => some ((List.range (utf16Length s)).map toString)
  | _ => some []

/-- The function `removeDirectory(dirName)` (lines 450-470). -/
def removeDirectory (st : HookState) (dirName : String) (now : Int)
    (rpcError : Option RemoteError) : Option (HookState × List Effect) :=
  if truthy st.fileSystem then
    match getCurrentDirectory st.fileSystem st.currentPath, b64EncodeUnicode dirName with
    | some dir, some encodedDirName =>
      if truthy dir && truthy (getProp dir encodedDirName) &&
          decide (getProp (getProp dir encodedDirName) "type" = JVal.str "folder") then
        match objectKeys (getProp (getProp dir encodedDirName) "content") with
        | none => none
        | some keys =>
          if keys.length > 0 then
            some (st, [Effect.addCommandOutput "error" "Error"
              ("Directory '" ++ dirName ++ "' is not empty. Please remove its contents first.")])
          else
            updateFileSystem st ("Deleting directory '" ++ dirName ++ "'.")
              { path := none, key := some encodedDirName, value := JVal.undef, delete := true,
                append := false, silent := false } now rpcError
      else
        some (st, [Effect.addCommandOutput "error" "Error"
          ("Directory '" ++ dirName ++
            "' not found in the current directory or is not a directory.")])
    | _, _ => none
  else some (st, [])

/-! ## The file browser (Codex.jsx) -/

/-- An entry of the list `items` of the file browser (Codex.jsx, lines 621-634). -/
structure Item where
  name : String
  encodedName : String
  type : JVal
  content : JVal
  storagePath : JVal
  deriving DecidableEq

/-- The entry built from one pair of `Object.entries(currentDirContent)`. Reading
a field of `null` or `undefined` raises. -/
def codexItem (encodedName : String) (data : JVal) : Option Item :=
  match data with
  | .undef => none
  | .null => none
  | _ =>
    some { name := b64DecodeUnicode encodedName, encodedName := encodedName,
           type := getProp data "type", content := getProp data "content",
           storagePath := getProp data "storagePath" }

/-- The entries of `items`, before sorting: one per property of the current
directory (one per index when it is a string). -/
def codexItems (currentDirContent : JVal) : Option (List Item) :=
  if truthy currentDirContent then
    match currentDirContent with
    | .obj kvs => kvs.mapM (fun kv => codexItem kv.1 kv.2)
    | .str s => (List.range (utf16Length s)).mapM (fun i => codexItem (toString i) (.str ""))
    | _ => some []
  else some []

/-- The handler `handleDelete(e, item)` (Codex.jsx, lines 674-687); `confirmed` is the answer
of `window.confirm`. -/
def handleDelete (st : HookState) (item : Item) (confirmed : Bool) (now : Int)
    (rpcError : Option RemoteError) : Option (HookState × List Effect) :=
  if confirmed then
    updateFileSystem st ("Deleted '" ++ item.name ++ "'")
      { path := some (contentPath st.currentPath), key := some item.encodedName,
        value := JVal.undef, delete := true, append := false, silent := false } now rpcError
  else some (st, [])

/-! ## Notions of the specification used in the statements -/

mutual
/-- The data-model invariant that the content of a Folder is itself a mapping,
for every node of a mapping and below. -/
def mappingOk : List (String × JVal) → Bool
  | [] => true
  | (_, v) :: r => nodeOk v && mappingOk r
/-- The invariant for one node: a node tagged `folder` has a mapping as content. -/
def nodeOk : JVal → Bool
  | .obj fields =>
    if lookupKey "type" fields = some (JVal.str "folder") then contentOk fields else true
  | .undef => true
  | .null => true
  | .bool _ => true
  | .num _ => true
  | .nan => true
  | .str _ => true
/-- The invariant for the fields of a node tagged `folder`. -/
def contentOk : List (String × JVal) → Bool
  | [] => false
  | (k, v) :: r => if k = "content" then contentValueOk v else contentOk r
/-- The invariant for the value of the field `content` of a node tagged `folder`. -/
def contentValueOk : JVal → Bool
  | .obj c => mappingOk c
  | .undef => false
  | .null => false
  | .bool _ => false
  | .num _ => false
  | .nan => false
  | .str _ => false
end

/-- A value that `JSON.parse(JSON.stringify(v))` gives back unchanged. -/
def IsJson (v : JVal) : Prop := jsonClone v = v

instance (v : JVal) : Decidable (IsJson v) := by unfold IsJson; infer_instance

/-- The node is a Folder with content mapping `content`. -/
def IsFolder (node : JVal) (content : Props) : Prop :=
  getProp node "type" = JVal.str "folder" ∧ getProp node "content" = JVal.obj content

/-- Walking `path` from the mapping `root` through Folder nodes only ends at the
content mapping `m`. -/
inductive ResolvesTo : Props → List String → Props → Prop where
  | nil (root : Props) : ResolvesTo root [] root
  | cons (root : Props) (segment : String) (rest : List String) (node : JVal)
      (content m : Props) :
      lookupKey segment root = some node → IsFolder node content →
      ResolvesTo content rest m → ResolvesTo root (segment :: rest) m

/-- Some segment of `path` is not a key of the mapping reached so far, or names a
node that is not tagged as a Folder. -/
def FailsAt (root : Props) (path : List String) : Prop :=
  ∃ (before : List String) (segment : String) (after : List String) (m : Props),
    path = before ++ segment :: after ∧ ResolvesTo root before m ∧
      (lookupKey segment m = none ∨
        ∃ node, lookupKey segment m = some node ∧ getProp node "type" ≠ JVal.str "folder")

/-- The loop `for (const segment of path)` of the patch on its own: the object
reached, or `none` at the exit `return prevFS`. -/
def walkPath : JVal → List String → Option JVal
  | parent, [] => some parent
  | parent, segment :: rest =>
    if truthy (getProp parent segment) then walkPath (getProp parent segment) rest else none

/-- The tree `t` with the value at the end of `path` replaced by `x`. -/
def replaceAt : JVal → List String → JVal → JVal
  | _, [], x => x
  | t, segment :: rest, x => setProp t segment (replaceAt (getProp t segment) rest x)

/-- The node is a File whose inline content is the string `content`. -/
def IsFileWith (node : JVal) (content : String) : Prop :=
  getProp node "type" = JVal.str "file" ∧ getProp node "content" = JVal.str content

/-- The path `q` leaves the path `r` at some segment. -/
def Diverges (q r : List String) : Prop :=
  ∃ (common : List String) (a b : String) (after rest : List String),
    a ≠ b ∧ q = common ++ a :: after ∧ r = common ++ b :: rest

/-- One create mutation: a call of `updateFileSystem` with a key and a node
value, without `delete` and without `append`. -/
structure CreateOp where
  description : String
  key : String
  value : JVal
  silent : Bool
  now : Int

/-- The options of a create mutation against the parent path `path`. -/
def createOptions (path : Option (List String)) (op : CreateOp) : Options :=
  { path := path, key := some op.key, value := op.value, delete := false, append := false,
    silent := op.silent }

/-- The mutations of a list run one after another, each one successful at the
remote store. -/
def runCreates (path : Option (List String)) : HookState → List CreateOp → Option HookState
  | st, [] => some st
  | st, op :: rest =>
    match updateFileSystem st op.description (createOptions path op) op.now none with
    | some (st1, _) => runCreates path st1 rest
    | none => none

/-- The parent mapping after the writes of a list of creates. -/
def writeAll (d : Props) (ops : List CreateOp) : Props :=
  ops.foldl (fun m op => setKey op.key op.value m) d

/-- The effect is a call of `fetchFileSystemFromDB`. -/
def isFetch : Effect → Bool
  | Effect.fetchFileSystemFromDB _ => true
  | _ => false

/-- The number of calls of `fetchFileSystemFromDB` among the effects. -/
def fetchCount (effects : List Effect) : Nat := effects.countP isFetch

/-- The remote mutations among the effects, in order. -/
def upserts : List Effect → List UpsertArgs
  | [] => []
  | Effect.rpcUpsert args :: rest => args :: upserts rest
  | _ :: rest => upserts rest

/-! ## Auxiliary notions for the codec -/

/-- The UTF-8 octets of the characters of a string. -/
def utf8Bytes (cs : List Char) : List Nat := cs.flatMap (fun c => utf8Octets c.toNat)

/-- The six-bit values of the base64 form of a list of octets. -/
def base64Sextets : List Nat → List Nat
  | a :: b :: c :: rest =>
    a / 4 :: (a % 4 * 16 + b / 16) :: (b % 16 * 4 + c / 64) :: c % 64 :: base64Sextets rest
  | [a, b] => [a / 4, a % 4 * 16 + b / 16, b % 16 * 4]
  | [a] => [a / 4, a % 4 * 16]
  | [] => []

/-- The padding of the base64 form of a list of octets. -/
def base64Pad : List Nat → List Char
  | _ :: _ :: _ :: rest => base64Pad rest
  | [_, _] => ['=']
  | [_] => ['=', '=']
  | [] => []

/-! ## Sample data -/

/-- A Folder node. -/
def folderNode (content : Props) : JVal :=
  JVal.obj [("type", JVal.str "folder"), ("content", JVal.obj content)]

/-- A File node with inline content. -/
def fileNode (content : String) : JVal :=
  JVal.obj [("type", JVal.str "file"), ("content", JVal.str content)]

/-- The tree with the folder `docs` (key `ZG9jcw==`) holding the file `a.txt`
(key `YS50eHQ=`) and the empty folder `tmp` (key `dG1w`). -/
def sampleRoot : Props :=
  [("ZG9jcw==", folderNode [("YS50eHQ=", fileNode "hi")]), ("dG1w", folderNode [])]

/-- A signed-in session at the root of `sampleRoot`. -/
def sampleState : HookState :=
  { user := some "u1", fileSystem := JVal.obj sampleRoot, isSyncing := false, currentPath := [],
    lastUpdatedRef := some (some 1000) }

/-- The same session with the cursor in `docs`. -/
def sampleStateInDocs : HookState :=
  { user := some "u1", fileSystem := JVal.obj sampleRoot, isSyncing := false,
    currentPath := ["ZG9jcw=="], lastUpdatedRef := some (some 1000) }

/-- The options of the plain create of the file `b.txt` (key `Yi50eHQ=`). -/
def sampleCreate : Options :=
  { path := none, key := some "Yi50eHQ=", value := fileNode "x", delete := false,
    append := false, silent := false }

/-- The options of an append of ` there` to the file `a.txt`. -/
def sampleAppend : Options :=
  { path := none, key := some "YS50eHQ=", value := fileNode " there", delete := false,
    append := true, silent := true }

/-- Two create mutations with distinct keys. -/
def sampleOps : List CreateOp :=
  [{ description := "Creating file 'b.txt'.", key := "Yi50eHQ=", value := fileNode "",
     silent := false, now := 2000 },
   { description := "Creating directory 'c'.", key := "Yw==", value := folderNode [],
     silent := false, now := 2001 }]

/-- The entry of the file browser for the folder `docs` of `sampleRoot`. -/
def sampleDocsItem : Item :=
  { name := "docs", encodedName := "ZG9jcw==", type := JVal.str "folder",
    content := JVal.obj [("YS50eHQ=", fileNode "hi")], storagePath := JVal.undef }

/-! ## The decoder of DeskContext.jsx and CommandPrompt.jsx -/

/-- The function `b64DecodeUnicode` of DeskContext.jsx (lines 10-20) on a string:
the handler returns `atob(str)`, so it raises (`none`) when `atob` raises. -/
def DeskContext.b64DecodeUnicode (str : String) : Option String :=
  match atob str with
  | none => atob str
  | some bin =>
    match decodeURIComponent (String.mk (bin.data.flatMap (fun c => percentLower c.toNat))) with
    | none => atob str
    | some r => some r

/-- The function `b64DecodeUnicode` of CommandPrompt.jsx (lines 22-32), which has
the same body. -/
def CommandPrompt.b64DecodeUnicode (str : String) : Option String :=
  match atob str with
  | none => atob str
  | some bin =>
    match decodeURIComponent (String.mk (bin.data.flatMap (fun c => percentLower c.toNat))) with
    | none => atob str
    | some r => some r

/-- The method `join` of an array of strings. -/
def jsJoin (sep : String) : List String → String
  | [] => ""
  | [a] => a
  | a :: b :: rest => a ++ sep ++ jsJoin sep (b :: rest)

/-- The decoding of each element of a list; it raises when one decoding raises. -/
def mapDecode (decode : String → Option String) : List String → Option (List String)
  | [] => some []
  | a :: rest =>
    match decode a, mapDecode decode rest with
    | some x, some xs => some (x :: xs)
    | _, _ => none

/-- The answers of the blob store and the output of the desk that are not
effects of the hook. -/
inductive StorageCall where
  | upload (key : String) (upsert : Bool) : StorageCall
  | download (key : String) : StorageCall
  | remove (keys : List String) : StorageCall
  | list (path : String) : StorageCall
  | createSignedUrl (key : String) (expiresIn : Nat) : StorageCall
  deriving DecidableEq

/-- What an operation of the desk does, in order: an effect of the hook, a call
of the blob store, the output of `ls`, or an entry added to the audio queue. -/
inductive DeskEvent where
  | hook (e : Effect) : DeskEvent
  | storage (c : StorageCall) : DeskEvent
  | lsOutput (path : String) (items : List (String × JVal)) : DeskEvent
  | addToAudioQueue (title mimeType : String) : DeskEvent
  deriving DecidableEq

/-- The items listed by `handleLs`; reading `data.type` raises when `data` is
`null` or `undefined`. -/
def lsItems : Props → Option (List (String × JVal))
  | [] => some []
  | (encodedName, data) :: rest =>
    match DeskContext.b64DecodeUnicode encodedName, lsItems rest with
    | some name, some items =>
      if data = JVal.undef ∨ data = JVal.null then none
      else some ((name, getProp data "type") :: items)
    | _, _ => none

/-- The function `handleLs(pathArg)` of DeskContext.jsx (lines 144-167); a directory
that is a string or another primitive has no entries in the model. -/
def handleLs (st : HookState) : Option (List DeskEvent) :=
  match getCurrentDirectory st.fileSystem st.currentPath,
    mapDecode DeskContext.b64DecodeUnicode st.currentPath with
  | some dir, some names =>
    if truthy dir then
      match (match dir with
        | JVal.obj kvs => lsItems kvs
        | _ => some []) with
      | some items => some [DeskEvent.lsOutput ("/" ++ jsJoin "/" names) items]
      | none => none
    else
      some [DeskEvent.hook (Effect.addCommandOutput "error" "ls Error"
        ("Cannot read directory contents of " ++ ("/" ++ jsJoin "/" names) ++
          ". Directory may not exist."))]
  | _, _ => none

/-! ## Storage keys (useFileSystem.js, Codex.jsx) -/

/-- The template `${user.id}/${folderPath ? folderPath + '/' : ''}${fileName}`. -/
def constructedKey (userId folderPath fileName : String) : String :=
  userId ++ "/" ++ (if folderPath = "" then "" else folderPath ++ "/") ++ fileName

/-- The method `startsWith`. -/
def jsStartsWith (s start : String) : Bool := startsWithChars start.data s.data

/-- The statements that compute the storage key of a file, which occur in the
same form in `handleSave` (Codex.jsx, lines 453-462), `catFile` (lines 348-357)
and `removeFile` (lines 416-425). `storagePath` is the field of the file, `path`
the list of encoded folder names and `fileName` the name of the file. Calling
`startsWith` on a value that is not a string raises. -/
def effectiveStorageKey (user : Option String) (storagePath : JVal) (path : List String)
    (fileName : String) : Option JVal :=
  match user with
  | none => some storagePath
  | some userId =>
    if truthy storagePath then
      match storagePath with
      | JVal.str s =>
        if jsStartsWith s userId then some (JVal.str s) else some (JVal.str (userId ++ "/" ++ s))
      | _ => none
    else
      some (JVal.str (constructedKey userId (jsJoin "/" (path.map b64DecodeUnicode)) fileName))

/-- The builtin `encodeURIComponent` on a well-formed string. -/
def encodeURIComponent (s : String) : String := String.mk (encodeURIComponentChars s.data)

/-- The file open in the editor (`editingFile`); `encodedName` and `path` are
absent when the file was opened from the command prompt. -/
structure EditingFile where
  name : String
  encodedName : Option String
  content : JVal
  path : Option (List String)
  isNew : Bool
  storagePath : JVal
  deriving DecidableEq

/-- The key for which the preview loader asks a signed URL (Codex.jsx, lines
358-388), for the folder path `path` and the file name `name`: `listError` and
`listData` are the answer of the listing of the parent directory, `listData`
holding the names of the objects listed. -/
def previewStorageKey (userId : String) (path : List String) (name : String)
    (storagePath : JVal) (listError : Bool) (listData : Option (List String)) : Option String :=
  let folderPath := jsJoin "/" (path.map b64DecodeUnicode)
  let parentStoragePath := userId ++ "/" ++ folderPath
  let listed : Option String :=
    match listError, listData with
    | false, some names =>
      if names.length > 0 then
        match names.find? (fun f => decide (f = name) || decide (f = encodeURIComponent name)) with
        | some m => some (parentStoragePath ++ "/" ++ m)
        | none => none
      else none
    | _, _ => none
  match listed with
  | some key => some key
  | none =>
    if truthy storagePath then
      match storagePath with
      | JVal.str s => if jsStartsWith s userId then some s else some (userId ++ "/" ++ s)
      | _ => none
    else some (parentStoragePath ++ "/" ++ name)

/-- The preview branch of `loadFileContent` up to the request of the signed URL.
An exception inside the `try` block (no user, no `path`, a `storagePath` that is
not a string) is reported as a load error. -/
def loadFileContentPreview (user : Option String) (editingFile : EditingFile)
    (listError : Bool) (listData : Option (List String)) : List DeskEvent :=
  match user, editingFile.path with
  | some userId, some path =>
    let parentStoragePath := userId ++ "/" ++ jsJoin "/" (path.map b64DecodeUnicode)
    match previewStorageKey userId path editingFile.name editingFile.storagePath listError
        listData with
    | some key =>
      [DeskEvent.storage (StorageCall.list parentStoragePath),
        DeskEvent.storage (StorageCall.createSignedUrl key 3600)]
    | none =>
      [DeskEvent.storage (StorageCall.list parentStoragePath),
        DeskEvent.hook (Effect.addCommandOutput "error" "Load Error"
          "Failed to load data for preview mode.")]
  | _, _ =>
    [DeskEvent.hook (Effect.addCommandOutput "error" "Load Error"
      "Failed to load data for preview mode.")]

/-! ## Create operations (CommandPrompt.jsx, Codex.jsx) -/

/-- White space and line terminators, which `trim` removes. -/
def jsWhitespace (c : Char) : Bool :=
  let n := c.toNat
  decide ((9 ≤ n ∧ n ≤ 13) ∨ n = 32 ∨ n = 160 ∨ n = 0x1680 ∨ (0x2000 ≤ n ∧ n ≤ 0x200A) ∨
    n = 0x2028 ∨ n = 0x2029 ∨ n = 0x202F ∨ n = 0x205F ∨ n = 0x3000 ∨ n = 0xFEFF)

/-- The method `trim`. -/
def jsTrim (s : String) : String :=
  String.mk (((s.data.dropWhile jsWhitespace).reverse.dropWhile jsWhitespace).reverse)

/-- The function `b64EncodeUnicode` of Codex.jsx (lines 18-22), which has no
handler. -/
def Codex.b64EncodeUnicode (str : String) : Option String :=
  btoa (String.mk (replacePercentEscapes (encodeURIComponentChars str.data)))

/-- The command `mkdir <dirName>` of the command prompt (CommandPrompt.jsx, lines
964-987). -/
def mkdir (st : HookState) (dirName : String) (now : Int) (rpcError : Option RemoteError) :
    Option (HookState × List Effect) :=
  match b64EncodeUnicode dirName, getCurrentDirectory st.fileSystem st.currentPath with
  | some encodedDirName, some currentDir =>
    if currentDir = JVal.null then
      some (st, [Effect.addCommandOutput "error" "mkdir Error" "Current path does not exist."])
    else if truthy currentDir && !truthy (getProp currentDir encodedDirName) then
      updateFileSystem st ("Creating directory '" ++ dirName ++ "'.")
        { path := some (contentPath st.currentPath), key := some encodedDirName,
          value := JVal.obj [("type", JVal.str "folder"), ("content", JVal.obj [])],
          delete := false, append := false, silent := false } now rpcError
    else
      some (st, [Effect.addCommandOutput "error" "mkdir Error"
        ("'" ++ dirName ++ "' already exists.")])
  | _, _ => none

/-- The command `touch <fileName>` of the command prompt (CommandPrompt.jsx, lines
988-1007). -/
def touch (st : HookState) (fileName : String) (now : Int) (rpcError : Option RemoteError) :
    Option (HookState × List Effect) :=
  match b64EncodeUnicode fileName, getCurrentDirectory st.fileSystem st.currentPath with
  | some encodedFileName, some currentDir =>
    if truthy currentDir && !truthy (getProp currentDir encodedFileName) then
      updateFileSystem st ("Creating file '" ++ fileName ++ "'.")
        { path := some (contentPath st.currentPath), key := some encodedFileName,
          value := JVal.obj [("type", JVal.str "file"), ("content", JVal.str "")],
          delete := false, append := false, silent := false } now rpcError
    else
      some (st, [Effect.addCommandOutput "error" "touch Error"
        ("'" ++ fileName ++ "' already exists.")])
  | _, _ => none

/-- The handler `handleCreate` of the file browser (Codex.jsx, lines 648-672);
`newFileName` is the text typed and `isCreating` is `file` or `folder`. -/
def handleCreate (st : HookState) (newFileName isCreating : String) (now : Int)
    (rpcError : Option RemoteError) : Option (HookState × List Effect) :=
  if jsTrim newFileName = "" then some (st, [])
  else
    match Codex.b64EncodeUnicode (jsTrim newFileName),
      getCurrentDirectory st.fileSystem st.currentPath with
    | some encodedName, some currentDirContent =>
      if truthy currentDirContent && truthy (getProp currentDirContent encodedName) then
        some (st, [Effect.addCommandOutput "error" "Codex Error"
          ("'" ++ jsTrim newFileName ++ "' already exists.")])
      else
        updateFileSystem st ("Created " ++ isCreating ++ " '" ++ jsTrim newFileName ++ "'")
          { path := some (contentPath st.currentPath), key := some encodedName,
            value :=
              if isCreating = "file" then
                JVal.obj [("type", JVal.str "file"), ("content", JVal.str "")]
              else JVal.obj [("type", JVal.str "folder"), ("content", JVal.obj [])],
            delete := false, append := false, silent := false } now rpcError
    | _, _ => none

/-- The file chosen in the upload dialog. -/
structure UploadFile where
  name : String
  type : String
  size : Int
  deriving DecidableEq

/-- The embedding of the effects of the hook among the events of the desk. -/
def hookEvents (r : Option (HookState × List Effect)) : Option (HookState × List DeskEvent) :=
  match r with
  | none => none
  | some (st, effects) => some (st, effects.map DeskEvent.hook)

/-- The events of an operation followed by those of its continuation. -/
def andThen (events : List DeskEvent) (r : Option (HookState × List DeskEvent)) :
    Option (HookState × List DeskEvent) :=
  match r with
  | none => none
  | some (st, more) => some (st, events ++ more)

/-- The handler `handleFileUpload` of the file browser (Codex.jsx, lines 704-760);
`uploadError` is the `error` field of the answer of the blob store. -/
def handleFileUpload (st : HookState) (file : UploadFile) (uploadError : Option RemoteError)
    (now : Int) (rpcError : Option RemoteError) : Option (HookState × List DeskEvent) :=
  match st.user with
  | none =>
    some (st, [DeskEvent.hook
      (Effect.addCommandOutput "error" "Upload Error" "User not authenticated.")])
  | some userId =>
    match Codex.b64EncodeUnicode file.name,
      getCurrentDirectory st.fileSystem st.currentPath with
    | some encodedName, some currentDirContent =>
      if truthy currentDirContent && truthy (getProp currentDirContent encodedName) then
        some (st, [DeskEvent.hook (Effect.addCommandOutput "error" "Upload Error"
          ("'" ++ file.name ++ "' already exists."))])
      else
        let fullStoragePath :=
          constructedKey userId (jsJoin "/" (st.currentPath.map b64DecodeUnicode)) file.name
        let start :=
          [DeskEvent.hook (Effect.addCommandOutput "info" "Upload"
              ("Uploading '" ++ file.name ++ "'...")),
            DeskEvent.storage (StorageCall.upload fullStoragePath false)]
        match uploadError with
        | some error =>
          some (st, start ++
            [DeskEvent.hook (Effect.addCommandOutput "error" "Upload Failed" error.message)])
        | none =>
          andThen start (hookEvents
            (updateFileSystem st ("Uploaded '" ++ file.name ++ "'")
              { path := some (contentPath st.currentPath), key := some encodedName,
                value := JVal.obj [("type", JVal.str "file"),
                  ("storagePath", JVal.str fullStoragePath), ("mimeType", JVal.str file.type),
                  ("size", JVal.num file.size), ("content", JVal.str "")],
                delete := false, append := false, silent := false } now rpcError))
    | _, _ => none

/-! ## `removeFile`, `findPath` and `catFile` (useFileSystem.js, lines 323-448) -/

/-- The key handed to the blob store: a value that is not a string is converted
to one. -/
def storageKeyString (key : JVal) : String := jsToString key

/-- The function `removeFile(fileName)`; `storageError` is the `error` field of
the answer of the first call of `remove`. -/
def removeFile (st : HookState) (fileName : String) (storageError : Option RemoteError)
    (now : Int) (rpcError : Option RemoteError) : Option (HookState × List DeskEvent) :=
  if truthy st.fileSystem then
    match getCurrentDirectory st.fileSystem st.currentPath, b64EncodeUnicode fileName with
    | some dir, some encodedFileName =>
      if truthy dir && truthy (getProp dir encodedFileName) &&
          decide (getProp (getProp dir encodedFileName) "type" = JVal.str "file") then
        let storagePath := getProp (getProp dir encodedFileName) "storagePath"
        match effectiveStorageKey st.user storagePath st.currentPath fileName with
        | none => none
        | some storageKey =>
          let delete :=
            hookEvents (updateFileSystem st ("Deleting '" ++ fileName ++ "'.")
              { path := none, key := some encodedFileName, value := JVal.undef, delete := true,
                append := false, silent := false } now rpcError)
          if truthy storageKey then
            let first := [DeskEvent.storage (StorageCall.remove [storageKeyString storageKey])]
            match storageError with
            | none => andThen first delete
            | some error =>
              let second :=
                if truthy storagePath && decide (storagePath ≠ storageKey) then
                  [DeskEvent.storage (StorageCall.remove [storageKeyString storagePath])]
                else []
              if (handleAuthError error).1 then
                some (st, first ++ second ++ (handleAuthError error).2.map DeskEvent.hook)
              else
                andThen (first ++ second ++
                  [DeskEvent.hook (Effect.logToMessageCenter
                    ("Failed to delete file from storage: " ++ fileName ++ ". Reason: " ++
                      error.message) true)]) delete
          else delete
      else
        some (st, [DeskEvent.hook (Effect.addCommandOutput "error" "Error"
          ("File '" ++ fileName ++ "' not found in the current directory or is not a file."))])
    | _, _ => none
  else some (st, [])

/-- The result of `findPath`. -/
structure FindResult where
  parent : JVal
  encodedName : String
  path : List String
  contentPath : List String
  deriving DecidableEq

/-- The outcome of the function `search` of `findPath`. -/
inductive Search where
  | notFound : Search
  | raised : Search
  | found (r : FindResult) : Search
  deriving DecidableEq

mutual
/-- The loop `for (const encodedName in current)` of `search` over the entries
that remain; `parent` is `current`. -/
def searchEntries (targetName : String) (parent : JVal) :
    List (String × JVal) → List String → List String → Search
  | [], _, _ => Search.notFound
  | (encodedName, v) :: rest, path, contentPath =>
    if b64DecodeUnicode encodedName = targetName then
      Search.found { parent := parent, encodedName := encodedName, path := path,
                     contentPath := contentPath }
    else
      match searchNode targetName v (path ++ [encodedName])
          (contentPath ++ [encodedName, "content"]) with
      | Search.notFound => searchEntries targetName parent rest path contentPath
      | r => r
/-- The test `current[encodedName].type === 'folder'` and the recursive call;
reading `type` of `null` or `undefined` raises. -/
def searchNode (targetName : String) : JVal → List String → List String → Search
  | .undef, _, _ => Search.raised
  | .null, _, _ => Search.raised
  | .bool _, _, _ => Search.notFound
  | .num _, _, _ => Search.notFound
  | .nan, _, _ => Search.notFound
  | .str _, _, _ => Search.notFound
  | .obj fields, path, contentPath =>
    if lookupKey "type" fields = some (JVal.str "folder") then
      searchContent targetName fields path contentPath
    else Search.notFound
/-- The recursive call on the field `content` of a node. -/
def searchContent (targetName : String) :
    List (String × JVal) → List String → List String → Search
  | [], _, _ => Search.notFound
  | (k, v) :: r, path, contentPath =>
    if k = "content" then searchValue targetName v path contentPath
    else searchContent targetName r path contentPath
/-- The call `search(current, path, contentPath)`; a value that is not an object
has no entries in the model. -/
def searchValue (targetName : String) : JVal → List String → List String → Search
  | .obj m, path, contentPath => searchEntries targetName (JVal.obj m) m path contentPath
  | .undef, _, _ => Search.notFound
  | .null, _, _ => Search.notFound
  | .bool _, _, _ => Search.notFound
  | .num _, _, _ => Search.notFound
  | .nan, _, _ => Search.notFound
  | .str _, _, _ => Search.notFound
end

/-- The function `findPath(fs, targetName)`. -/
def findPath (fs : JVal) (targetName : String) : Search := searchValue targetName fs [] []

/-- The answer of `download`. -/
structure DownloadAnswer where
  data : Option String
  error : Option RemoteError
  deriving DecidableEq

/-- The first `n` UTF-16 code units of a list of characters; a character that the
cut would split is dropped. -/
def takeUtf16 : Nat → List Char → List Char
  | _, [] => []
  | n, c :: cs =>
    if (if c.toNat < 0x10000 then 1 else 2) ≤ n then
      c :: takeUtf16 (n - (if c.toNat < 0x10000 then 1 else 2)) cs
    else []

/-- The message `contentPreview.substring(0, 200) + (contentPreview.length > 200 ? '...' : '')`. -/
def previewMessage (contentPreview : String) : String :=
  String.mk (takeUtf16 200 contentPreview.data) ++
    (if utf16Length contentPreview > 200 then "..." else "")

/-- The output of `catFile` for the text `contentPreview`. -/
def catOutput (fileName contentPreview : String) : DeskEvent :=
  DeskEvent.hook (Effect.addCommandOutput "info" ("Content of " ++ fileName)
    (previewMessage contentPreview))

/-- The end of `catFile` once the data to show is known (lines 379-398). -/
def catShow (fileName : String) (file : JVal) (effectiveData : Option String)
    (contentPreview : String) : Option (List DeskEvent) :=
  match effectiveData with
  | none => some [catOutput fileName contentPreview]
  | some text =>
    if truthy (getProp file "mimeType") then
      match getProp file "mimeType" with
      | JVal.str mimeType =>
        if jsStartsWith mimeType "audio/" then
          some [DeskEvent.addToAudioQueue fileName mimeType]
        else some [catOutput fileName text]
      | _ => none
    else some [catOutput fileName text]

/-- The function `catFile(fileName)`; `first` and `retry` are the answers of the
blob store to the download of the computed key and of the recorded
`storagePath`. -/
def catFile (st : HookState) (fileName : String) (first retry : DownloadAnswer) :
    Option (List DeskEvent) :=
  if truthy st.fileSystem then
    match findPath st.fileSystem fileName with
    | Search.raised => none
    | Search.notFound =>
      some [DeskEvent.hook (Effect.addCommandOutput "error" "Error"
        ("File '" ++ fileName ++ "' not found or is a directory."))]
    | Search.found result =>
      let file := getProp result.parent result.encodedName
      if getProp file "type" = JVal.str "file" then
        match effectiveStorageKey st.user (getProp file "storagePath") result.path fileName with
        | none => none
        | some storageKey =>
          if truthy storageKey then
            let download := [DeskEvent.storage (StorageCall.download (storageKeyString storageKey))]
            match first.error with
            | none =>
              (catShow fileName file first.data "Cannot display content.").map
                (fun events => download ++ events)
            | some error =>
              if truthy (getProp file "storagePath") &&
                  decide (getProp file "storagePath" ≠ storageKey) then
                let again :=
                  download ++ [DeskEvent.storage
                    (StorageCall.download (storageKeyString (getProp file "storagePath")))]
                match retry.error with
                | some _ =>
                  if (handleAuthError error).1 then
                    some (again ++ (handleAuthError error).2.map DeskEvent.hook)
                  else
                    (catShow fileName file first.data "Error downloading file content.").map
                      (fun events => again ++ events)
                | none =>
                  (catShow fileName file retry.data "Cannot display content.").map
                    (fun events => again ++ events)
              else if (handleAuthError error).1 then
                some (download ++ (handleAuthError error).2.map DeskEvent.hook)
              else
                (catShow fileName file first.data "Error downloading file content.").map
                  (fun events => download ++ events)
          else
            match getProp file "content" with
            | JVal.str content => some [catOutput fileName content]
            | _ => some [catOutput fileName "Cannot display content."]
      else
        some [DeskEvent.hook (Effect.addCommandOutput "error" "Error"
          ("File '" ++ fileName ++ "' not found or is a directory."))]
  else some []

/-! ## Further sample data -/

/-- The tree after Bootstrap: the scaffold folder under the key `documents` with
the manifest `cmdx.txt` (key `Y21keC50eHQ=`). -/
def scaffoldRoot : Props :=
  [("documents", folderNode [("Y21keC50eHQ=", fileNode "manifest")])]

/-- A signed-in session at the root of `scaffoldRoot`. -/
def scaffoldState : HookState :=
  { user := some "u1", fileSystem := JVal.obj scaffoldRoot, isSyncing := false,
    currentPath := [], lastUpdatedRef := some (some 1000) }

/-- The tree with the folder `docs` holding the inline file `readme.txt` (key
`cmVhZG1lLnR4dA==`) of content `hi there`. -/
def readmeRoot : Props :=
  [("ZG9jcw==", folderNode [("cmVhZG1lLnR4dA==", fileNode "hi there")])]

/-- A signed-in session at the root of `readmeRoot`. -/
def readmeState : HookState :=
  { user := some "u1", fileSystem := JVal.obj readmeRoot, isSyncing := false,
    currentPath := [], lastUpdatedRef := some (some 1000) }

/-- A session whose cursor names the folder `docs` while the tree is empty, as
after a refetch of a document from which the folder was removed. -/
def staleCursorState : HookState :=
  { user := some "u1", fileSystem := JVal.obj [], isSyncing := false,
    currentPath := ["ZG9jcw=="], lastUpdatedRef := some (some 1000) }

/-- The tree with the file `file` (key `ZmlsZQ==`) whose recorded storage path
`u1x/file` begins with the characters of the identity `u1`. -/
def foreignPathRoot : Props :=
  [("ZmlsZQ==", JVal.obj [("type", JVal.str "file"), ("storagePath", JVal.str "u1x/file"),
    ("mimeType", JVal.str "text/plain")])]

/-- A signed-in session of the identity `u1` at the root of `foreignPathRoot`. -/
def foreignPathState : HookState :=
  { user := some "u1", fileSystem := JVal.obj foreignPathRoot, isSyncing := false,
    currentPath := [], lastUpdatedRef := some (some 1000) }

/-- The storage calls among the events. -/
def storageCalls : List DeskEvent → List StorageCall
  | [] => []
  | DeskEvent.storage c :: rest => c :: storageCalls rest
  | _ :: rest => storageCalls rest

/-- The effects of the hook among the events. -/
def hookEffects : List DeskEvent → List Effect
  | [] => []
  | DeskEvent.hook e :: rest => e :: hookEffects rest
  | _ :: rest => hookEffects rest

/-- Every key of the mapping is the canonical encoding of the name it decodes to
and holds a truthy value. -/
def CanonicalKeys (dir : Props) : Prop :=
  ∀ k node, lookupKey k dir = some node →
    b64EncodeUnicode (b64DecodeUnicode k) = some k ∧ truthy node = true

/-! ## The promise chain of `updateFileSystem` and the scaffold check
(useFileSystem.js, lines 65-258)

The chain `syncQueueRef` is a list of entries in the order in which
`updateFileSystem` appended them: the `syncOperation` of an entry starts when
the promise of the entry before it has settled, and its own promise settles
when its `syncOperation` returns. A call of `fetchFileSystemFromDB` that is
suspended at an `await updateFileSystem(...)` inside `ensureCmdxFileExists` is a
waiter on the entry it appended. The user is signed in throughout, the calls
`ensureBucketExists` and `logToMessageCenter` return, and the answers of the
remote store are given by the number of the call. -/

namespace Chain

/-- The state of the promise of a chain entry. -/
inductive Progress where
  | queued : Progress
  | suspended : Progress
  | settled : Progress
  deriving DecidableEq

/-- An entry of the chain: the arguments of the call of `updateFileSystem`, the
parent path its `syncOperation` uses, and the state of its promise. -/
structure Entry where
  operationDescription : String
  options : Options
  path : List String
  progress : Progress
  deriving DecidableEq

/-- The caller of `fetchFileSystemFromDB`: the error branch of the chain entry
`index` (line 101), or code outside the chain (session start, change
notification, manual sync check). -/
inductive Caller where
  | outside : Caller
  | operation (index : Nat) : Caller
  deriving DecidableEq

/-- The `await` at which a call of `ensureCmdxFileExists` is suspended. -/
inductive Resume where
  | afterFolderWrite : Resume
  | afterManifestWrite : Resume
  deriving DecidableEq

/-- A call of `fetchFileSystemFromDB` suspended inside `ensureCmdxFileExists` on
the promise of the entry `awaited`; `currentFS` is the fetched tree. -/
structure Waiter where
  caller : Caller
  awaited : Nat
  resume : Resume
  currentFS : JVal
  deriving DecidableEq

/-- The state of the hook that the chain uses. -/
structure Machine where
  fileSystem : JVal
  currentPath : List String
  hasCreatedCmdxRef : Bool
  chain : List Entry
  waiters : List Waiter
  rpcCalls : Nat
  selects : Nat
  deriving DecidableEq

/-- The answer to the query of `user_filesystems`: an error that is not the
absence of a row, no row (status 406), or a row with its `filesystem`. -/
inductive SelectAnswer where
  | failed : SelectAnswer
  | noRow : SelectAnswer
  | row (filesystem : JVal) : SelectAnswer

/-- The remote store: the `error` of the answer to each call of
`upsert_filesystem_entry` and the answer to each query, by number of call. -/
structure Remote where
  rpc : Nat → Option RemoteError
  select : Nat → SelectAnswer

/-- The hook at session start. -/
def initial : Machine :=
  { fileSystem := JVal.null, currentPath := [], hasCreatedCmdxRef := false, chain := [],
    waiters := [], rpcCalls := 0, selects := 0 }

/-- The key `b64EncodeUnicode('cmdx.txt')`. -/
def cmdxFileName : String := (b64EncodeUnicode "cmdx.txt").getD ""

/-- The text `cmdxContent.trim()`. -/
def cmdxContent : String :=
  "@nsible Command Extension Manifest (CMDX)\nVersion: 1.0\n\n" ++
  "This file serves as a manifest for defining and extending @nsible's command architecture.\n" ++
  "By modifying this file, you can propose new commands or alter existing ones.\n\n" ++
  "Syntax:\n<command_name>|<type>|<description>|<usage_pattern>|[alias1,alias2]\n\n" ++
  "Types:\n- SYS: System-level command\n- NET: Network/Communication command\n" ++
  "- F_S: Filesystem command\n- ADM: Administrative command\n\n" ++
  "Example:\nping|NET|Send an echo request to a host|ping <host>|[echo]"

/-- The lines 134-135 of `updateFileSystem`: the operation is chained behind the
last promise; the result is the index of the new entry, whose promise the
caller receives. -/
def updateFileSystem (m : Machine) (operationDescription : String) (options : Options) :
    Machine × Nat :=
  ({ m with chain := m.chain ++
      [{ operationDescription := operationDescription, options := options,
         path := parentPath m.currentPath options.path, progress := Progress.queued }] },
    m.chain.length)

/-- The promise of the entry `i` changes state. -/
def setProgress (p : Progress) : Nat → List Entry → List Entry
  | _, [] => []
  | 0, e :: rest => { e with progress := p } :: rest
  | i + 1, e :: rest => e :: setProgress p i rest

/-- The caller continues after its call of `fetchFileSystemFromDB` has returned:
a `syncOperation` runs `setIsSyncing(false)` and returns, which settles its
promise. -/
def finish (m : Machine) : Caller → Machine
  | Caller.outside => m
  | Caller.operation i => { m with chain := setProgress Progress.settled i m.chain }

/-- The end of `fetchFileSystemFromDB` after `ensureCmdxFileExists` has returned
`checkedFS`: `setFileSystem(checkedFS)`. -/
def fetchReturn (m : Machine) (caller : Caller) (checkedFS : JVal) : Machine :=
  finish { m with fileSystem := checkedFS } caller

/-- The `catch` branch of `fetchFileSystemFromDB`: the error is reported and the
call returns `null`. -/
def fetchRaised (m : Machine) (caller : Caller) : Machine := finish m caller

/-- The second half of `ensureCmdxFileExists` (lines 158-184), from the read of
`docFolder.content[cmdxFileName]`. -/
def ensureManifest (m : Machine) (caller : Caller) (currentFS : JVal) : Machine :=
  match getProp (getProp currentFS "documents") "content" with
  | JVal.undef => fetchRaised m caller
  | JVal.null => fetchRaised m caller
  | content =>
    if !truthy (getProp content cmdxFileName) then
      let queued := updateFileSystem m "Initializing command manifest."
        { path := some ["documents", "content"], key := some cmdxFileName,
          value := JVal.obj [("type", JVal.str "file"), ("content", JVal.str cmdxContent)],
          delete := false, append := false, silent := true }
      { queued.1 with waiters := queued.1.waiters ++
          [{ caller := caller, awaited := queued.2, resume := Resume.afterManifestWrite,
             currentFS := currentFS }] }
    else fetchReturn { m with hasCreatedCmdxRef := true } caller currentFS

/-- The function `ensureCmdxFileExists(currentFS)` (lines 138-185) up to its
first `await` or its return. -/
def ensureCmdxFileExists (m : Machine) (caller : Caller) (currentFS : JVal) : Machine :=
  if !truthy currentFS || m.hasCreatedCmdxRef then fetchReturn m caller currentFS
  else
    let docFolder := getProp currentFS "documents"
    if !truthy docFolder || decide (getProp docFolder "type" ≠ JVal.str "folder") then
      let queued := updateFileSystem m "Creating documents directory."
        { path := some [], key := some "documents",
          value := JVal.obj [("type", JVal.str "folder"), ("content", JVal.obj [])],
          delete := false, append := false, silent := true }
      { queued.1 with waiters := queued.1.waiters ++
          [{ caller := caller, awaited := queued.2, resume := Resume.afterFolderWrite,
             currentFS := currentFS }] }
    else ensureManifest m caller currentFS

/-- The continuation of `ensureCmdxFileExists` after the promise it awaited has
settled. -/
def resumeWaiter (m : Machine) (w : Waiter) : Machine :=
  match w.resume with
  | Resume.afterFolderWrite =>
    match w.currentFS with
    | JVal.obj _ =>
      ensureManifest m w.caller
        (setProp w.currentFS "documents"
          (JVal.obj [("type", JVal.str "folder"), ("content", JVal.obj [])]))
    | _ => fetchRaised m w.caller
  | Resume.afterManifestWrite =>
    fetchReturn { m with hasCreatedCmdxRef := true } w.caller w.currentFS

/-- The function `fetchFileSystemFromDB` (lines 208-258) from the query on, up
to the first `await` at which it stays suspended or its return. -/
def fetchFileSystemFromDB (remote : Remote) (m : Machine) (caller : Caller) : Machine :=
  let asked := { m with selects := m.selects + 1 }
  match remote.select m.selects with
  | SelectAnswer.failed => fetchRaised asked caller
  | SelectAnswer.noRow => ensureCmdxFileExists asked caller (JVal.obj [])
  | SelectAnswer.row filesystem => ensureCmdxFileExists asked caller filesystem

/-- The function `syncOperation` of the entry `i` (lines 68-132), up to the
first `await` at which it stays suspended or its return. An updater that raises
leaves the tree as it was. -/
def syncOperation (remote : Remote) (m : Machine) (i : Nat) (e : Entry) : Machine :=
  let called := { m with rpcCalls := m.rpcCalls + 1 }
  match remote.rpc m.rpcCalls with
  | some error =>
    if isAuthError error then
      { called with chain := setProgress Progress.settled i called.chain }
    else
      fetchFileSystemFromDB remote
        { called with chain := setProgress Progress.suspended i called.chain }
        (Caller.operation i)
  | none =>
    { called with
      fileSystem := (patchFileSystem called.fileSystem e.path e.options).getD called.fileSystem
      chain := setProgress Progress.settled i called.chain }

/-- The entry whose `syncOperation` may start: the first entry that has not
started, when every entry before it has settled. -/
def startable : List Entry → Nat → Option (Nat × Entry)
  | [], _ => none
  | e :: rest, i =>
    match e.progress with
    | Progress.settled => startable rest (i + 1)
    | Progress.queued => some (i, e)
    | Progress.suspended => none

/-- The promise of the entry `i` has settled. -/
def isSettled (chain : List Entry) (i : Nat) : Bool :=
  match chain.get? i with
  | some e => decide (e.progress = Progress.settled)
  | none => false

/-- The first waiter whose awaited promise has settled, and the other waiters. -/
def resumable (chain : List Entry) : List Waiter → Option (Waiter × List Waiter)
  | [] => none
  | w :: rest =>
    if isSettled chain w.awaited then some (w, rest)
    else
      match resumable chain rest with
      | some (found, others) => some (found, w :: others)
      | none => none

/-- One turn of the event loop: a suspended call whose promise has settled
resumes, otherwise the next operation of the chain starts; `none` when nothing
can run. -/
def step (remote : Remote) (m : Machine) : Option Machine :=
  match resumable m.chain m.waiters with
  | some (w, others) => some (resumeWaiter { m with waiters := others } w)
  | none =>
    match startable m.chain 0 with
    | some (i, e) => some (syncOperation remote m i e)
    | none => none

/-- The event loop, for at most `fuel` turns. -/
def run (remote : Remote) : Nat → Machine → Machine
  | 0, m => m
  | fuel + 1, m =>
    match step remote m with
    | some next => run remote fuel next
    | none => m

/-- Session start: the call `fetchFileSystemFromDB(true)` of the effect (line 277). -/
def bootstrap (remote : Remote) : Machine := fetchFileSystemFromDB remote initial Caller.outside

/-- The states of the promises of the chain. -/
def progressOf (m : Machine) : List Progress := m.chain.map Entry.progress

/-- A remote store without a document whose first write times out and which
answers every later call without error. -/
def timeoutRemote : Remote :=
  { rpc := fun k => if k = 0 then some { message := "canceling statement due to statement timeout" }
      else none
    select := fun _ => SelectAnswer.noRow }

/-- A remote store without a document that answers every call without error. -/
def healthyRemote : Remote :=
  { rpc := fun _ => none, select := fun _ => SelectAnswer.noRow }

/-- The options of the write of the folder `a` (key `YQ==`) at the root. -/
def sampleWrite : Options :=
  { path := some [], key := some "YQ==",
    value := JVal.obj [("type", JVal.str "folder"), ("content", JVal.obj [])],
    delete := false, append := false, silent := false }

end Chain

/-! ## The timestamp recorded at a fetch (useFileSystem.js, line 239) -/

/-- The statement `lastUpdatedRef.current = new Date(data.updated_at)` of
`fetchFileSystemFromDB`; `updatedAt` is the date built from the row. -/
def recordFetched (st : HookState) (updatedAt : JsDate) : HookState :=
  { st with lastUpdatedRef := some updatedAt }

/-! ## `handleSave` (Codex.jsx, lines 447-496) -/

/-- The function `handleSave` for the open file `editingFile`; `content` is the
text in the editor, `uploadError` the `error` field of the answer of the blob
store. A file opened without a `path` makes `editingFile.path.reduce` raise. -/
def handleSave (st : HookState) (editingFile : EditingFile) (content : String)
    (uploadError : Option RemoteError) (now : Int) (rpcError : Option RemoteError) :
    Option (HookState × List DeskEvent) :=
  match editingFile.path with
  | none => none
  | some path =>
    let fsPath := contentPath path
    match effectiveStorageKey st.user editingFile.storagePath path editingFile.name with
    | none => none
    | some storageKey =>
      if truthy storageKey then
        let upload := [DeskEvent.storage (StorageCall.upload (storageKeyString storageKey) true)]
        match uploadError with
        | some error =>
          some (st, upload ++
            [DeskEvent.hook (Effect.addCommandOutput "error" "Save Failed" error.message)])
        | none =>
          if !truthy editingFile.storagePath then
            andThen upload (hookEvents
              (updateFileSystem st ("Saved '" ++ editingFile.name ++ "'")
                { path := some path, key := editingFile.encodedName,
                  value := JVal.obj [("type", JVal.str "file"), ("storagePath", storageKey),
                    ("mimeType", JVal.str "text/plain")],
                  delete := false, append := false, silent := false } now rpcError))
          else
            andThen upload (hookEvents
              (updateFileSystem st ("Saved '" ++ editingFile.name ++ "'")
                { path := none, key := none, value := JVal.undef, delete := false,
                  append := false, silent := false } now rpcError))
      else
        match (match editingFile.encodedName with
          | some encodedName =>
            if encodedName = "" then Codex.b64EncodeUnicode editingFile.name else some encodedName
          | none => Codex.b64EncodeUnicode editingFile.name) with
        | none => none
        | some key =>
          hookEvents
            (updateFileSystem st ("Saved '" ++ editingFile.name ++ "'")
              { path := some fsPath, key := some key,
                value := JVal.obj [("type", JVal.str "file"), ("content", JVal.str content)],
                delete := false, append := false, silent := false } now rpcError)

/-! ## `logUnrecognizedCommand` (CommandPrompt.jsx, lines 62-92) -/

/-- The character `"`. -/
def doubleQuote : String := String.mk [Char.ofNat 34]

/-- The function `logUnrecognizedCommand(command)`; `timestamp` is the text of
`new Date().toISOString()`, and each of the two calls of `updateFileSystem` has
its clock reading and its remote answer. The tests read the tree of the render
in which the command was entered. -/
def logUnrecognizedCommand (st : HookState) (command timestamp : String) (now1 now2 : Int)
    (rpcError1 rpcError2 : Option RemoteError) : Option (HookState × List Effect) :=
  if !truthy st.fileSystem || st.user.isNone then some (st, [])
  else
    match b64EncodeUnicode "unr-cmd.log" with
    | none => none
    | some encodedFileName =>
      let logEntry :=
        "[" ++ timestamp ++ "] Unrecognized: " ++ doubleQuote ++ command ++ doubleQuote ++ "\n"
      let documents := getProp st.fileSystem "documents"
      let first :=
        if !truthy documents || decide (getProp documents "type" ≠ JVal.str "folder") then
          updateFileSystem st "Creating documents directory."
            { path := some [], key := some "documents",
              value := JVal.obj [("type", JVal.str "folder"), ("content", JVal.obj [])],
              delete := false, append := false, silent := false } now1 rpcError1
        else some (st, [])
      match first, getCurrentDirectory st.fileSystem ["documents"] with
      | some (st1, effects1), some dir =>
        let entry := getProp dir encodedFileName
        let currentContent :=
          if truthy dir && truthy entry && decide (getProp entry "type" = JVal.str "file") then
            (if truthy (getProp entry "content") then getProp entry "content" else JVal.str "")
          else JVal.str ""
        match updateFileSystem st1 "Logged unrecognized command."
            { path := some (contentPath ["documents"]), key := some encodedFileName,
              value := JVal.obj [("type", JVal.str "file"),
                ("content", jsPlus currentContent (JVal.str logEntry))],
              delete := false, append := true, silent := true } now2 rpcError2 with
        | some (st2, effects2) => some (st2, effects1 ++ effects2)
        | none => none
      | _, _ => none

/-! ## Navigation (CommandPrompt.jsx, lines 942-963; Codex.jsx, lines 636-646, 689-691, 790) -/

/-- The command `cd` with its arguments. -/
def cd (st : HookState) (args : List String) : Option (HookState × List Effect) :=
  match args with
  | [] =>
    match mapDecode CommandPrompt.b64DecodeUnicode st.currentPath with
    | none => none
    | some names =>
      some (st, [Effect.addCommandOutput "info" "cd" ("Current path: /" ++ jsJoin "/" names)])
  | path :: _ =>
    if path = ".." then some ({ st with currentPath := st.currentPath.dropLast }, [])
    else if path = "/" then some ({ st with currentPath := [] }, [])
    else
      match getCurrentDirectory st.fileSystem st.currentPath, b64EncodeUnicode path with
      | some dir, some encodedPath =>
        if truthy dir && decide (getProp (getProp dir encodedPath) "type" = JVal.str "folder") then
          some ({ st with currentPath := st.currentPath ++ [encodedPath] }, [])
        else
          some (st, [Effect.addCommandOutput "error" "cd Error" ("Directory not found: " ++ path)])
      | _, _ => none

/-- The function `changeDirectory(encodedName)` of the file browser. -/
def changeDirectory (st : HookState) (encodedName : String) : HookState :=
  { st with currentPath := st.currentPath ++ [encodedName] }

/-- The function `navigateUp()` of the file browser. -/
def navigateUp (st : HookState) : HookState :=
  { st with currentPath := st.currentPath.dropLast }

/-- The function `navigateRoot()` of the file browser. -/
def navigateRoot (st : HookState) : HookState := { st with currentPath := [] }

/-- The handler `handleItemClick(item)` on the path cursor: a folder is entered,
a file is opened in the editor and the cursor stays. -/
def handleItemClick (st : HookState) (item : Item) : HookState :=
  if item.type = JVal.str "folder" then changeDirectory st item.encodedName else st

/-- The click on the breadcrumb of index `i`: `setCurrentPath(currentPath.slice(0, i + 1))`. -/
def breadcrumbClick (st : HookState) (i : Nat) : HookState :=
  { st with currentPath := st.currentPath.take (i + 1) }

/-! ## Well-formed trees -/

mutual
/-- The data model of the tree: a mapping with distinct keys whose values are
Folder or File nodes, the content of a Folder being such a mapping again. -/
def treeOk : List (String × JVal) → Bool
  | [] => true
  | (k, v) :: r => (lookupKey k r).isNone && fileOrFolder v && treeOk r
/-- The value is a File node or a Folder node with a well-formed content. -/
def fileOrFolder : JVal → Bool
  | .obj fields =>
    if lookupKey "type" fields = some (JVal.str "folder") then folderFieldsOk fields
    else decide (lookupKey "type" fields = some (JVal.str "file"))
  | .undef => false
  | .null => false
  | .bool _ => false
  | .num _ => false
  | .nan => false
  | .str _ => false
/-- The field `content` of a Folder node is a well-formed mapping. -/
def folderFieldsOk : List (String × JVal) → Bool
  | [] => false
  | (k, v) :: r => if k = "content" then folderContentOk v else folderFieldsOk r
/-- The value of the field `content` of a Folder node is a well-formed mapping. -/
def folderContentOk : JVal → Bool
  | .obj c => treeOk c
  | .undef => false
  | .null => false
  | .bool _ => false
  | .num _ => false
  | .nan => false
  | .str _ => false
end

/-- The key `k` is reachable through Folder nodes: it is a key of a mapping at
which some path from the root ends. -/
def Reachable (root : Props) (k : String) : Prop :=
  ∃ (path : List String) (m : Props) (node : JVal),
    ResolvesTo root path m ∧ lookupKey k m = some node

/-! ## Sample data for the remaining evaluations -/

/-- A remote store whose document is the empty tree and which answers every
call without error. -/
def Chain.emptyDocumentRemote : Chain.Remote :=
  { rpc := fun _ => none, select := fun _ => Chain.SelectAnswer.row (JVal.obj []) }

/-- A remote store whose document holds the scaffold folder without the
manifest and which answers every call without error. -/
def Chain.bareScaffoldRemote : Chain.Remote :=
  { rpc := fun _ => none
    select := fun _ => Chain.SelectAnswer.row (JVal.obj [("documents", folderNode [])]) }

/-- The mutations of the chain: description, options and parent path of each entry. -/
def Chain.mutations (m : Chain.Machine) : List (String × Options × List String) :=
  m.chain.map (fun e => (e.operationDescription, e.options, e.path))

/-- An uploaded file node: it records its storage path, its mime type and its
size, and its inline content is empty. -/
def uploadedNode : JVal :=
  JVal.obj [("type", JVal.str "file"), ("storagePath", JVal.str "u1/a.txt"),
    ("mimeType", JVal.str "text/plain"), ("size", JVal.num 2), ("content", JVal.str "")]

/-- The tree with the uploaded file `a.txt` (key `YS50eHQ=`) at the root. -/
def uploadedRoot : Props := [("YS50eHQ=", uploadedNode)]

/-- A signed-in session at the root of `uploadedRoot`. -/
def uploadedState : HookState :=
  { user := some "u1", fileSystem := JVal.obj uploadedRoot, isSyncing := false,
    currentPath := [], lastUpdatedRef := some (some 1000) }

/-- The file `a.txt` of `uploadedRoot` open in the editor. -/
def uploadedEditingFile : EditingFile :=
  { name := "a.txt", encodedName := some "YS50eHQ=", content := JVal.str "", path := some [],
    isNew := false, storagePath := JVal.str "u1/a.txt" }

/-- The tree whose scaffold folder holds the log file `unr-cmd.log` (key
`dW5yLWNtZC5sb2c=`) with one line. -/
def logRoot : Props :=
  [("documents", folderNode [("dW5yLWNtZC5sb2c=", fileNode "old\n")])]

/-- A signed-in session at the root of `logRoot`. -/
def logState : HookState :=
  { user := some "u1", fileSystem := JVal.obj logRoot, isSyncing := false,
    currentPath := [], lastUpdatedRef := some (some 1000) }

/-- The hook after session start against the remote store `remote`, when the
event loop has nothing left to run. -/
def Chain.bootstrapped (remote : Chain.Remote) : Chain.Machine :=
  Chain.run remote 10 (Chain.bootstrap remote)

/-- The append of the text `x` to the file `a.txt` at the root. -/
def uploadedAppend : Options :=
  { path := some [], key := some "YS50eHQ=", value := fileNode "x", delete := false,
    append := true, silent := true }

/-- No key reachable from the mapping `m` decodes to the name `t`. -/
def NoMatch (t : String) (m : Props) : Prop :=
  ∀ k, Reachable m k → b64DecodeUnicode k ≠ t

/-- Nothing is pending in the hook: every promise of the chain has settled and
no call is suspended. -/
def Chain.Quiet (m : Chain.Machine) : Prop :=
  (∀ e ∈ m.chain, e.progress = Chain.Progress.settled) ∧ m.waiters = []

/-- The chain entry of the scaffold folder write of `ensureCmdxFileExists`. -/
def Chain.folderEntry : Chain.Entry :=
  { operationDescription := "Creating documents directory.",
    options :=
      { path := some [], key := some "documents",
        value := JVal.obj [("type", JVal.str "folder"), ("content", JVal.obj [])],
        delete := false, append := false, silent := true },
    path := [], progress := Chain.Progress.queued }

/-- The chain entry of the manifest write of `ensureCmdxFileExists`. -/
def Chain.manifestEntry : Chain.Entry :=
  { operationDescription := "Initializing command manifest.",
    options :=
      { path := some ["documents", "content"], key := some Chain.cmdxFileName,
        value := JVal.obj [("type", JVal.str "file"), ("content", JVal.str Chain.cmdxContent)],
        delete := false, append := false, silent := true },
    path := ["documents", "content"], progress := Chain.Progress.queued }

/-- A call from outside the chain suspended on the promise of the entry `awaited`. -/
def Chain.outsideWaiter (awaited : Nat) (resume : Chain.Resume) (currentFS : JVal) :
    Chain.Waiter :=
  { caller := Chain.Caller.outside, awaited := awaited, resume := resume,
    currentFS := currentFS }

/-! ## Further sample data for the storage keys -/

/-- The session of `sampleState` with the cursor in `tmp`. -/
def sampleStateInTmp : HookState :=
  { user := some "u1", fileSystem := JVal.obj sampleRoot, isSyncing := false,
    currentPath := ["dG1w"], lastUpdatedRef := some (some 1000) }

/-- The file `a.txt` of `sampleRoot`, opened in the editor from the folder `docs`. -/
def sampleEditingFile : EditingFile :=
  { name := "a.txt", encodedName := some "YS50eHQ=", content := JVal.str "hi",
    path := some ["ZG9jcw=="], isNew := false, storagePath := JVal.undef }

/-- The picture `a.png` chosen in the upload dialog. -/
def samplePicture : UploadFile := { name := "a.png", type := "image/png", size := 3 }

/-! # Theorems -/

/-! ### Characters and code points -/

theorem toNat_ofNat_of_valid (n : Nat) (hv : n.isValidChar) : (Char.ofNat n).toNat = n := by
  simp only [Char.ofNat, dif_pos hv]
  simp [Char.ofNatAux, Char.toNat, UInt32.toNat]

theorem toNat_ofNat_of_lt (n : Nat) (h : n < 0xD800) : (Char.ofNat n).toNat = n :=
  toNat_ofNat_of_valid n (Or.inl h)

theorem char_toNat_valid (c : Char) :
    c.toNat < 0xD800 ∨ (0xDFFF < c.toNat ∧ c.toNat < 0x110000) := c.valid

theorem char_eq_of_toNat_eq {a b : Char} (h : a.toNat = b.toNat) : a = b := by
  rw [← Char.ofNat_toNat a, ← Char.ofNat_toNat b, h]

theorem percent_toNat : ('%' : Char).toNat = 37 := by decide

/-! ### The encoder yields the base64 of the UTF-8 octets -/

theorem upperHexVal_upperHexDigit (d : Nat) (h : d < 16) :
    upperHexVal (upperHexDigit d) = some d := by
  unfold upperHexVal upperHexDigit
  by_cases h10 : d < 10
  · simp only [h10, if_true]
    rw [toNat_ofNat_of_lt _ (by omega)]
    simp only [show 48 ≤ 48 + d ∧ 48 + d ≤ 57 from ⟨by omega, by omega⟩, and_self, if_true]
    congr 1; omega
  · simp only [h10, if_false]
    rw [toNat_ofNat_of_lt _ (by omega)]
    rw [if_neg (by omega), if_pos (by omega)]
    congr 1; omega

theorem upperHexDigit_ne_percent (d : Nat) (h : d < 16) : upperHexDigit d ≠ '%' := by
  intro e
  have := congrArg Char.toNat e
  unfold upperHexDigit at this
  rw [percent_toNat] at this
  by_cases h10 : d < 10
  · simp only [h10, if_true] at this
    rw [toNat_ofNat_of_lt _ (by omega)] at this; omega
  · simp only [h10, if_false] at this
    rw [toNat_ofNat_of_lt _ (by omega)] at this; omega

theorem replace_percentUpper (b : Nat) (hb : b < 256) (rest : List Char) :
    replacePercentEscapes (percentUpper b ++ rest) = Char.ofNat b :: replacePercentEscapes rest := by
  have h1 : b / 16 < 16 := by omega
  have h2 : b % 16 < 16 := by omega
  simp only [percentUpper, List.cons_append, List.nil_append, replacePercentEscapes, if_true,
    upperHexVal_upperHexDigit _ h1, upperHexVal_upperHexDigit _ h2]
  congr 2; omega

theorem replace_flatMap_percentUpper (bs : List Nat) (hbs : ∀ b ∈ bs, b < 256) (rest : List Char) :
    replacePercentEscapes (bs.flatMap percentUpper ++ rest) =
      bs.map Char.ofNat ++ replacePercentEscapes rest := by
  induction bs with
  | nil => simp
  | cons b bs ih =>
    have hb : b < 256 := hbs b (List.mem_cons_self _ _)
    have hr : ∀ x ∈ bs, x < 256 := fun x hx => hbs x (List.mem_cons_of_mem _ hx)
    rw [List.flatMap_cons, List.append_assoc, replace_percentUpper b hb, ih hr]
    simp

theorem utf8Octets_lt (n : Nat) (hn : n < 0x110000) : ∀ b ∈ utf8Octets n, b < 256 := by
  intro b hb
  unfold utf8Octets at hb
  split_ifs at hb <;> simp at hb <;> omega

theorem utf8Bytes_lt (cs : List Char) : ∀ b ∈ utf8Bytes cs, b < 256 := by
  intro b hb
  simp only [utf8Bytes, List.mem_flatMap] at hb
  obtain ⟨c, _, hc⟩ := hb
  have hv := char_toNat_valid c
  exact utf8Octets_lt c.toNat (by omega) b hc

theorem uriUnreserved_ascii (c : Char) (h : uriUnreserved c = true) :
    c.toNat < 0x80 ∧ c ≠ '%' := by
  simp only [uriUnreserved, decide_eq_true_eq] at h
  refine ⟨by omega, ?_⟩
  intro e
  rw [e, percent_toNat] at h
  omega

theorem replace_cons_of_ne (c : Char) (hc : c ≠ '%') (rest : List Char) :
    replacePercentEscapes (c :: rest) = c :: replacePercentEscapes rest := by
  conv => lhs; unfold replacePercentEscapes
  simp only [hc, if_false]

theorem replace_encodeURIComponent (cs : List Char) :
    replacePercentEscapes (encodeURIComponentChars cs) = (utf8Bytes cs).map Char.ofNat := by
  induction cs with
  | nil => simp [encodeURIComponentChars, utf8Bytes, replacePercentEscapes]
  | cons c cs ih =>
    have hrec : utf8Bytes (c :: cs) = utf8Octets c.toNat ++ utf8Bytes cs := by
      simp [utf8Bytes]
    rw [encodeURIComponentChars, hrec, List.map_append]
    by_cases hu : uriUnreserved c = true
    · obtain ⟨hlt, hne⟩ := uriUnreserved_ascii c hu
      simp only [hu, if_true, List.singleton_append]
      rw [replace_cons_of_ne c hne, ih]
      simp [utf8Octets, hlt]
    · simp only [hu]
      have hv := char_toNat_valid c
      rw [if_neg (by simp), replace_flatMap_percentUpper _ (utf8Octets_lt c.toNat (by omega)), ih]
theorem b64EncodeUnicode_eq (s : String) :
    b64EncodeUnicode s = some (String.mk (base64Encode (utf8Bytes s.data))) := by
  have hall : (List.map Char.ofNat (utf8Bytes s.data)).all (fun c => decide (c.toNat < 256))
      = true := by
    rw [List.all_eq_true]
    intro c hc
    obtain ⟨b, hb, rfl⟩ := List.mem_map.mp hc
    have := utf8Bytes_lt s.data b hb
    rw [toNat_ofNat_of_lt _ (by omega)]
    simpa using this
  have hmap : (List.map Char.ofNat (utf8Bytes s.data)).map Char.toNat = utf8Bytes s.data := by
    rw [List.map_map]
    conv => rhs; rw [← List.map_id (utf8Bytes s.data)]
    apply List.map_congr_left
    intro b hb
    have := utf8Bytes_lt s.data b hb
    simp only [Function.comp, id]
    exact toNat_ofNat_of_lt _ (by omega)
  simp only [b64EncodeUnicode, replace_encodeURIComponent, btoa, hall, if_true, hmap]

/-! ### `atob` undoes `btoa` -/

theorem base64Encode_eq (bs : List Nat) :
    base64Encode bs = (base64Sextets bs).map base64Digit ++ base64Pad bs := by
  induction bs using base64Encode.induct with
  | case1 a b c rest ih => simp [base64Encode, base64Sextets, base64Pad, ih]
  | case2 a b => simp [base64Encode, base64Sextets, base64Pad]
  | case3 a => simp [base64Encode, base64Sextets, base64Pad]
  | case4 => simp [base64Encode, base64Sextets, base64Pad]

theorem base64Sextets_lt (bs : List Nat) (hbs : ∀ b ∈ bs, b < 256) :
    ∀ v ∈ base64Sextets bs, v < 64 := by
  induction bs using base64Encode.induct with
  | case1 a b c rest ih =>
    have ha := hbs a (by simp)
    have hb := hbs b (by simp)
    have hc := hbs c (by simp)
    have hr := ih (fun x hx => hbs x (by simp [hx]))
    intro v hv
    simp only [base64Sextets, List.mem_cons] at hv
    rcases hv with h | h | h | h | h
    · omega
    · omega
    · omega
    · omega
    · exact hr v h
  | case2 a b =>
    have ha := hbs a (by simp)
    have hb := hbs b (by simp)
    intro v hv
    simp only [base64Sextets, List.mem_cons, List.mem_singleton, List.not_mem_nil, or_false] at hv
    rcases hv with h | h | h <;> omega
  | case3 a =>
    have ha := hbs a (by simp)
    intro v hv
    simp only [base64Sextets, List.mem_cons, List.mem_singleton, List.not_mem_nil, or_false] at hv
    rcases hv with h | h <;> omega
  | case4 => intro v hv; simp [base64Sextets] at hv

theorem sextetsToOctets_base64Sextets (bs : List Nat) (hbs : ∀ b ∈ bs, b < 256) :
    sextetsToOctets (base64Sextets bs) = bs := by
  induction bs using base64Encode.induct with
  | case1 a b c rest ih =>
    have ha := hbs a (by simp)
    have hb := hbs b (by simp)
    have hc := hbs c (by simp)
    have hr := ih (fun x hx => hbs x (by simp [hx]))
    simp only [base64Sextets, sextetsToOctets, hr]
    congr 1
    · omega
    · congr 1
      · omega
      · congr 1; omega
  | case2 a b =>
    have ha := hbs a (by simp)
    have hb := hbs b (by simp)
    simp only [base64Sextets, sextetsToOctets]
    congr 1
    · omega
    · congr 1; omega
  | case3 a =>
    have ha := hbs a (by simp)
    simp only [base64Sextets, sextetsToOctets]
    congr 1; omega
  | case4 => simp [base64Sextets, sextetsToOctets]

theorem base64Sextets_length (bs : List Nat) : (base64Sextets bs).length % 4 ≠ 1 := by
  induction bs using base64Encode.induct with
  | case1 a b c rest ih => simp only [base64Sextets, List.length_cons]; omega
  | case2 a b => simp [base64Sextets]
  | case3 a => simp [base64Sextets]
  | case4 => simp [base64Sextets]

theorem base64Encode_length (bs : List Nat) : (base64Encode bs).length % 4 = 0 := by
  induction bs using base64Encode.induct with
  | case1 a b c rest ih => simp only [base64Encode, List.length_cons]; omega
  | case2 a b => simp [base64Encode]
  | case3 a => simp [base64Encode]
  | case4 => simp [base64Encode]

theorem base64Digit_toNat (n : Nat) (h : n < 64) :
    (base64Digit n).toNat =
      if n < 26 then 65 + n else if n < 52 then 71 + n else if n < 62 then n - 4
      else if n = 62 then 43 else 47 := by
  unfold base64Digit
  split_ifs
  · exact toNat_ofNat_of_lt _ (by omega)
  · exact toNat_ofNat_of_lt _ (by omega)
  · exact toNat_ofNat_of_lt _ (by omega)
  · decide
  · decide

theorem base64Val_base64Digit (n : Nat) (h : n < 64) : base64Val (base64Digit n) = some n := by
  have ht := base64Digit_toNat n h
  simp only [base64Val, ht]
  split_ifs <;> first | omega | (congr 1; omega)

theorem base64Digit_not_whitespace (n : Nat) (h : n < 64) :
    asciiWhitespace (base64Digit n) = false := by
  have ht := base64Digit_toNat n h
  simp only [asciiWhitespace, ht, decide_eq_false_iff_not]
  split_ifs <;> omega

theorem base64Digit_ne_eq (n : Nat) (h : n < 64) : base64Digit n ≠ '=' := by
  intro e
  have ht := base64Digit_toNat n h
  rw [e] at ht
  rw [show ('=' : Char).toNat = 61 from by decide] at ht
  split_ifs at ht <;> omega

theorem base64Vals_map (vs : List Nat) (h : ∀ v ∈ vs, v < 64) :
    base64Vals (vs.map base64Digit) = some vs := by
  induction vs with
  | nil => simp [base64Vals]
  | cons v vs ih =>
    have hv := h v (by simp)
    have hr := ih (fun x hx => h x (by simp [hx]))
    simp [base64Vals, base64Val_base64Digit v hv, hr]
theorem stripPadding_of_no_pad (l : List Char) (h : ∀ c ∈ l, c ≠ '=') : stripPadding l = l := by
  unfold stripPadding
  split
  · next r hr =>
    exact absurd rfl (h '=' (List.mem_reverse.mp (by rw [hr]; simp)))
  · next r _ hr =>
    exact absurd rfl (h '=' (List.mem_reverse.mp (by rw [hr]; simp)))
  · rfl

theorem stripPadding_one (l : List Char) (h : ∀ c ∈ l, c ≠ '=') : stripPadding (l ++ ['=']) = l := by
  unfold stripPadding
  rw [List.reverse_append]
  simp only [List.reverse_cons, List.reverse_nil, List.nil_append, List.singleton_append]
  split
  · next r hr =>
    have : l.reverse = '=' :: r := by simpa using hr
    exact absurd rfl (h '=' (List.mem_reverse.mp (by rw [this]; simp)))
  · next r _ hr =>
    have : l.reverse = r := by simpa using hr
    rw [← this, List.reverse_reverse]
  · next h1 h2 => exact absurd rfl (h2 l.reverse)

theorem stripPadding_two (l : List Char) : stripPadding (l ++ ['=', '=']) = l := by
  unfold stripPadding
  rw [List.reverse_append]
  simp

theorem base64Pad_cases (bs : List Nat) :
    base64Pad bs = [] ∨ base64Pad bs = ['='] ∨ base64Pad bs = ['=', '='] := by
  induction bs using base64Encode.induct with
  | case1 a b c rest ih => simpa [base64Pad] using ih
  | case2 a b => simp [base64Pad]
  | case3 a => simp [base64Pad]
  | case4 => simp [base64Pad]

theorem stripPadding_base64Encode (bs : List Nat) (hbs : ∀ b ∈ bs, b < 256) :
    stripPadding (base64Encode bs) = (base64Sextets bs).map base64Digit := by
  have hne : ∀ c ∈ (base64Sextets bs).map base64Digit, c ≠ '=' := by
    intro c hc
    obtain ⟨v, hv, rfl⟩ := List.mem_map.mp hc
    exact base64Digit_ne_eq v (base64Sextets_lt bs hbs v hv)
  rw [base64Encode_eq]
  rcases base64Pad_cases bs with h | h | h <;> rw [h]
  · rw [List.append_nil]; exact stripPadding_of_no_pad _ hne
  · exact stripPadding_one _ hne
  · exact stripPadding_two _

theorem filter_whitespace_base64Encode (bs : List Nat) (hbs : ∀ b ∈ bs, b < 256) :
    (base64Encode bs).filter (fun c => !asciiWhitespace c) = base64Encode bs := by
  rw [List.filter_eq_self]
  intro c hc
  rw [base64Encode_eq, List.mem_append] at hc
  rcases hc with hc | hc
  · obtain ⟨v, hv, rfl⟩ := List.mem_map.mp hc
    simp [base64Digit_not_whitespace v (base64Sextets_lt bs hbs v hv)]
  · have : c = '=' := by
      rcases base64Pad_cases bs with h | h | h <;> rw [h] at hc <;> simp at hc
      · exact hc
      · exact hc
    rw [this]; decide

theorem atob_base64Encode (bs : List Nat) (hbs : ∀ b ∈ bs, b < 256) :
    atob (String.mk (base64Encode bs)) = some (String.mk (bs.map Char.ofNat)) := by
  have hlen : ((base64Sextets bs).map base64Digit).length % 4 ≠ 1 := by
    rw [List.length_map]; exact base64Sextets_length bs
  simp only [atob, filter_whitespace_base64Encode bs hbs, base64Encode_length, if_true,
    stripPadding_base64Encode bs hbs, if_neg hlen,
    base64Vals_map _ (base64Sextets_lt bs hbs), sextetsToOctets_base64Sextets bs hbs]

/-! ### `decodeURIComponent` undoes the UTF-8 escapes -/

theorem hexVal_lowerHexDigit (d : Nat) (h : d < 16) : hexVal (lowerHexDigit d) = some d := by
  unfold hexVal lowerHexDigit
  by_cases h10 : d < 10
  · simp only [h10, if_true]
    rw [toNat_ofNat_of_lt _ (by omega)]
    rw [if_pos (by omega)]
    congr 1; omega
  · simp only [h10, if_false]
    rw [toNat_ofNat_of_lt _ (by omega)]
    rw [if_neg (by omega), if_neg (by omega), if_pos (by omega)]
    congr 1; omega

theorem uriItems_percentLower (bs : List Nat) (hbs : ∀ b ∈ bs, b < 256) :
    uriItems (bs.flatMap percentLower) = some (bs.map UriItem.octet) := by
  induction bs with
  | nil => simp [uriItems]
  | cons b bs ih =>
    have hb := hbs b (by simp)
    have hr := ih (fun x hx => hbs x (by simp [hx]))
    have h1 : b / 16 < 16 := by omega
    have h2 : b % 16 < 16 := by omega
    have e : 16 * (b / 16) + b % 16 = b := by omega
    have hsplit : percentLower b ++ bs.flatMap percentLower =
        '%' :: lowerHexDigit (b / 16) :: lowerHexDigit (b % 16) :: bs.flatMap percentLower := rfl
    rw [List.flatMap_cons, hsplit]
    simp only [uriItems, hexVal_lowerHexDigit _ h1, hexVal_lowerHexDigit _ h2, hr, e,
      List.map_cons, if_true]

theorem decodeUriItems_utf8Octets (c : Char) (rest : List UriItem) :
    decodeUriItems 0 0 0 ((utf8Octets c.toNat).map UriItem.octet ++ rest) =
      (decodeUriItems 0 0 0 rest).map (fun cs => c :: cs) := by
  have hv := char_toNat_valid c
  generalize hn : c.toNat = n at hv ⊢
  have hc : Char.ofNat n = c := by rw [← hn]; exact Char.ofNat_toNat c
  have hcont : ∀ m, isContinuation (0x80 + m % 64) = true := by
    intro m
    simp only [isContinuation, decide_eq_true_eq]; omega
  unfold utf8Octets
  by_cases h1 : n < 0x80
  · simp only [h1, if_true, List.map_cons, List.map_nil, List.singleton_append]
    rw [decodeUriItems, if_pos rfl, if_pos h1, hc]
  · by_cases h2 : n < 0x800
    · simp only [h1, h2, if_true, if_false, List.map_cons, List.map_nil, List.cons_append,
        List.nil_append]
      rw [decodeUriItems, if_pos rfl, if_neg (by omega), if_neg (by omega), if_pos (by omega),
        decodeUriItems, if_neg (by omega), if_pos (hcont n), if_pos rfl]
      have hval : (0xC0 + n / 64 - 0xC0) * 64 + (0x80 + n % 64 - 0x80) = n := by omega
      simp only [hval, scalarOfOctets]
      rw [if_pos (by omega), hc]
    · by_cases h3 : n < 0x10000
      · simp only [h1, h2, h3, if_true, if_false, List.map_cons, List.map_nil, List.cons_append,
          List.nil_append]
        rw [decodeUriItems, if_pos rfl, if_neg (by omega), if_neg (by omega), if_neg (by omega),
          if_pos (by omega),
          decodeUriItems, if_neg (by omega), if_pos (hcont (n / 64)), if_neg (by omega),
          decodeUriItems, if_neg (by omega), if_pos (hcont n), if_pos rfl]
        have hval : ((0xE0 + n / 4096 - 0xE0) * 64 + (0x80 + n / 64 % 64 - 0x80)) * 64 +
            (0x80 + n % 64 - 0x80) = n := by omega
        simp only [hval, scalarOfOctets]
        rw [if_pos (by omega), hc]
      · simp only [h1, h2, h3, if_false, List.map_cons, List.map_nil, List.cons_append,
          List.nil_append]
        rw [decodeUriItems, if_pos rfl, if_neg (by omega), if_neg (by omega), if_neg (by omega),
          if_neg (by omega), if_pos (by omega),
          decodeUriItems, if_neg (by omega), if_pos (hcont (n / 4096)), if_neg (by omega),
          decodeUriItems, if_neg (by omega), if_pos (hcont (n / 64)), if_neg (by omega),
          decodeUriItems, if_neg (by omega), if_pos (hcont n), if_pos rfl]
        have hval : (((0xF0 + n / 262144 - 0xF0) * 64 + (0x80 + n / 4096 % 64 - 0x80)) * 64 +
            (0x80 + n / 64 % 64 - 0x80)) * 64 + (0x80 + n % 64 - 0x80) = n := by omega
        simp only [hval, scalarOfOctets]
        rw [if_pos (by omega), hc]

theorem decodeUriItems_utf8Bytes (cs : List Char) :
    decodeUriItems 0 0 0 ((utf8Bytes cs).map UriItem.octet) = some cs := by
  induction cs with
  | nil => simp [utf8Bytes, decodeUriItems]
  | cons c cs ih =>
    have hrec : utf8Bytes (c :: cs) = utf8Octets c.toNat ++ utf8Bytes cs := by
      simp [utf8Bytes]
    rw [hrec, List.map_append, decodeUriItems_utf8Octets, ih]
    rfl

theorem b64DecodeUnicode_base64Encode (cs : List Char) :
    b64DecodeUnicode (String.mk (base64Encode (utf8Bytes cs))) = String.mk cs := by
  have hbs := utf8Bytes_lt cs
  have hmap : (List.map Char.ofNat (utf8Bytes cs)).flatMap (fun c => percentLower c.toNat) =
      (utf8Bytes cs).flatMap percentLower := by
    rw [List.flatMap_map]
    apply List.flatMap_congr
    intro b hb
    have := hbs b hb
    rw [toNat_ofNat_of_lt _ (by omega)]
  simp only [b64DecodeUnicode, atob_base64Encode _ hbs, decodeURIComponent, hmap,
    uriItems_percentLower _ hbs, decodeUriItems_utf8Bytes]

theorem b64_round_trip_aux (s : String) :
    ∃ e, b64EncodeUnicode s = some e ∧ b64DecodeUnicode e = s :=
  ⟨_, b64EncodeUnicode_eq s, b64DecodeUnicode_base64Encode s.data⟩

/-- C3. Codec round trip. Every well-formed string is encoded without an
exception, decoding the key gives the string back, and so the encoder is
injective. -/
theorem b64_codec_round_trip :
    (∀ s : String, ∃ e, b64EncodeUnicode s = some e ∧ b64DecodeUnicode e = s) ∧
    Function.Injective b64EncodeUnicode := by
  refine ⟨b64_round_trip_aux, ?_⟩
  intro s t h
  obtain ⟨e, he, hd⟩ := b64_round_trip_aux s
  obtain ⟨e2, he2, hd2⟩ := b64_round_trip_aux t
  rw [he, he2] at h
  cases h
  rw [← hd, ← hd2]

/-! ## Properties of own-property access -/

theorem getProp_obj (kvs : Props) (k : String) :
    getProp (JVal.obj kvs) k = (lookupKey k kvs).getD JVal.undef := rfl

theorem nodeOk_of_lookup (root : Props) (k : String) (node : JVal)
    (h : mappingOk root = true) (hl : lookupKey k root = some node) : nodeOk node = true := by
  induction root with
  | nil => simp [lookupKey] at hl
  | cons kv r ih =>
    obtain ⟨k2, v2⟩ := kv
    rw [mappingOk, Bool.and_eq_true] at h
    simp only [lookupKey] at hl
    split_ifs at hl with hk
    · cases hl; exact h.1
    · exact ih h.2 hl

theorem contentOk_spec (fields : Props) (h : contentOk fields = true) :
    ∃ c, lookupKey "content" fields = some (JVal.obj c) ∧ mappingOk c = true := by
  induction fields with
  | nil => rw [contentOk] at h; cases h
  | cons kv r ih =>
    obtain ⟨k, v⟩ := kv
    rw [contentOk] at h
    by_cases hk : k = "content"
    · rw [if_pos hk] at h
      cases v with
      | obj c =>
        rw [contentValueOk] at h
        exact ⟨c, by simp [lookupKey, hk], h⟩
      | _ => rw [contentValueOk] at h; cases h
    · rw [if_neg hk] at h
      obtain ⟨c, hc, hok⟩ := ih h
      exact ⟨c, by simp [lookupKey, hk, hc], hok⟩

theorem folder_content_of_nodeOk (node : JVal) (h : nodeOk node = true)
    (ht : getProp node "type" = JVal.str "folder") :
    ∃ c, getProp node "content" = JVal.obj c ∧ mappingOk c = true := by
  cases node with
  | obj fields =>
    have htl : lookupKey "type" fields = some (JVal.str "folder") := by
      rw [getProp_obj] at ht
      cases hl : lookupKey "type" fields with
      | none => rw [hl] at ht; simp at ht
      | some v => rw [hl] at ht; simp at ht; rw [ht]
    rw [nodeOk, if_pos htl] at h
    obtain ⟨c, hc, hok⟩ := contentOk_spec fields h
    exact ⟨c, by rw [getProp_obj, hc]; rfl, hok⟩
  | _ => simp [getProp] at ht

/-! ## Resolution of a path -/

theorem loop_of_resolves (root : Props) (path : List String) (m : Props)
    (h : ResolvesTo root path m) :
    getCurrentDirectoryLoop (JVal.obj root) path = some (JVal.obj m) := by
  induction h with
  | nil root => rfl
  | cons root segment rest node content m hl hf _ ih =>
    have hg : getProp (JVal.obj root) segment = node := by rw [getProp_obj, hl]; rfl
    simp only [getCurrentDirectoryLoop, hg, hf.1, hf.2, if_true, ih]

theorem loop_append_of_resolves (root : Props) (before after : List String) (m : Props)
    (h : ResolvesTo root before m) :
    getCurrentDirectoryLoop (JVal.obj root) (before ++ after) =
      getCurrentDirectoryLoop (JVal.obj m) after := by
  induction h with
  | nil root => rfl
  | cons root segment rest node content m hl hf _ ih =>
    have hg : getProp (JVal.obj root) segment = node := by rw [getProp_obj, hl]; rfl
    simp only [List.cons_append, getCurrentDirectoryLoop, hg, hf.1, hf.2, if_true]
    exact ih

theorem loop_of_fails (root : Props) (path : List String) (h : FailsAt root path) :
    getCurrentDirectoryLoop (JVal.obj root) path = some JVal.null := by
  obtain ⟨before, segment, after, m, rfl, hres, hbad⟩ := h
  rw [loop_append_of_resolves root before _ m hres]
  have hne : getProp (getProp (JVal.obj m) segment) "type" ≠ JVal.str "folder" := by
    rcases hbad with hnone | ⟨node, hl, ht⟩
    · rw [getProp_obj, hnone]; simp [getProp]
    · rw [getProp_obj, hl]; exact ht
  simp only [getCurrentDirectoryLoop, hne, if_false]

theorem resolves_or_fails (path : List String) :
    ∀ root : Props, mappingOk root = true →
      FailsAt root path ∨ ∃ m, ResolvesTo root path m := by
  induction path with
  | nil => intro root _; exact Or.inr ⟨root, ResolvesTo.nil root⟩
  | cons segment rest ih =>
    intro root hok
    cases hl : lookupKey segment root with
    | none =>
      exact Or.inl ⟨[], segment, rest, root, rfl, ResolvesTo.nil root, Or.inl hl⟩
    | some node =>
      by_cases ht : getProp node "type" = JVal.str "folder"
      · obtain ⟨c, hc, hcok⟩ :=
          folder_content_of_nodeOk node (nodeOk_of_lookup root segment node hok hl) ht
        rcases ih c hcok with hfail | ⟨m, hm⟩
        · obtain ⟨before, seg2, after, m, hp, hres, hbad⟩ := hfail
          refine Or.inl ⟨segment :: before, seg2, after, m, by rw [hp]; rfl, ?_, hbad⟩
          exact ResolvesTo.cons root segment before node c m hl ⟨ht, hc⟩ hres
        · exact Or.inr ⟨m, ResolvesTo.cons root segment rest node c m hl ⟨ht, hc⟩ hm⟩
      · exact Or.inl ⟨[], segment, rest, root, rfl, ResolvesTo.nil root, Or.inr ⟨node, hl, ht⟩⟩

/-- C4. Resolution is all-or-nothing. On a tree whose Folder nodes hold
mappings, `getCurrentDirectory` returns `null` exactly when some segment of the
path is not a key of the mapping reached so far or names a node that is not a
Folder; otherwise it returns the content mapping reached through the segments
(the root mapping for the empty path). -/
theorem getCurrentDirectory_all_or_nothing (root : Props) (path : List String)
    (h : mappingOk root = true) :
    (getCurrentDirectory (JVal.obj root) path = some JVal.null ↔ FailsAt root path) ∧
    (¬ FailsAt root path →
      ∃ m, ResolvesTo root path m ∧ getCurrentDirectory (JVal.obj root) path = some (JVal.obj m)) ∧
    (∀ m, ResolvesTo root path m →
      getCurrentDirectory (JVal.obj root) path = some (JVal.obj m)) ∧
    (path = [] → getCurrentDirectory (JVal.obj root) path = some (JVal.obj root)) := by
  have hg : getCurrentDirectory (JVal.obj root) path =
      getCurrentDirectoryLoop (JVal.obj root) path := by
    simp [getCurrentDirectory, truthy]
  rw [hg]
  refine ⟨⟨?_, loop_of_fails root path⟩, ?_, loop_of_resolves root path, ?_⟩
  · intro hnull
    rcases resolves_or_fails path root h with hf | ⟨m, hm⟩
    · exact hf
    · rw [loop_of_resolves root path m hm] at hnull
      cases hnull
  · intro hnf
    rcases resolves_or_fails path root h with hf | ⟨m, hm⟩
    · exact absurd hf hnf
    · exact ⟨m, hm, loop_of_resolves root path m hm⟩
  · intro hp; rw [hp]; rfl

/-! ## Lookups after a write or a delete -/

theorem lookupKey_setKey_same (k : String) (v : JVal) (m : Props) :
    lookupKey k (setKey k v m) = some v := by
  induction m with
  | nil => simp [setKey, lookupKey]
  | cons kv r ih =>
    obtain ⟨k2, v2⟩ := kv
    by_cases h : k2 = k
    · simp [setKey, lookupKey, h]
    · simp [setKey, lookupKey, h, ih]

theorem lookupKey_setKey_ne (k k2 : String) (v : JVal) (m : Props) (h : k2 ≠ k) :
    lookupKey k2 (setKey k v m) = lookupKey k2 m := by
  induction m with
  | nil => simp [setKey, lookupKey, Ne.symm h]
  | cons kv r ih =>
    obtain ⟨k3, v3⟩ := kv
    by_cases h3 : k3 = k
    · subst h3
      simp [setKey, lookupKey, Ne.symm h]
    · by_cases h4 : k3 = k2
      · subst h4
        simp [setKey, lookupKey, h3]
      · simp [setKey, lookupKey, h3, h4, ih]

theorem lookupKey_eraseKey_same (k : String) (m : Props) : lookupKey k (eraseKey k m) = none := by
  induction m with
  | nil => simp [eraseKey, lookupKey]
  | cons kv r ih =>
    obtain ⟨k2, v2⟩ := kv
    by_cases h : k2 = k
    · simp [eraseKey, h, ih]
    · simp [eraseKey, lookupKey, h, ih]

theorem lookupKey_eraseKey_ne (k k2 : String) (m : Props) (h : k2 ≠ k) :
    lookupKey k2 (eraseKey k m) = lookupKey k2 m := by
  induction m with
  | nil => simp [eraseKey, lookupKey]
  | cons kv r ih =>
    obtain ⟨k3, v3⟩ := kv
    by_cases h3 : k3 = k
    · subst h3
      simp [eraseKey, lookupKey, Ne.symm h, ih]
    · by_cases h4 : k3 = k2
      · subst h4
        simp [eraseKey, lookupKey, h3]
      · simp [eraseKey, lookupKey, h3, h4, ih]

theorem setKey_setKey (k : String) (a b : JVal) (m : Props) :
    setKey k b (setKey k a m) = setKey k b m := by
  induction m with
  | nil => simp [setKey]
  | cons kv r ih =>
    obtain ⟨k2, v2⟩ := kv
    by_cases h : k2 = k
    · simp [setKey, h]
    · simp [setKey, h, ih]

theorem getProp_setProp_same (m : Props) (k : String) (v : JVal) :
    getProp (setProp (JVal.obj m) k v) k = v := by
  simp [setProp, getProp, lookupKey_setKey_same]

theorem getProp_setProp_ne (t : JVal) (k k2 : String) (v : JVal) (h : k2 ≠ k) :
    getProp (setProp t k v) k2 = getProp t k2 := by
  cases t <;> simp [setProp, getProp, lookupKey_setKey_ne _ _ _ _ h]

theorem setProp_setProp (t : JVal) (k : String) (a b : JVal) :
    setProp (setProp t k a) k b = setProp t k b := by
  cases t <;> simp [setProp, setKey_setKey]

theorem isObj_of_getProp_ne_undef (t : JVal) (k : String) (h : getProp t k ≠ JVal.undef) :
    ∃ m, t = JVal.obj m := by
  cases t with
  | obj m => exact ⟨m, rfl⟩
  | _ => simp [getProp] at h

theorem isObj_of_truthy_getProp (t : JVal) (k : String) (h : truthy (getProp t k) = true) :
    ∃ m, t = JVal.obj m := by
  apply isObj_of_getProp_ne_undef t k
  intro e; rw [e] at h; simp [truthy] at h

/-! ## The walk of the patch -/

theorem truthy_of_walkPath_obj (path : List String) (t : JVal) (d : Props)
    (h : walkPath t path = some (JVal.obj d)) : truthy t = true := by
  cases path with
  | nil => simp only [walkPath, Option.some.injEq] at h; rw [h]; rfl
  | cons segment rest =>
    simp only [walkPath] at h
    split_ifs at h with ht
    obtain ⟨m, rfl⟩ := isObj_of_truthy_getProp t segment ht
    rfl

theorem truthy_replaceAt (path : List String) (t x : JVal) (p : JVal)
    (h : walkPath t path = some p) (hx : truthy x = true) :
    truthy (replaceAt t path x) = true := by
  cases path with
  | nil => exact hx
  | cons segment rest =>
    simp only [walkPath] at h
    split_ifs at h with ht
    obtain ⟨m, rfl⟩ := isObj_of_truthy_getProp t segment ht
    rfl

theorem walkPath_replaceAt (path : List String) :
    ∀ (t x p : JVal), walkPath t path = some p → truthy x = true →
      walkPath (replaceAt t path x) path = some x := by
  induction path with
  | nil => intro t x p _ _; rfl
  | cons segment rest ih =>
    intro t x p h hx
    simp only [walkPath] at h
    split_ifs at h with ht
    obtain ⟨m, rfl⟩ := isObj_of_truthy_getProp t segment ht
    simp only [replaceAt, walkPath, getProp_setProp_same]
    rw [if_pos (truthy_replaceAt rest _ x p h hx)]
    exact ih _ x p h hx

theorem replaceAt_replaceAt (path : List String) :
    ∀ (t x y p : JVal), walkPath t path = some p →
      replaceAt (replaceAt t path x) path y = replaceAt t path y := by
  induction path with
  | nil => intro t x y p _; rfl
  | cons segment rest ih =>
    intro t x y p h
    simp only [walkPath] at h
    split_ifs at h with ht
    obtain ⟨m, rfl⟩ := isObj_of_truthy_getProp t segment ht
    simp only [replaceAt, getProp_setProp_same, setProp_setProp]
    rw [ih _ x y p h]

theorem patchWalk_of_walkPath (options : Options) (path : List String) :
    ∀ (t parent newParent : JVal), walkPath t path = some parent →
      applyMutation parent options = some newParent →
      patchWalk t options path = Walk.done (replaceAt t path newParent) := by
  induction path with
  | nil =>
    intro t parent newParent h ha
    simp only [walkPath, Option.some.injEq] at h
    subst h
    simp only [patchWalk, ha, replaceAt]
  | cons segment rest ih =>
    intro t parent newParent h ha
    simp only [walkPath] at h
    split_ifs at h with ht
    simp only [patchWalk, ht, if_true, ih _ parent newParent h ha, replaceAt]

theorem patchWalk_of_walkPath_none (options : Options) (path : List String) :
    ∀ (t : JVal), walkPath t path = none → patchWalk t options path = Walk.missing := by
  induction path with
  | nil => intro t h; simp [walkPath] at h
  | cons segment rest ih =>
    intro t h
    simp only [walkPath] at h
    by_cases ht : truthy (getProp t segment) = true
    · rw [if_pos ht] at h
      simp only [patchWalk, ht, if_true, ih _ h]
    · simp only [patchWalk, ht]
      rfl

theorem patchFileSystem_of_walkPath (t : JVal) (path : List String) (options : Options)
    (d : Props) (newParent : JVal) (hj : IsJson t)
    (h : walkPath t path = some (JVal.obj d))
    (ha : applyMutation (JVal.obj d) options = some newParent) :
    patchFileSystem t path options = some (replaceAt t path newParent) := by
  have ht := truthy_of_walkPath_obj path t d h
  unfold IsJson at hj
  simp only [patchFileSystem, ht, if_true, hj, patchWalk_of_walkPath options path t _ _ h ha]

/-! ## The derived parent path and `getCurrentDirectory` -/

theorem foldl_contentPath (l : List String) :
    ∀ acc : List String,
      l.foldl (fun acc val => acc ++ [val, "content"]) acc = acc ++ contentPath l := by
  induction l with
  | nil => intro acc; simp [contentPath]
  | cons a l ih =>
    intro acc
    simp only [contentPath, List.foldl_cons, List.nil_append]
    rw [ih (acc ++ [a, "content"]), ih [a, "content"], List.append_assoc]

theorem contentPath_cons (segment : String) (rest : List String) :
    contentPath (segment :: rest) = segment :: "content" :: contentPath rest := by
  simp only [contentPath, List.foldl_cons, List.nil_append]
  rw [foldl_contentPath rest [segment, "content"]]
  rfl

theorem contentPath_nil : contentPath [] = [] := rfl

theorem getProp_type_of_not_obj (node : JVal) (h : getProp node "type" = JVal.str "folder") :
    ∃ n, node = JVal.obj n := by
  apply isObj_of_getProp_ne_undef node "type"
  rw [h]; intro e; cases e

theorem loop_cons_obj (m : Props) (part : String) (rest : List String) :
    getCurrentDirectoryLoop (JVal.obj m) (part :: rest) =
      if getProp (getProp (JVal.obj m) part) "type" = JVal.str "folder" then
        getCurrentDirectoryLoop (getProp (getProp (JVal.obj m) part) "content") rest
      else some JVal.null := by
  simp only [getCurrentDirectoryLoop]

theorem loop_cons_inv (current : JVal) (part : String) (rest : List String) (d : Props)
    (h : getCurrentDirectoryLoop current (part :: rest) = some (JVal.obj d)) :
    ∃ m n, current = JVal.obj m ∧ getProp current part = JVal.obj n ∧
      getProp (JVal.obj n) "type" = JVal.str "folder" ∧
      getCurrentDirectoryLoop (getProp (JVal.obj n) "content") rest = some (JVal.obj d) := by
  by_cases ht : getProp (getProp current part) "type" = JVal.str "folder"
  · obtain ⟨n, hn⟩ := getProp_type_of_not_obj _ ht
    obtain ⟨m, hm⟩ := isObj_of_getProp_ne_undef current part (by rw [hn]; intro e; cases e)
    subst hm
    rw [loop_cons_obj, if_pos ht, hn] at h
    exact ⟨m, n, rfl, hn, by rw [← hn]; exact ht, h⟩
  · cases current with
    | undef => simp [getCurrentDirectoryLoop] at h
    | null => simp [getCurrentDirectoryLoop] at h
    | _ => simp [getCurrentDirectoryLoop, ht] at h

theorem truthy_of_loop_obj (current : JVal) (path : List String) (d : Props)
    (h : getCurrentDirectoryLoop current path = some (JVal.obj d)) : truthy current = true := by
  cases path with
  | nil => simp only [getCurrentDirectoryLoop, Option.some.injEq] at h; rw [h]; rfl
  | cons part rest =>
    obtain ⟨m, n, hm, _⟩ := loop_cons_inv current part rest d h
    rw [hm]; rfl

theorem loop_of_getCurrentDirectory (t : JVal) (path : List String) (d : Props)
    (h : getCurrentDirectory t path = some (JVal.obj d)) :
    getCurrentDirectoryLoop t path = some (JVal.obj d) ∧ truthy t = true := by
  unfold getCurrentDirectory at h
  by_cases ht : truthy t = true
  · rw [if_pos ht] at h; exact ⟨h, ht⟩
  · rw [if_neg ht] at h; cases h

theorem walkPath_of_loop (path : List String) :
    ∀ (t : JVal) (d : Props), getCurrentDirectoryLoop t path = some (JVal.obj d) →
      walkPath t (contentPath path) = some (JVal.obj d) := by
  induction path with
  | nil => intro t d h; exact h
  | cons part rest ih =>
    intro t d h
    obtain ⟨m, n, hm, hn, _, hrest⟩ := loop_cons_inv t part rest d h
    have hc := truthy_of_loop_obj _ rest d hrest
    rw [contentPath_cons, walkPath, hn, if_pos (show truthy (JVal.obj n) = true from rfl),
      walkPath, if_pos hc]
    exact ih _ d hrest

theorem loop_replaceAt (path : List String) :
    ∀ (t x : JVal) (d : Props) (r : List String),
      getCurrentDirectoryLoop t path = some (JVal.obj d) →
      getCurrentDirectoryLoop (replaceAt t (contentPath path) x) (path ++ r) =
        getCurrentDirectoryLoop x r := by
  induction path with
  | nil => intro t x d r _; rfl
  | cons part rest ih =>
    intro t x d r h
    obtain ⟨m, n, hm, hn, htype, hrest⟩ := loop_cons_inv t part rest d h
    subst hm
    rw [contentPath_cons]
    simp only [replaceAt, hn, List.cons_append]
    rw [show setProp (JVal.obj m) part
        (setProp (JVal.obj n) "content"
          (replaceAt (getProp (JVal.obj n) "content") (contentPath rest) x)) =
        JVal.obj (setKey part (setProp (JVal.obj n) "content"
          (replaceAt (getProp (JVal.obj n) "content") (contentPath rest) x)) m) from rfl]
    rw [loop_cons_obj, getProp_obj, lookupKey_setKey_same]
    simp only [Option.getD_some]
    rw [getProp_setProp_ne _ "content" "type" _ (by decide), htype, if_pos rfl,
      getProp_setProp_same]
    exact ih _ x d r hrest

theorem loop_append (path : List String) :
    ∀ (t : JVal) (d : Props) (r : List String),
      getCurrentDirectoryLoop t path = some (JVal.obj d) →
      getCurrentDirectoryLoop t (path ++ r) = getCurrentDirectoryLoop (JVal.obj d) r := by
  induction path with
  | nil =>
    intro t d r h
    simp only [getCurrentDirectoryLoop, Option.some.injEq] at h
    rw [h]; rfl
  | cons part rest ih =>
    intro t d r h
    obtain ⟨m, n, hm, hn, htype, hrest⟩ := loop_cons_inv t part rest d h
    subst hm
    rw [List.cons_append, loop_cons_obj, hn, if_pos htype]
    exact ih _ d r hrest

theorem loop_frame_inner (common : List String) :
    ∀ (t x : JVal) (d : Props) (a b : String) (after rest : List String), a ≠ b →
      getCurrentDirectoryLoop t (common ++ b :: rest) = some (JVal.obj d) →
      getCurrentDirectoryLoop (replaceAt t (contentPath (common ++ b :: rest)) x)
          (common ++ a :: after) =
        getCurrentDirectoryLoop t (common ++ a :: after) := by
  induction common with
  | nil =>
    intro t x d a b after rest hab h
    obtain ⟨m, n, hm, _⟩ := loop_cons_inv t b rest d h
    subst hm
    simp only [List.nil_append, contentPath_cons, replaceAt]
    rw [show ∀ v, setProp (JVal.obj m) b v = JVal.obj (setKey b v m) from fun _ => rfl,
      loop_cons_obj, loop_cons_obj, getProp_obj, getProp_obj, lookupKey_setKey_ne _ _ _ _ hab]
    rfl
  | cons part common ih =>
    intro t x d a b after rest hab h
    obtain ⟨m, n, hm, hn, htype, hrest⟩ := loop_cons_inv t part (common ++ b :: rest) d h
    subst hm
    simp only [List.cons_append, contentPath_cons, replaceAt, hn]
    rw [show ∀ v, setProp (JVal.obj m) part v = JVal.obj (setKey part v m) from fun _ => rfl,
      loop_cons_obj, getProp_obj, lookupKey_setKey_same]
    simp only [Option.getD_some]
    rw [getProp_setProp_ne _ "content" "type" _ (by decide), htype, if_pos rfl,
      getProp_setProp_same, loop_cons_obj, hn, if_pos htype]
    exact ih _ x d a b after rest hab hrest

theorem loop_frame_end (path : List String) (t : JVal) (d newD : Props) (a : String)
    (after : List String) (h : getCurrentDirectoryLoop t path = some (JVal.obj d))
    (ha : lookupKey a newD = lookupKey a d) :
    getCurrentDirectoryLoop (replaceAt t (contentPath path) (JVal.obj newD)) (path ++ a :: after) =
      getCurrentDirectoryLoop t (path ++ a :: after) := by
  rw [loop_replaceAt path t _ d _ h, loop_append path t d _ h, loop_cons_obj, loop_cons_obj,
    getProp_obj, getProp_obj, ha]

theorem append_singleton_split (common : List String) :
    ∀ (p : List String) (k b : String) (rest : List String),
      p ++ [k] = common ++ b :: rest →
      (∃ rest2, p = common ++ b :: rest2) ∨ (p = common ∧ b = k) := by
  induction common with
  | nil =>
    intro p k b rest h
    cases p with
    | nil =>
      simp only [List.nil_append, List.cons.injEq] at h
      exact Or.inr ⟨rfl, h.1.symm⟩
    | cons x p =>
      simp only [List.cons_append, List.nil_append, List.cons.injEq] at h
      exact Or.inl ⟨p, by rw [h.1]; rfl⟩
  | cons c common ih =>
    intro p k b rest h
    cases p with
    | nil =>
      simp only [List.nil_append, List.cons_append, List.cons.injEq] at h
      have := h.2
      cases common <;> simp at this
    | cons x p =>
      simp only [List.cons_append, List.cons.injEq] at h
      rcases ih p k b rest h.2 with ⟨rest2, h2⟩ | ⟨h2, h3⟩
      · exact Or.inl ⟨rest2, by rw [h.1, h2]; rfl⟩
      · exact Or.inr ⟨by rw [h.1, h2], h3⟩

theorem loop_frame (path : List String) (t : JVal) (d newD : Props) (k : String)
    (h : getCurrentDirectoryLoop t path = some (JVal.obj d))
    (hother : ∀ a, a ≠ k → lookupKey a newD = lookupKey a d)
    (q : List String) (hq : Diverges q (path ++ [k])) :
    getCurrentDirectoryLoop (replaceAt t (contentPath path) (JVal.obj newD)) q =
      getCurrentDirectoryLoop t q := by
  obtain ⟨common, a, b, after, rest, hab, hq, hr⟩ := hq
  subst hq
  rcases append_singleton_split common path k b rest hr with ⟨rest2, hp⟩ | ⟨hp, hb⟩
  · subst hp
    exact loop_frame_inner common t _ d a b after rest2 hab h
  · subst hp; subst hb
    exact loop_frame_end path t d newD a after h (hother a hab)

/-! ## The successful operation -/

theorem updateFileSystem_success (st : HookState) (userId description : String)
    (options : Options) (now : Int) (d : Props) (newParent : JVal)
    (hu : st.user = some userId) (hj : IsJson st.fileSystem)
    (hw : walkPath st.fileSystem (parentPath st.currentPath options.path) = some (JVal.obj d))
    (ha : applyMutation (JVal.obj d) options = some newParent) :
    ∃ effects, updateFileSystem st description options now none =
      some ({ st with
          fileSystem := replaceAt st.fileSystem (parentPath st.currentPath options.path) newParent,
          lastUpdatedRef := some (some now), isSyncing := false }, effects) := by
  simp only [updateFileSystem, hu, syncOperation,
    patchFileSystem_of_walkPath _ _ options d newParent hj hw ha]
  exact ⟨_, rfl⟩

theorem applyMutation_replace_or_delete (d : Props) (options : Options) (k : String)
    (hk : options.key = some k) (happ : options.append = false) :
    applyMutation (JVal.obj d) options =
      some (JVal.obj (if options.delete then eraseKey k d else setKey k options.value d)) := by
  simp only [applyMutation, propertyKey, hk, happ, Option.getD_some, Bool.false_and]
  by_cases hdel : options.delete = true
  · simp [hdel]
  · simp [hdel]

theorem getCurrentDirectory_replaceAt (t : JVal) (path : List String) (d newD : Props)
    (h : getCurrentDirectory t path = some (JVal.obj d)) :
    getCurrentDirectory (replaceAt t (contentPath path) (JVal.obj newD)) path =
      some (JVal.obj newD) := by
  obtain ⟨hl, _⟩ := loop_of_getCurrentDirectory t path d h
  have hw := walkPath_of_loop path t d hl
  have ht := truthy_replaceAt (contentPath path) t (JVal.obj newD) _ hw rfl
  have := loop_replaceAt path t (JVal.obj newD) d [] hl
  rw [List.append_nil] at this
  simp only [getCurrentDirectory, ht, if_true, this]
  rfl

theorem getCurrentDirectory_frame (t : JVal) (path : List String) (d newD : Props) (k : String)
    (h : getCurrentDirectory t path = some (JVal.obj d))
    (hother : ∀ a, a ≠ k → lookupKey a newD = lookupKey a d)
    (q : List String) (hq : Diverges q (path ++ [k])) :
    getCurrentDirectory (replaceAt t (contentPath path) (JVal.obj newD)) q =
      getCurrentDirectory t q := by
  obtain ⟨hl, htr⟩ := loop_of_getCurrentDirectory t path d h
  have hw := walkPath_of_loop path t d hl
  have ht := truthy_replaceAt (contentPath path) t (JVal.obj newD) _ hw rfl
  simp only [getCurrentDirectory, ht, htr, if_true]
  exact loop_frame path t d newD k hl hother q hq

/-- C5. The optimistic patch mirrors a single-key replace or delete at the
resolved parent. For a signed-in user, a JSON tree and a path cursor that
resolves to the mapping `d`, a successful `updateFileSystem` (no append) whose
parent path is the cursor with `content` after each segment yields a tree in
which the cursor resolves to `d` with the key written (replace) or removed
(delete), and every path that leaves the cursor path or the entry written
resolves as before. -/
theorem patch_mirrors_replace_or_delete (st : HookState) (userId description : String)
    (options : Options) (now : Int) (d : Props) (k : String)
    (hu : st.user = some userId) (hj : IsJson st.fileSystem)
    (hd : getCurrentDirectory st.fileSystem st.currentPath = some (JVal.obj d))
    (hp : parentPath st.currentPath options.path = contentPath st.currentPath)
    (hk : options.key = some k) (happ : options.append = false) :
    ∃ st2 effects, updateFileSystem st description options now none = some (st2, effects) ∧
      getCurrentDirectory st2.fileSystem st.currentPath =
        some (JVal.obj (if options.delete then eraseKey k d else setKey k options.value d)) ∧
      ∀ q, Diverges q (st.currentPath ++ [k]) →
        getCurrentDirectory st2.fileSystem q = getCurrentDirectory st.fileSystem q := by
  obtain ⟨hl, _⟩ := loop_of_getCurrentDirectory _ _ d hd
  have hw : walkPath st.fileSystem (parentPath st.currentPath options.path) = some (JVal.obj d) := by
    rw [hp]; exact walkPath_of_loop _ _ d hl
  obtain ⟨effects, he⟩ := updateFileSystem_success st userId description options now d _ hu hj hw
    (applyMutation_replace_or_delete d options k hk happ)
  refine ⟨_, effects, he, ?_, ?_⟩
  · simp only [hp]
    exact getCurrentDirectory_replaceAt _ _ d _ hd
  · intro q hq
    simp only [hp]
    apply getCurrentDirectory_frame _ _ d _ k hd _ q hq
    intro a ha
    by_cases hdel : options.delete = true
    · simp only [hdel, if_true]; exact lookupKey_eraseKey_ne k a d ha
    · simp only [hdel]; exact lookupKey_setKey_ne k a _ d ha

/-! ## JSON values are kept by the patch -/

theorem jsonCloneProps_length_le (m : Props) : (jsonCloneProps m).length ≤ m.length := by
  induction m with
  | nil => simp [jsonCloneProps]
  | cons kv r ih =>
    obtain ⟨k, v⟩ := kv
    rw [jsonCloneProps]
    by_cases hv : v = JVal.undef
    · rw [if_pos hv]; simp only [List.length_cons]; omega
    · rw [if_neg hv]; simp only [List.length_cons]; omega

theorem jsonCloneProps_cons_iff (k : String) (v : JVal) (r : Props) :
    jsonCloneProps ((k, v) :: r) = (k, v) :: r ↔
      v ≠ JVal.undef ∧ jsonClone v = v ∧ jsonCloneProps r = r := by
  rw [jsonCloneProps]
  by_cases hv : v = JVal.undef
  · rw [if_pos hv]
    constructor
    · intro h
      have h1 := jsonCloneProps_length_le r
      rw [h] at h1
      simp only [List.length_cons] at h1
      omega
    · intro h; exact absurd hv h.1
  · rw [if_neg hv]
    constructor
    · intro h
      simp only [List.cons.injEq, Prod.mk.injEq, true_and] at h
      exact ⟨hv, h.1, h.2⟩
    · intro h
      rw [h.2.1, h.2.2]

theorem isJson_obj_iff (m : Props) : IsJson (JVal.obj m) ↔ jsonCloneProps m = m := by
  unfold IsJson
  rw [jsonClone]
  constructor
  · intro h; injection h
  · intro h; rw [h]

theorem isJson_lookup (m : Props) (k : String) (v : JVal) (h : jsonCloneProps m = m)
    (hl : lookupKey k m = some v) : v ≠ JVal.undef ∧ IsJson v := by
  induction m with
  | nil => simp [lookupKey] at hl
  | cons kv r ih =>
    obtain ⟨k2, v2⟩ := kv
    obtain ⟨h1, h2, h3⟩ := (jsonCloneProps_cons_iff k2 v2 r).mp h
    simp only [lookupKey] at hl
    split_ifs at hl with hk
    · cases hl; exact ⟨h1, h2⟩
    · exact ih h3 hl

theorem isJson_setKey (m : Props) (k : String) (v : JVal) (h : jsonCloneProps m = m)
    (hv : v ≠ JVal.undef) (hj : IsJson v) : jsonCloneProps (setKey k v m) = setKey k v m := by
  induction m with
  | nil =>
    simp only [setKey]
    exact (jsonCloneProps_cons_iff k v []).mpr ⟨hv, hj, by simp [jsonCloneProps]⟩
  | cons kv r ih =>
    obtain ⟨k2, v2⟩ := kv
    obtain ⟨h1, h2, h3⟩ := (jsonCloneProps_cons_iff k2 v2 r).mp h
    simp only [setKey]
    split_ifs with hk
    · exact (jsonCloneProps_cons_iff k v r).mpr ⟨hv, hj, h3⟩
    · exact (jsonCloneProps_cons_iff k2 v2 _).mpr ⟨h1, h2, ih h3⟩

theorem isJson_eraseKey (m : Props) (k : String) (h : jsonCloneProps m = m) :
    jsonCloneProps (eraseKey k m) = eraseKey k m := by
  induction m with
  | nil => simp [eraseKey, jsonCloneProps]
  | cons kv r ih =>
    obtain ⟨k2, v2⟩ := kv
    obtain ⟨h1, h2, h3⟩ := (jsonCloneProps_cons_iff k2 v2 r).mp h
    simp only [eraseKey]
    split_ifs with hk
    · exact ih h3
    · exact (jsonCloneProps_cons_iff k2 v2 _).mpr ⟨h1, h2, ih h3⟩

theorem getProp_eq_of_truthy (m : Props) (k : String) (h : truthy (getProp (JVal.obj m) k) = true) :
    lookupKey k m = some (getProp (JVal.obj m) k) := by
  rw [getProp_obj] at h ⊢
  cases hl : lookupKey k m with
  | none => rw [hl] at h; simp [truthy] at h
  | some v => rfl

theorem ne_undef_of_truthy (v : JVal) (h : truthy v = true) : v ≠ JVal.undef := by
  intro e; rw [e] at h; simp [truthy] at h

theorem isJson_replaceAt (path : List String) :
    ∀ (t x p : JVal), IsJson t → walkPath t path = some p → IsJson x → truthy x = true →
      IsJson (replaceAt t path x) := by
  induction path with
  | nil => intro t x p _ _ hx _; exact hx
  | cons segment rest ih =>
    intro t x p ht h hx hxt
    simp only [walkPath] at h
    split_ifs at h with htr
    obtain ⟨m, rfl⟩ := isObj_of_truthy_getProp t segment htr
    have hm := (isJson_obj_iff m).mp ht
    obtain ⟨_, hchild⟩ := isJson_lookup m segment _ hm (getProp_eq_of_truthy m segment htr)
    have hrec := ih _ x p hchild h hx hxt
    have htr2 := truthy_replaceAt rest _ x p h hxt
    simp only [replaceAt]
    exact (isJson_obj_iff _).mpr (isJson_setKey m segment _ hm (ne_undef_of_truthy _ htr2) hrec)

/-! ## Append -/

theorem isJson_walkPath (path : List String) :
    ∀ (t p : JVal), IsJson t → walkPath t path = some p → IsJson p := by
  induction path with
  | nil => intro t p ht h; simp only [walkPath, Option.some.injEq] at h; rw [← h]; exact ht
  | cons segment rest ih =>
    intro t p ht h
    simp only [walkPath] at h
    split_ifs at h with htr
    obtain ⟨m, rfl⟩ := isObj_of_truthy_getProp t segment htr
    have hm := (isJson_obj_iff m).mp ht
    obtain ⟨_, hchild⟩ := isJson_lookup m segment _ hm (getProp_eq_of_truthy m segment htr)
    exact ih _ p hchild h

theorem isFileWith_obj (node : JVal) (content : String) (h : IsFileWith node content) :
    ∃ fields, node = JVal.obj fields := by
  apply isObj_of_getProp_ne_undef node "type"
  rw [h.1]; intro e; cases e

theorem applyMutation_append (d : Props) (options : Options) (k c old : String)
    (hk : options.key = some k) (happ : options.append = true) (hdel : options.delete = false)
    (hv : IsFileWith options.value c)
    (hcur : (lookupKey k d = none ∧ old = "") ∨
      ∃ node, lookupKey k d = some node ∧ IsFileWith node old) :
    ∃ node1, applyMutation (JVal.obj d) options = some (JVal.obj (setKey k node1 d)) ∧
      IsFileWith node1 (old ++ c) ∧ (lookupKey k d = none → node1 = options.value) ∧
      (IsJson (JVal.obj d) → IsJson options.value → IsJson node1) := by
  obtain ⟨vfields, hvf⟩ := isFileWith_obj _ _ hv
  rcases hcur with ⟨hnone, hold⟩ | ⟨node, hsome, hnode⟩
  · refine ⟨options.value, ?_, ?_, fun _ => rfl, fun _ h => h⟩
    · simp [applyMutation, propertyKey, hk, happ, hdel, getProp, hnone, truthy]
    · rw [hold, String.empty_append]; exact hv
  · by_cases hempty : old = ""
    · refine ⟨options.value, ?_, ?_, ?_, fun _ h => h⟩
      · have hc : getProp node "content" = JVal.str "" := by rw [← hempty]; exact hnode.2
        simp [applyMutation, propertyKey, hk, happ, hdel, getProp_obj, hsome, hc, truthy]
      · rw [hempty, String.empty_append]; exact hv
      · intro h; simp [h] at hsome
    · obtain ⟨nfields, hnf⟩ := isFileWith_obj _ _ hnode
      refine ⟨setProp node "content" (JVal.str (old ++ c)), ?_, ?_, ?_, ?_⟩
      · have hc : getProp (getProp (JVal.obj d) k) "content" = JVal.str old := by
          rw [getProp_obj, hsome]; exact hnode.2
        have hn : getProp (JVal.obj d) k = node := by rw [getProp_obj, hsome]; rfl
        have htr : truthy (JVal.str old) = true := by simp [truthy, hempty]
        have hvc : getProp (JVal.obj vfields) "content" = JVal.str c := by rw [← hvf]; exact hv.2
        simp only [applyMutation, propertyKey, hk, happ, hdel, Option.getD_some, hc, htr,
          Bool.and_self, if_true, hvf, hn, hnode.2, hvc, jsPlus, jsToString]
        simp
      · subst hnf
        exact ⟨by rw [getProp_setProp_ne _ "content" "type" _ (by decide)]; exact hnode.1,
          getProp_setProp_same _ _ _⟩
      · intro h; simp [h] at hsome
      · intro hd _
        subst hnf
        obtain ⟨_, hnj⟩ := isJson_lookup d k _ ((isJson_obj_iff d).mp hd) hsome
        exact (isJson_obj_iff _).mpr
          (isJson_setKey nfields "content" _ ((isJson_obj_iff _).mp hnj) (by intro e; cases e) rfl)

theorem append_step (st : HookState) (userId description : String) (options : Options)
    (now : Int) (d : Props) (k c old : String)
    (hu : st.user = some userId) (hj : IsJson st.fileSystem)
    (hw : walkPath st.fileSystem (parentPath st.currentPath options.path) = some (JVal.obj d))
    (hk : options.key = some k) (happ : options.append = true) (hdel : options.delete = false)
    (hv : IsFileWith options.value c) (hvj : IsJson options.value)
    (hcur : (lookupKey k d = none ∧ old = "") ∨
      ∃ node, lookupKey k d = some node ∧ IsFileWith node old) :
    ∃ st1 effects d1 node1, updateFileSystem st description options now none =
        some (st1, effects) ∧
      st1.user = some userId ∧ st1.currentPath = st.currentPath ∧ IsJson st1.fileSystem ∧
      walkPath st1.fileSystem (parentPath st.currentPath options.path) = some (JVal.obj d1) ∧
      lookupKey k d1 = some node1 ∧ IsFileWith node1 (old ++ c) ∧
      (lookupKey k d = none → node1 = options.value) := by
  have hdj := isJson_walkPath _ _ _ hj hw
  obtain ⟨node1, ha, hfile, habsent, hnj⟩ :=
    applyMutation_append d options k c old hk happ hdel hv hcur
  obtain ⟨effects, he⟩ := updateFileSystem_success st userId description options now d _ hu hj hw ha
  have hn1 : node1 ≠ JVal.undef := by
    obtain ⟨f, hf⟩ := isFileWith_obj _ _ hfile
    rw [hf]; intro e; cases e
  refine ⟨_, effects, setKey k node1 d, node1, he, hu, rfl, ?_, ?_,
    lookupKey_setKey_same k node1 d, hfile, habsent⟩
  · exact isJson_replaceAt _ _ (JVal.obj (setKey k node1 d)) _ hj hw
      ((isJson_obj_iff _).mpr
        (isJson_setKey d k node1 ((isJson_obj_iff d).mp hdj) hn1 (hnj hdj hvj))) rfl
  · exact walkPath_replaceAt _ _ _ _ hw rfl

/-- C6. Append semantics of the local patch. For a signed-in user and a JSON
tree whose parent path ends at a mapping, one successful append with a file
value of content `c` leaves the key holding a file of content `old ++ c` when it
held a file of content `old`, and holds the value itself when the key was
absent (`old` is then the empty string); a second such append gives
`old ++ c ++ c` (`c ++ c` when the file did not exist). -/
theorem append_semantics (st : HookState) (userId description : String) (options : Options)
    (now now2 : Int) (d : Props) (k c : String)
    (hu : st.user = some userId) (hj : IsJson st.fileSystem)
    (hw : walkPath st.fileSystem (parentPath st.currentPath options.path) = some (JVal.obj d))
    (hk : options.key = some k) (happ : options.append = true) (hdel : options.delete = false)
    (hv : IsFileWith options.value c) (hvj : IsJson options.value) (old : String)
    (hcur : (lookupKey k d = none ∧ old = "") ∨
      ∃ node, lookupKey k d = some node ∧ IsFileWith node old) :
    ∃ st1 effects1 d1 node1,
      updateFileSystem st description options now none = some (st1, effects1) ∧
      walkPath st1.fileSystem (parentPath st.currentPath options.path) = some (JVal.obj d1) ∧
      lookupKey k d1 = some node1 ∧ IsFileWith node1 (old ++ c) ∧
      (lookupKey k d = none → node1 = options.value) ∧
      ∃ st2 effects2 d2 node2,
        updateFileSystem st1 description options now2 none = some (st2, effects2) ∧
        walkPath st2.fileSystem (parentPath st.currentPath options.path) = some (JVal.obj d2) ∧
        lookupKey k d2 = some node2 ∧ IsFileWith node2 (old ++ c ++ c) := by
  obtain ⟨st1, effects1, d1, node1, he1, hu1, hp1, hj1, hw1, hl1, hf1, habs⟩ :=
    append_step st userId description options now d k c old hu hj hw hk happ hdel hv hvj hcur
  rw [← hp1] at hw1
  obtain ⟨st2, effects2, d2, node2, he2, _, _, _, hw2, hl2, hf2, _⟩ :=
    append_step st1 userId description options now2 d1 k c (old ++ c) hu1 hj1 hw1 hk happ hdel
      hv hvj (Or.inr ⟨node1, hl1, hf1⟩)
  rw [hp1] at hw1 hw2
  exact ⟨st1, effects1, d1, node1, he1, hw1, hl1, hf1, habs, st2, effects2, d2, node2, he2, hw2,
    hl2, hf2⟩

/-! ## A sequence of creates -/

theorem lookupKey_writeAll_other (ops : List CreateOp) :
    ∀ (d : Props) (k : String), k ∉ ops.map CreateOp.key →
      lookupKey k (writeAll d ops) = lookupKey k d := by
  induction ops with
  | nil => intro d k _; rfl
  | cons op rest ih =>
    intro d k hk
    simp only [List.map_cons, List.mem_cons, not_or] at hk
    simp only [writeAll, List.foldl_cons]
    have := ih (setKey op.key op.value d) k hk.2
    simp only [writeAll] at this
    rw [this, lookupKey_setKey_ne _ _ _ _ hk.1]

theorem lookupKey_writeAll_mem (ops : List CreateOp) :
    ∀ (d : Props), (ops.map CreateOp.key).Nodup →
      ∀ op ∈ ops, lookupKey op.key (writeAll d ops) = some op.value := by
  induction ops with
  | nil => intro d _ op hop; simp at hop
  | cons op0 rest ih =>
    intro d hnd op hop
    simp only [List.map_cons, List.nodup_cons] at hnd
    simp only [writeAll, List.foldl_cons]
    rcases List.mem_cons.mp hop with h | h
    · subst h
      have := lookupKey_writeAll_other rest (setKey op.key op.value d) op.key hnd.1
      simp only [writeAll] at this
      rw [this, lookupKey_setKey_same]
    · exact ih (setKey op0.key op0.value d) hnd.2 op h

theorem lookupKey_writeAll_perm (ops ops2 : List CreateOp) (d : Props)
    (hnd : (ops.map CreateOp.key).Nodup) (hperm : List.Perm ops ops2) (k : String) :
    lookupKey k (writeAll d ops) = lookupKey k (writeAll d ops2) := by
  have hnd2 : (ops2.map CreateOp.key).Nodup := (hperm.map CreateOp.key).nodup_iff.mp hnd
  by_cases hk : k ∈ ops.map CreateOp.key
  · obtain ⟨op, hop, rfl⟩ := List.mem_map.mp hk
    rw [lookupKey_writeAll_mem ops d hnd op hop,
      lookupKey_writeAll_mem ops2 d hnd2 op (hperm.mem_iff.mp hop)]
  · have hk2 : k ∉ ops2.map CreateOp.key := fun h => hk ((hperm.map CreateOp.key).mem_iff.mpr h)
    rw [lookupKey_writeAll_other ops d k hk, lookupKey_writeAll_other ops2 d k hk2]

theorem runCreates_eq (path : Option (List String)) (userId : String) (ops : List CreateOp) :
    ∀ (st : HookState) (d : Props), st.user = some userId → IsJson st.fileSystem →
      walkPath st.fileSystem (parentPath st.currentPath path) = some (JVal.obj d) →
      (∀ op ∈ ops, IsJson op.value ∧ op.value ≠ JVal.undef) →
      ∃ s, runCreates path st ops = some s ∧
        s.fileSystem =
          replaceAt st.fileSystem (parentPath st.currentPath path) (JVal.obj (writeAll d ops)) := by
  induction ops with
  | nil =>
    intro st d _ _ hw _
    refine ⟨st, rfl, ?_⟩
    clear * - hw
    generalize parentPath st.currentPath path = p at hw
    generalize st.fileSystem = t at hw
    induction p generalizing t with
    | nil => simp only [walkPath, Option.some.injEq] at hw; rw [hw]; rfl
    | cons segment rest ih =>
      simp only [walkPath] at hw
      split_ifs at hw with htr
      obtain ⟨m, rfl⟩ := isObj_of_truthy_getProp t segment htr
      simp only [replaceAt, writeAll, List.foldl_nil] at ih ⊢
      rw [← ih _ hw]
      have hl := getProp_eq_of_truthy m segment htr
      generalize getProp (JVal.obj m) segment = child at hl
      simp only [setProp]
      congr 1
      clear * - hl
      induction m with
      | nil => simp [lookupKey] at hl
      | cons kv r ih2 =>
        obtain ⟨k2, v2⟩ := kv
        simp only [lookupKey] at hl
        by_cases hk : k2 = segment
        · rw [if_pos hk] at hl
          cases hl
          simp [setKey, hk]
        · rw [if_neg hk] at hl
          simp [setKey, hk, ← ih2 hl]
  | cons op rest ih =>
    intro st d hu hj hw hvals
    have hop := hvals op (List.mem_cons_self _ _)
    have hd := isJson_walkPath _ _ _ hj hw
    have ha : applyMutation (JVal.obj d) (createOptions path op) =
        some (JVal.obj (setKey op.key op.value d)) := by
      simp [applyMutation, createOptions, propertyKey]
    have hw0 : walkPath st.fileSystem (parentPath st.currentPath (createOptions path op).path) =
        some (JVal.obj d) := hw
    obtain ⟨effects, he⟩ :=
      updateFileSystem_success st userId op.description (createOptions path op) op.now d _ hu hj
        hw0 ha
    have hj1 : IsJson (replaceAt st.fileSystem (parentPath st.currentPath path)
        (JVal.obj (setKey op.key op.value d))) :=
      isJson_replaceAt _ _ _ _ hj hw
        ((isJson_obj_iff _).mpr (isJson_setKey d op.key op.value ((isJson_obj_iff d).mp hd)
          hop.2 hop.1)) rfl
    have hw1 := walkPath_replaceAt _ _ (JVal.obj (setKey op.key op.value d)) _ hw rfl
    obtain ⟨s, hs, hfs⟩ := ih
      { st with
        fileSystem := replaceAt st.fileSystem (parentPath st.currentPath path)
          (JVal.obj (setKey op.key op.value d)),
        lastUpdatedRef := some (some op.now), isSyncing := false }
      (setKey op.key op.value d) hu hj1 hw1
      (fun o ho => hvals o (List.mem_cons_of_mem _ ho))
    refine ⟨s, ?_, ?_⟩
    · simp only [runCreates, he]
      exact hs
    · rw [hfs]
      simp only [writeAll, List.foldl_cons]
      exact replaceAt_replaceAt _ _ _ _ _ hw

/-- C1. No lost updates. For a signed-in user and a JSON tree whose parent path
ends at the mapping `d`, N successful create mutations with pairwise distinct
keys, run one after another, give the tree in which only the parent mapping is
replaced; that mapping holds every one of the N keys with its value, and for any
other order of the same operations the result is that same tree with a parent
mapping that has the same value under every key. -/
theorem no_lost_updates (st : HookState) (userId : String) (path : Option (List String))
    (d : Props) (ops ops2 : List CreateOp)
    (hu : st.user = some userId) (hj : IsJson st.fileSystem)
    (hw : walkPath st.fileSystem (parentPath st.currentPath path) = some (JVal.obj d))
    (hvals : ∀ op ∈ ops, IsJson op.value ∧ op.value ≠ JVal.undef)
    (hnd : (ops.map CreateOp.key).Nodup) (hperm : List.Perm ops ops2) :
    ∃ s1 s2 d1 d2,
      runCreates path st ops = some s1 ∧ runCreates path st ops2 = some s2 ∧
      s1.fileSystem = replaceAt st.fileSystem (parentPath st.currentPath path) (JVal.obj d1) ∧
      s2.fileSystem = replaceAt st.fileSystem (parentPath st.currentPath path) (JVal.obj d2) ∧
      walkPath s1.fileSystem (parentPath st.currentPath path) = some (JVal.obj d1) ∧
      walkPath s2.fileSystem (parentPath st.currentPath path) = some (JVal.obj d2) ∧
      (∀ op ∈ ops, lookupKey op.key d1 = some op.value) ∧
      (∀ k, lookupKey k d1 = lookupKey k d2) := by
  have hvals2 : ∀ op ∈ ops2, IsJson op.value ∧ op.value ≠ JVal.undef :=
    fun op hop => hvals op (hperm.mem_iff.mpr hop)
  obtain ⟨s1, hs1, hf1⟩ := runCreates_eq path userId ops st d hu hj hw hvals
  obtain ⟨s2, hs2, hf2⟩ := runCreates_eq path userId ops2 st d hu hj hw hvals2
  refine ⟨s1, s2, writeAll d ops, writeAll d ops2, hs1, hs2, hf1, hf2, ?_, ?_,
    lookupKey_writeAll_mem ops d hnd, lookupKey_writeAll_perm ops ops2 d hnd hperm⟩
  · rw [hf1]; exact walkPath_replaceAt _ _ _ _ hw rfl
  · rw [hf2]; exact walkPath_replaceAt _ _ _ _ hw rfl

/-! ## Deleting a directory -/

theorem truthy_jsonClone (v : JVal) (h : truthy v = true) : truthy (jsonClone v) = true := by
  cases v <;> simp_all [truthy, jsonClone]

theorem applyMutation_delete_isSome (parent : JVal) (options : Options)
    (hdel : options.delete = true) (ht : truthy parent = true) :
    ∃ p, applyMutation parent options = some p := by
  cases parent <;> simp_all [applyMutation, truthy]

theorem patchWalk_delete_ne_raised (options : Options) (hdel : options.delete = true)
    (path : List String) :
    ∀ t : JVal, truthy t = true → patchWalk t options path ≠ Walk.raised := by
  induction path with
  | nil =>
    intro t ht
    obtain ⟨p, hp⟩ := applyMutation_delete_isSome t options hdel ht
    simp [patchWalk, hp]
  | cons segment rest ih =>
    intro t _
    by_cases htr : truthy (getProp t segment) = true
    · have := ih _ htr
      simp only [patchWalk, htr, if_true]
      cases hr : patchWalk (getProp t segment) options rest with
      | missing => simp
      | raised => exact absurd hr this
      | done c => simp
    · simp [patchWalk, htr]

theorem updateFileSystem_auth_error (st : HookState) (userId description : String)
    (options : Options) (now : Int) (error : RemoteError)
    (hu : st.user = some userId) (ha : isAuthError error = true) :
    updateFileSystem st description options now (some error) =
      some ({ st with isSyncing := false },
        (if options.silent then []
          else [Effect.addCommandOutput "info" "Syncing..." description]) ++
        [Effect.rpcUpsert (upsertArgs userId (parentPath st.currentPath options.path) options now)]
        ++ [Effect.dispatchSignOut "Your session has expired. Please log in again."]) := by
  simp only [updateFileSystem, hu, syncOperation, handleAuthError, ha, if_true]

theorem updateFileSystem_other_error (st : HookState) (userId description : String)
    (options : Options) (now : Int) (error : RemoteError)
    (hu : st.user = some userId) (ha : isAuthError error = false) :
    updateFileSystem st description options now (some error) =
      some ({ st with isSyncing := false },
        (if options.silent then []
          else [Effect.addCommandOutput "info" "Syncing..." description]) ++
        [Effect.rpcUpsert (upsertArgs userId (parentPath st.currentPath options.path) options now)]
        ++ [] ++
        [(if jsIncludes error.message "statement timeout" then
            Effect.addCommandOutput "error" "Sync State"
              "Negotiating with server; Please Stand-by..."
          else
            Effect.addCommandOutput "error" "Sync Error"
              ("Failed to save changes: " ++ error.message)),
          Effect.logToMessageCenter
            ("Sync failed for operation: '" ++ description ++ "'. Reason: " ++ error.message) true,
          Effect.fetchFileSystemFromDB false]) := by
  simp only [updateFileSystem, hu, syncOperation, handleAuthError, ha]
  rfl

theorem updateFileSystem_no_error (st : HookState) (userId description : String)
    (options : Options) (now : Int) (newFS : JVal) (hu : st.user = some userId)
    (hp : patchFileSystem st.fileSystem (parentPath st.currentPath options.path) options =
      some newFS) :
    updateFileSystem st description options now none =
      some ({ st with fileSystem := newFS, lastUpdatedRef := some (some now), isSyncing := false },
        (if options.silent then []
          else [Effect.addCommandOutput "info" "Syncing..." description]) ++
        [Effect.rpcUpsert (upsertArgs userId (parentPath st.currentPath options.path) options now)]
        ++ (if options.silent then []
          else
            [Effect.addCommandOutput "success" "Sync Complete" "Your desk is up to date.",
              Effect.logToMessageCenter
                ("Operation successful: '" ++ description ++ "'.") false])) := by
  simp only [updateFileSystem, hu, syncOperation, hp]

theorem upserts_append (a b : List Effect) : upserts (a ++ b) = upserts a ++ upserts b := by
  induction a with
  | nil => rfl
  | cons e a ih => cases e <;> simp [upserts, ih]

theorem upserts_announce (silent : Bool) (description : String) :
    upserts (if silent then []
      else [Effect.addCommandOutput "info" "Syncing..." description]) = [] := by
  cases silent <;> rfl

theorem patchFileSystem_delete_isSome (t : JVal) (path : List String) (options : Options)
    (hdel : options.delete = true) : ∃ newFS, patchFileSystem t path options = some newFS := by
  have htr : truthy (jsonClone (if truthy t = true then t else JVal.obj [])) = true := by
    apply truthy_jsonClone
    by_cases h : truthy t = true
    · rw [if_pos h]; exact h
    · rw [if_neg h]; rfl
  have hne := patchWalk_delete_ne_raised options hdel path _ htr
  cases hp : patchWalk (jsonClone (if truthy t = true then t else JVal.obj [])) options path with
  | raised => exact absurd hp hne
  | missing => exact ⟨t, by simp only [patchFileSystem, hp]⟩
  | done r => exact ⟨r, by simp only [patchFileSystem, hp]⟩

theorem updateFileSystem_delete_effects (st : HookState) (userId description : String)
    (options : Options) (now : Int) (rpcError : Option RemoteError)
    (hu : st.user = some userId) (hdel : options.delete = true) :
    ∃ st2 effects, updateFileSystem st description options now rpcError = some (st2, effects) ∧
      upserts effects = [upsertArgs userId (parentPath st.currentPath options.path) options now] := by
  cases rpcError with
  | some error =>
    by_cases ha : isAuthError error = true
    · refine ⟨_, _, updateFileSystem_auth_error st userId description options now error hu ha, ?_⟩
      simp only [upserts_append, upserts_announce]
      rfl
    · have ha2 : isAuthError error = false := by simpa using ha
      refine ⟨_, _, updateFileSystem_other_error st userId description options now error hu ha2, ?_⟩
      simp only [upserts_append, upserts_announce]
      by_cases ht : jsIncludes error.message "statement timeout" = true
      · simp only [ht, if_true]; rfl
      · simp only [ht]; rfl
  | none =>
    obtain ⟨newFS, hp⟩ := patchFileSystem_delete_isSome st.fileSystem
      (parentPath st.currentPath options.path) options hdel
    refine ⟨_, _, updateFileSystem_no_error st userId description options now newFS hu hp, ?_⟩
    simp only [upserts_append, upserts_announce]
    cases options.silent <;> rfl

/-- C7. The non-empty-directory guard of `removeDirectory`. For a signed-in
user, a cursor that resolves to the mapping `dir` and a name with encoded key
`encodedDirName`: when the key names a Folder whose content mapping has a key,
the only effect is the error message and the state is unchanged; when the
content mapping is empty, exactly one remote mutation is issued, the delete of
that key under the parent path of the cursor; when the key is absent or names a
File, the only effect is the error message. -/
theorem removeDirectory_guard (st : HookState) (userId dirName : String) (now : Int)
    (rpcError : Option RemoteError) (dir : Props) (encodedDirName : String)
    (hu : st.user = some userId)
    (hd : getCurrentDirectory st.fileSystem st.currentPath = some (JVal.obj dir))
    (he : b64EncodeUnicode dirName = some encodedDirName) :
    (∀ node content, lookupKey encodedDirName dir = some node → IsFolder node content →
      (content ≠ [] →
        removeDirectory st dirName now rpcError =
          some (st, [Effect.addCommandOutput "error" "Error"
            ("Directory '" ++ dirName ++ "' is not empty. Please remove its contents first.")])) ∧
      (content = [] →
        ∃ st2 effects, removeDirectory st dirName now rpcError = some (st2, effects) ∧
          upserts effects =
            [{ p_user_id := userId, p_path := contentPath st.currentPath,
               p_key := if encodedDirName = "" then JVal.null else JVal.str encodedDirName,
               p_value := JVal.null, p_delete := true, p_append := false,
               p_updated_at := now }])) ∧
    ((lookupKey encodedDirName dir = none ∨
        ∃ node, lookupKey encodedDirName dir = some node ∧
          getProp node "type" = JVal.str "file") →
      removeDirectory st dirName now rpcError =
        some (st, [Effect.addCommandOutput "error" "Error"
          ("Directory '" ++ dirName ++
            "' not found in the current directory or is not a directory.")])) := by
  obtain ⟨_, htr⟩ := loop_of_getCurrentDirectory _ _ dir hd
  constructor
  · intro node content hl hf
    have hn : getProp (JVal.obj dir) encodedDirName = node := by rw [getProp_obj, hl]; rfl
    obtain ⟨fields, hfields⟩ := getProp_type_of_not_obj node hf.1
    have hnt : truthy node = true := by rw [hfields]; rfl
    have hcond : (truthy (JVal.obj dir) && truthy node &&
        decide (getProp node "type" = JVal.str "folder")) = true := by
      rw [hnt, hf.1]; rfl
    constructor
    · intro hne
      have hlen : (List.map Prod.fst content).length > 0 := by
        rw [List.length_map]; exact List.length_pos.mpr hne
      simp only [removeDirectory, htr, if_true, hd, he, hcond, hn, hf.2, objectKeys, hlen]
    · intro hempty
      subst hempty
      obtain ⟨st2, effects, hup, hups⟩ := updateFileSystem_delete_effects st userId
        ("Deleting directory '" ++ dirName ++ "'.")
        { path := none, key := some encodedDirName, value := JVal.undef, delete := true,
          append := false, silent := false } now rpcError hu rfl
      refine ⟨st2, effects, ?_, ?_⟩
      · simp only [removeDirectory, htr, if_true, hd, he, hcond, hn, hf.2, objectKeys,
          List.map_nil, List.length_nil, gt_iff_lt, lt_self_iff_false, if_false]
        exact hup
      · rw [hups]
        by_cases hk : encodedDirName = "" <;> simp [upsertArgs, parentPath, truthy, hk]
  · intro h
    have hnot : (truthy (JVal.obj dir) && truthy (getProp (JVal.obj dir) encodedDirName) &&
        decide (getProp (getProp (JVal.obj dir) encodedDirName) "type" = JVal.str "folder"))
        = false := by
      rcases h with hnone | ⟨node, hl, ht⟩
      · rw [getProp_obj, hnone]; rfl
      · have hn : getProp (JVal.obj dir) encodedDirName = node := by rw [getProp_obj, hl]; rfl
        rw [hn, ht]
        simp
    simp only [removeDirectory, htr, if_true, hd, he, hnot]
    rfl

/-! ## The realtime notification and the failed operation -/

/-- C9. The staleness filter. With a recorded last-known timestamp `last`, a
notification that carries the timestamp `remote` triggers no effect at all when
`remote ≤ last` and exactly one call of `fetchFileSystemFromDB` when
`last < remote`. -/
theorem staleness_filter (last remote : Int) (updatedAt : JVal)
    (h : truthy updatedAt = true) :
    (remote ≤ last → onPostgresChanges (some (some last)) updatedAt (some remote) = []) ∧
    (last < remote →
      fetchCount (onPostgresChanges (some (some last)) updatedAt (some remote)) = 1) := by
  constructor
  · intro hle
    have : ¬ remote > last := by omega
    simp [onPostgresChanges, h, dateGt, this]
  · intro hlt
    have : remote > last := hlt
    simp [onPostgresChanges, h, dateGt, this, fetchCount, isFetch]

/-- C10, in the form that holds. A failed mutation never patches the local tree. When the
error is not a session expiry it calls `fetchFileSystemFromDB` exactly once, as
its last effect; when the error is a session expiry it dispatches the sign-out
event and does not refetch. -/
theorem failed_mutation_refetch (st : HookState) (userId description : String)
    (options : Options) (now : Int) (error : RemoteError) (hu : st.user = some userId) :
    ∃ st2 effects,
      updateFileSystem st description options now (some error) = some (st2, effects) ∧
      st2.fileSystem = st.fileSystem ∧
      (isAuthError error = false →
        fetchCount effects = 1 ∧ effects.getLast? = some (Effect.fetchFileSystemFromDB false)) ∧
      (isAuthError error = true →
        fetchCount effects = 0 ∧
          Effect.dispatchSignOut "Your session has expired. Please log in again." ∈ effects) := by
  by_cases ha : isAuthError error = true
  · refine ⟨_, _, updateFileSystem_auth_error st userId description options now error hu ha, rfl,
      ?_, ?_⟩
    · intro hf; rw [ha] at hf; cases hf
    · intro _
      cases options.silent <;> simp [fetchCount, isFetch]
  · have ha2 : isAuthError error = false := by simpa using ha
    refine ⟨_, _, updateFileSystem_other_error st userId description options now error hu ha2, rfl,
      ?_, ?_⟩
    · intro _
      cases options.silent <;>
        by_cases ht : jsIncludes error.message "statement timeout" = true <;>
        simp [ht, fetchCount, isFetch]
    · intro hf; exact absurd hf ha

/-! ## The file browser deletes without the guard -/

/-- C8, the failing input. In the file browser the entry of the non-empty
folder `docs` is listed, and `handleDelete` on it, once confirmed, issues the
remote delete of its key and removes the folder, with the file in it, from the
local tree; `removeDirectory` rejects the same folder. -/
theorem handleDelete_deletes_nonempty_folder :
    (codexItems (JVal.obj sampleRoot)).map (fun items => decide (sampleDocsItem ∈ items))
      = some true ∧
    (handleDelete sampleState sampleDocsItem true 2000 none).map
        (fun r => (r.1.fileSystem, upserts r.2)) =
      some (JVal.obj [("dG1w", folderNode [])],
        [{ p_user_id := "u1", p_path := [], p_key := JVal.str "ZG9jcw==", p_value := JVal.null,
           p_delete := true, p_append := false, p_updated_at := 2000 }]) ∧
    (removeDirectory sampleState "docs" 2000 none).map (fun r => (r.1.fileSystem, upserts r.2)) =
      some (JVal.obj sampleRoot, []) := by
  decide

/-! ## Instances on sample data -/

/-- C10, counterexample. A mutation that fails with an expired session makes the
remote call, dispatches the sign-out event and returns: `fetchFileSystemFromDB`
is not called. -/
theorem failed_auth_mutation_skips_refetch :
    updateFileSystem sampleState "Deleting directory 'tmp'."
        { path := none, key := some "dG1w", value := JVal.undef, delete := true,
          append := false, silent := false } 2000 (some { message := "JWT expired" }) =
      some (sampleState,
        [Effect.addCommandOutput "info" "Syncing..." "Deleting directory 'tmp'.",
          Effect.rpcUpsert
            { p_user_id := "u1", p_path := [], p_key := JVal.str "dG1w", p_value := JVal.null,
              p_delete := true, p_append := false, p_updated_at := 2000 },
          Effect.dispatchSignOut "Your session has expired. Please log in again."]) ∧
    fetchCount
        [Effect.addCommandOutput "info" "Syncing..." "Deleting directory 'tmp'.",
          Effect.rpcUpsert
            { p_user_id := "u1", p_path := [], p_key := JVal.str "dG1w", p_value := JVal.null,
              p_delete := true, p_append := false, p_updated_at := 2000 },
          Effect.dispatchSignOut "Your session has expired. Please log in again."] = 0 := by
  decide

theorem failed_mutation_refetch_witness :
    sampleState.user = some "u1" ∧
    ∃ st2 effects,
      updateFileSystem sampleState "Creating file 'b.txt'." sampleCreate 2000
          (some { message := "canceling statement due to statement timeout" }) =
        some (st2, effects) ∧
      st2.fileSystem = sampleState.fileSystem ∧
      (isAuthError { message := "canceling statement due to statement timeout" } = false →
        fetchCount effects = 1 ∧ effects.getLast? = some (Effect.fetchFileSystemFromDB false)) ∧
      (isAuthError { message := "canceling statement due to statement timeout" } = true →
        fetchCount effects = 0 ∧
          Effect.dispatchSignOut "Your session has expired. Please log in again." ∈ effects) :=
  ⟨rfl, failed_mutation_refetch sampleState "u1" "Creating file 'b.txt'." sampleCreate 2000
    { message := "canceling statement due to statement timeout" } rfl⟩

theorem no_lost_updates_witness :
    IsJson sampleState.fileSystem ∧ (sampleOps.map CreateOp.key).Nodup ∧
    ∃ s1 s2 d1 d2,
      runCreates none sampleState sampleOps = some s1 ∧
      runCreates none sampleState sampleOps.reverse = some s2 ∧
      s1.fileSystem =
        replaceAt sampleState.fileSystem (parentPath sampleState.currentPath none) (JVal.obj d1) ∧
      s2.fileSystem =
        replaceAt sampleState.fileSystem (parentPath sampleState.currentPath none) (JVal.obj d2) ∧
      walkPath s1.fileSystem (parentPath sampleState.currentPath none) = some (JVal.obj d1) ∧
      walkPath s2.fileSystem (parentPath sampleState.currentPath none) = some (JVal.obj d2) ∧
      (∀ op ∈ sampleOps, lookupKey op.key d1 = some op.value) ∧
      (∀ k, lookupKey k d1 = lookupKey k d2) :=
  ⟨by decide, by decide,
    no_lost_updates sampleState "u1" none sampleRoot sampleOps sampleOps.reverse rfl (by decide)
      rfl (by decide) (by decide) (List.reverse_perm sampleOps).symm⟩

theorem getCurrentDirectory_all_or_nothing_witness :
    mappingOk sampleRoot = true ∧
    (getCurrentDirectory (JVal.obj sampleRoot) ["ZG9jcw==", "YS50eHQ="] = some JVal.null ↔
      FailsAt sampleRoot ["ZG9jcw==", "YS50eHQ="]) :=
  ⟨by decide,
    (getCurrentDirectory_all_or_nothing sampleRoot ["ZG9jcw==", "YS50eHQ="] (by decide)).1⟩

theorem patch_mirrors_replace_or_delete_witness :
    getCurrentDirectory sampleStateInDocs.fileSystem sampleStateInDocs.currentPath =
      some (JVal.obj [("YS50eHQ=", fileNode "hi")]) ∧
    ∃ st2 effects,
      updateFileSystem sampleStateInDocs "Creating file 'b.txt'." sampleCreate 2000 none =
        some (st2, effects) ∧
      getCurrentDirectory st2.fileSystem sampleStateInDocs.currentPath =
        some (JVal.obj (if sampleCreate.delete then eraseKey "Yi50eHQ=" [("YS50eHQ=", fileNode "hi")]
          else setKey "Yi50eHQ=" sampleCreate.value [("YS50eHQ=", fileNode "hi")])) ∧
      ∀ q, Diverges q (sampleStateInDocs.currentPath ++ ["Yi50eHQ="]) →
        getCurrentDirectory st2.fileSystem q = getCurrentDirectory sampleStateInDocs.fileSystem q :=
  ⟨by decide,
    patch_mirrors_replace_or_delete sampleStateInDocs "u1" "Creating file 'b.txt'." sampleCreate
      2000 [("YS50eHQ=", fileNode "hi")] "Yi50eHQ=" rfl (by decide) (by decide) rfl rfl rfl⟩

theorem append_semantics_witness :
    walkPath sampleStateInDocs.fileSystem
        (parentPath sampleStateInDocs.currentPath sampleAppend.path) =
      some (JVal.obj [("YS50eHQ=", fileNode "hi")]) ∧
    ∃ st1 effects1 d1 node1,
      updateFileSystem sampleStateInDocs "Logged unrecognized command." sampleAppend 2000 none =
        some (st1, effects1) ∧
      walkPath st1.fileSystem (parentPath sampleStateInDocs.currentPath sampleAppend.path) =
        some (JVal.obj d1) ∧
      lookupKey "YS50eHQ=" d1 = some node1 ∧ IsFileWith node1 ("hi" ++ " there") ∧
      (lookupKey "YS50eHQ=" [("YS50eHQ=", fileNode "hi")] = none → node1 = sampleAppend.value) ∧
      ∃ st2 effects2 d2 node2,
        updateFileSystem st1 "Logged unrecognized command." sampleAppend 2001 none =
          some (st2, effects2) ∧
        walkPath st2.fileSystem (parentPath sampleStateInDocs.currentPath sampleAppend.path) =
          some (JVal.obj d2) ∧
        lookupKey "YS50eHQ=" d2 = some node2 ∧ IsFileWith node2 ("hi" ++ " there" ++ " there") :=
  ⟨by decide,
    append_semantics sampleStateInDocs "u1" "Logged unrecognized command." sampleAppend 2000 2001
      [("YS50eHQ=", fileNode "hi")] "YS50eHQ=" " there" rfl (by decide) (by decide) rfl rfl rfl
      ⟨by decide, by decide⟩ (by decide) "hi"
      (Or.inr ⟨fileNode "hi", by decide, ⟨by decide, by decide⟩⟩)⟩

theorem removeDirectory_guard_witness :
    b64EncodeUnicode "docs" = some "ZG9jcw==" ∧
    removeDirectory sampleState "docs" 2000 none =
      some (sampleState, [Effect.addCommandOutput "error" "Error"
        ("Directory '" ++ "docs" ++ "' is not empty. Please remove its contents first.")]) :=
  ⟨by decide,
    ((removeDirectory_guard sampleState "u1" "docs" 2000 none sampleRoot "ZG9jcw==" rfl
      (by decide) (by decide)).1 (folderNode [("YS50eHQ=", fileNode "hi")])
      [("YS50eHQ=", fileNode "hi")] (by decide) ⟨by decide, by decide⟩).1 (by decide)⟩

theorem staleness_filter_witness :
    onPostgresChanges (some (some 1000)) (JVal.str "2024-05-01T10:00:01+00:00") (some 1000) = [] ∧
    fetchCount
      (onPostgresChanges (some (some 1000)) (JVal.str "2024-05-01T10:00:02+00:00") (some 2000))
      = 1 :=
  ⟨(staleness_filter 1000 1000 (JVal.str "2024-05-01T10:00:01+00:00") (by decide)).1 (by decide),
    (staleness_filter 1000 2000 (JVal.str "2024-05-01T10:00:02+00:00") (by decide)).2
      (by decide)⟩


/-! ## The decoder accepts exactly the UTF-8 octet sequences -/

theorem utf8Bytes_cons (c : Char) (cs : List Char) :
    utf8Bytes (c :: cs) = utf8Octets c.toNat ++ utf8Bytes cs := by
  simp [utf8Bytes]

theorem scalarOfOctets_some (least v : Nat) (c : Char) (h : scalarOfOctets least v = some c) :
    least ≤ v ∧ v < 0x110000 ∧ ¬ (0xD800 ≤ v ∧ v < 0xE000) ∧ c.toNat = v := by
  unfold scalarOfOctets at h
  split_ifs at h with hc
  cases h
  refine ⟨hc.1, hc.2.1, hc.2.2, ?_⟩
  apply toNat_ofNat_of_valid
  have h1 := hc.2.1
  have h2 := hc.2.2
  by_cases hlt : v < 0xD800
  · exact Or.inl hlt
  · exact Or.inr ⟨by omega, h1⟩

theorem decodeUriItems_need_one (least acc : Nat) (bs : List Nat) (cs : List Char)
    (h : decodeUriItems 1 least acc (bs.map UriItem.octet) = some cs) :
    ∃ b1 rest c cs1, bs = b1 :: rest ∧ isContinuation b1 = true ∧
      scalarOfOctets least (acc * 64 + (b1 - 0x80)) = some c ∧
      decodeUriItems 0 0 0 (rest.map UriItem.octet) = some cs1 ∧ cs = c :: cs1 := by
  cases bs with
  | nil => simp [decodeUriItems] at h
  | cons b1 rest =>
    rw [List.map_cons, decodeUriItems, if_neg (by decide)] at h
    by_cases hc : isContinuation b1 = true
    · rw [if_pos hc, if_pos rfl] at h
      cases hs : scalarOfOctets least (acc * 64 + (b1 - 0x80)) with
      | none => rw [hs] at h; simp at h
      | some c =>
        rw [hs] at h
        cases hd : decodeUriItems 0 0 0 (rest.map UriItem.octet) with
        | none => rw [hd] at h; simp at h
        | some cs1 =>
          rw [hd] at h
          simp only [Option.map_some', Option.some.injEq] at h
          exact ⟨b1, rest, c, cs1, rfl, hc, hs, hd, h.symm⟩
    · rw [if_neg hc] at h; cases h

theorem decodeUriItems_need_more (need least acc : Nat) (hn : 1 < need) (bs : List Nat)
    (cs : List Char) (h : decodeUriItems need least acc (bs.map UriItem.octet) = some cs) :
    ∃ b1 rest, bs = b1 :: rest ∧ isContinuation b1 = true ∧
      decodeUriItems (need - 1) least (acc * 64 + (b1 - 0x80)) (rest.map UriItem.octet) =
        some cs := by
  cases bs with
  | nil =>
    rw [List.map_nil, decodeUriItems, if_neg (by omega)] at h
    cases h
  | cons b1 rest =>
    rw [List.map_cons, decodeUriItems, if_neg (by omega)] at h
    by_cases hc : isContinuation b1 = true
    · rw [if_pos hc, if_neg (by omega)] at h
      exact ⟨b1, rest, rfl, hc, h⟩
    · rw [if_neg hc] at h; cases h

theorem isContinuation_range (b : Nat) (h : isContinuation b = true) : 0x80 ≤ b ∧ b < 0xC0 := by
  simpa [isContinuation] using h

theorem utf8Bytes_of_decodeUriItems (n : Nat) :
    ∀ (bs : List Nat) (cs : List Char), bs.length ≤ n →
      decodeUriItems 0 0 0 (bs.map UriItem.octet) = some cs → utf8Bytes cs = bs := by
  induction n with
  | zero =>
    intro bs cs hlen h
    have : bs = [] := List.length_eq_zero.mp (by omega)
    subst this
    simp only [List.map_nil, decodeUriItems, if_true, Option.some.injEq] at h
    rw [← h]; rfl
  | succ n ih =>
    intro bs cs hlen h
    cases bs with
    | nil =>
      simp only [List.map_nil, decodeUriItems, if_true, Option.some.injEq] at h
      rw [← h]; rfl
    | cons b rest =>
      have hrl : rest.length ≤ n := by simp only [List.length_cons] at hlen; omega
      rw [List.map_cons, decodeUriItems, if_pos rfl] at h
      by_cases h1 : b < 0x80
      · rw [if_pos h1] at h
        cases hd : decodeUriItems 0 0 0 (rest.map UriItem.octet) with
        | none => rw [hd] at h; simp at h
        | some cs1 =>
          rw [hd] at h
          simp only [Option.map_some', Option.some.injEq] at h
          rw [← h, utf8Bytes_cons, ih rest cs1 hrl hd, toNat_ofNat_of_lt b (by omega)]
          simp [utf8Octets, h1]
      · rw [if_neg h1] at h
        by_cases h2 : b < 0xC0
        · rw [if_pos h2] at h; cases h
        · rw [if_neg h2] at h
          by_cases h3 : b < 0xE0
          · rw [if_pos h3] at h
            obtain ⟨b1, r1, c, cs1, hbs, hc1, hs, hd, hcs⟩ := decodeUriItems_need_one _ _ _ _ h
            obtain ⟨hl, hu, _, hv⟩ := scalarOfOctets_some _ _ _ hs
            have hr1 := isContinuation_range b1 hc1
            subst hbs
            have hlen1 : r1.length ≤ n := by simp only [List.length_cons] at hrl; omega
            rw [hcs, utf8Bytes_cons, ih r1 cs1 hlen1 hd, hv]
            have hv2 : ¬ (b - 0xC0) * 64 + (b1 - 0x80) < 0x80 := by omega
            have hv3 : (b - 0xC0) * 64 + (b1 - 0x80) < 0x800 := by omega
            rw [utf8Octets, if_neg hv2, if_pos hv3]
            have e1 : 0xC0 + ((b - 0xC0) * 64 + (b1 - 0x80)) / 64 = b := by omega
            have e2 : 0x80 + ((b - 0xC0) * 64 + (b1 - 0x80)) % 64 = b1 := by omega
            rw [e1, e2]
            rfl
          · rw [if_neg h3] at h
            by_cases h4 : b < 0xF0
            · rw [if_pos h4] at h
              obtain ⟨b1, r1, hbs, hc1, h⟩ := decodeUriItems_need_more 2 _ _ (by omega) _ _ h
              obtain ⟨b2, r2, c, cs1, hbs2, hc2, hs, hd, hcs⟩ :=
                decodeUriItems_need_one _ _ _ _ h
              obtain ⟨hl, hu, _, hv⟩ := scalarOfOctets_some _ _ _ hs
              have hr1 := isContinuation_range b1 hc1
              have hr2 := isContinuation_range b2 hc2
              subst hbs; subst hbs2
              have hlen1 : r2.length ≤ n := by simp only [List.length_cons] at hrl; omega
              rw [hcs, utf8Bytes_cons, ih r2 cs1 hlen1 hd, hv]
              have hv1 : ¬ ((b - 0xE0) * 64 + (b1 - 0x80)) * 64 + (b2 - 0x80) < 0x80 := by omega
              have hv2 : ¬ ((b - 0xE0) * 64 + (b1 - 0x80)) * 64 + (b2 - 0x80) < 0x800 := by omega
              have hv3 : ((b - 0xE0) * 64 + (b1 - 0x80)) * 64 + (b2 - 0x80) < 0x10000 := by omega
              rw [utf8Octets, if_neg hv1, if_neg hv2, if_pos hv3]
              have e1 : 0xE0 + (((b - 0xE0) * 64 + (b1 - 0x80)) * 64 + (b2 - 0x80)) / 4096 = b := by
                omega
              have e2 : 0x80 + (((b - 0xE0) * 64 + (b1 - 0x80)) * 64 + (b2 - 0x80)) / 64 % 64 =
                  b1 := by omega
              have e3 : 0x80 + (((b - 0xE0) * 64 + (b1 - 0x80)) * 64 + (b2 - 0x80)) % 64 = b2 := by
                omega
              rw [e1, e2, e3]
              rfl
            · rw [if_neg h4] at h
              by_cases h5 : b < 0xF8
              · rw [if_pos h5] at h
                obtain ⟨b1, r1, hbs, hc1, h⟩ := decodeUriItems_need_more 3 _ _ (by omega) _ _ h
                obtain ⟨b2, r2, hbs2, hc2, h⟩ := decodeUriItems_need_more 2 _ _ (by omega) _ _ h
                obtain ⟨b3, r3, c, cs1, hbs3, hc3, hs, hd, hcs⟩ :=
                  decodeUriItems_need_one _ _ _ _ h
                obtain ⟨hl, hu, _, hv⟩ := scalarOfOctets_some _ _ _ hs
                have hr1 := isContinuation_range b1 hc1
                have hr2 := isContinuation_range b2 hc2
                have hr3 := isContinuation_range b3 hc3
                subst hbs; subst hbs2; subst hbs3
                have hlen1 : r3.length ≤ n := by simp only [List.length_cons] at hrl; omega
                rw [hcs, utf8Bytes_cons, ih r3 cs1 hlen1 hd, hv]
                have hv1 : ¬ (((b - 0xF0) * 64 + (b1 - 0x80)) * 64 + (b2 - 0x80)) * 64 +
                    (b3 - 0x80) < 0x80 := by omega
                have hv2 : ¬ (((b - 0xF0) * 64 + (b1 - 0x80)) * 64 + (b2 - 0x80)) * 64 +
                    (b3 - 0x80) < 0x800 := by omega
                have hv3 : ¬ (((b - 0xF0) * 64 + (b1 - 0x80)) * 64 + (b2 - 0x80)) * 64 +
                    (b3 - 0x80) < 0x10000 := by omega
                rw [utf8Octets, if_neg hv1, if_neg hv2, if_neg hv3]
                have e1 : 0xF0 + ((((b - 0xF0) * 64 + (b1 - 0x80)) * 64 + (b2 - 0x80)) * 64 +
                    (b3 - 0x80)) / 262144 = b := by omega
                have e2 : 0x80 + ((((b - 0xF0) * 64 + (b1 - 0x80)) * 64 + (b2 - 0x80)) * 64 +
                    (b3 - 0x80)) / 4096 % 64 = b1 := by omega
                have e3 : 0x80 + ((((b - 0xF0) * 64 + (b1 - 0x80)) * 64 + (b2 - 0x80)) * 64 +
                    (b3 - 0x80)) / 64 % 64 = b2 := by omega
                have e4 : 0x80 + ((((b - 0xF0) * 64 + (b1 - 0x80)) * 64 + (b2 - 0x80)) * 64 +
                    (b3 - 0x80)) % 64 = b3 := by omega
                rw [e1, e2, e3, e4]
                rfl
              · rw [if_neg h5] at h; cases h

theorem base64Val_lt (c : Char) (v : Nat) (h : base64Val c = some v) : v < 64 := by
  simp only [base64Val] at h
  split_ifs at h <;> simp only [Option.some.injEq] at h <;> omega

theorem base64Vals_lt (d : List Char) :
    ∀ vs, base64Vals d = some vs → ∀ v ∈ vs, v < 64 := by
  induction d with
  | nil => intro vs h v hv; simp only [base64Vals, Option.some.injEq] at h; rw [← h] at hv; simp at hv
  | cons c rest ih =>
    intro vs h v hv
    rw [base64Vals] at h
    cases hc : base64Val c with
    | none => rw [hc] at h; simp at h
    | some x =>
      cases hr : base64Vals rest with
      | none => rw [hc, hr] at h; simp at h
      | some xs =>
        rw [hc, hr] at h
        simp only [Option.some.injEq] at h
        rw [← h] at hv
        rcases List.mem_cons.mp hv with e | e
        · rw [e]; exact base64Val_lt c x hc
        · exact ih xs hr v e

theorem sextetsToOctets_lt (vs : List Nat) (h : ∀ v ∈ vs, v < 64) :
    ∀ b ∈ sextetsToOctets vs, b < 256 := by
  induction vs using sextetsToOctets.induct with
  | case1 a b c d rest ih =>
    have ha := h a (by simp)
    have hb := h b (by simp)
    have hc := h c (by simp)
    have hd := h d (by simp)
    have hr := ih (fun x hx => h x (by simp [hx]))
    intro x hx
    simp only [sextetsToOctets, List.mem_cons] at hx
    rcases hx with e | e | e | e
    · omega
    · omega
    · omega
    · exact hr x e
  | case2 a b c =>
    have ha := h a (by simp)
    have hb := h b (by simp)
    have hc := h c (by simp)
    intro x hx
    simp only [sextetsToOctets, List.mem_cons, List.mem_singleton, List.not_mem_nil,
      or_false] at hx
    rcases hx with e | e <;> omega
  | case3 a b =>
    have ha := h a (by simp)
    have hb := h b (by simp)
    intro x hx
    simp only [sextetsToOctets, List.mem_singleton] at hx
    omega
  | case4 vs h1 h2 h3 =>
    intro x hx
    rw [sextetsToOctets] at hx
    · simp at hx
    · exact h1
    · exact h2
    · exact h3

theorem atob_octets (k bin : String) (h : atob k = some bin) :
    ∃ octets : List Nat, bin = String.mk (octets.map Char.ofNat) ∧ ∀ b ∈ octets, b < 256 := by
  have key : ∀ d : List Char,
      (match base64Vals d with
        | none => none
        | some vs => some (String.mk ((sextetsToOctets vs).map Char.ofNat))) = some bin →
      ∃ octets : List Nat, bin = String.mk (octets.map Char.ofNat) ∧ ∀ b ∈ octets, b < 256 := by
    intro d hd
    cases hvs : base64Vals d with
    | none => rw [hvs] at hd; cases hd
    | some vs =>
      rw [hvs] at hd
      simp only [Option.some.injEq] at hd
      exact ⟨sextetsToOctets vs, hd.symm, sextetsToOctets_lt vs (base64Vals_lt _ vs hvs)⟩
  simp only [atob] at h
  split_ifs at h <;> exact key _ h

theorem map_toNat_ofNat (octets : List Nat) (h : ∀ b ∈ octets, b < 256) :
    (octets.map Char.ofNat).map Char.toNat = octets := by
  rw [List.map_map]
  conv => rhs; rw [← List.map_id octets]
  apply List.map_congr_left
  intro b hb
  have := h b hb
  simp only [Function.comp, id]
  exact toNat_ofNat_of_lt _ (by omega)

theorem b64DecodeUnicode_of_atob (k : String) (octets : List Nat) (h256 : ∀ b ∈ octets, b < 256)
    (h : atob k = some (String.mk (octets.map Char.ofNat))) :
    b64DecodeUnicode k =
      match decodeUriItems 0 0 0 (octets.map UriItem.octet) with
      | none => k
      | some cs => String.mk cs := by
  have hmap : (List.map Char.ofNat octets).flatMap (fun c => percentLower c.toNat) =
      octets.flatMap percentLower := by
    rw [List.flatMap_map]
    apply List.flatMap_congr
    intro b hb
    have := h256 b hb
    rw [toNat_ofNat_of_lt _ (by omega)]
  simp only [b64DecodeUnicode, h, decodeURIComponent, hmap, uriItems_percentLower _ h256]
  cases decodeUriItems 0 0 0 (octets.map UriItem.octet) <;> rfl

/-- C16. The core decoder is tolerant. `b64DecodeUnicode` is a total function,
so it never raises; it returns its argument when `atob` rejects it, and when the
octets that `atob` yields are not the UTF-8 form of any string. When they are
the UTF-8 form of a string it returns that string. -/
theorem core_decoder_tolerant (k : String) :
    (atob k = none → b64DecodeUnicode k = k) ∧
    (∀ bin, atob k = some bin →
      (¬ ∃ s : String, utf8Bytes s.data = bin.data.map Char.toNat) → b64DecodeUnicode k = k) ∧
    (∀ bin (s : String), atob k = some bin → utf8Bytes s.data = bin.data.map Char.toNat →
      b64DecodeUnicode k = s) := by
  refine ⟨?_, ?_, ?_⟩
  · intro h
    simp only [b64DecodeUnicode, h]
  · intro bin h hinvalid
    obtain ⟨octets, hbin, h256⟩ := atob_octets k bin h
    subst hbin
    rw [b64DecodeUnicode_of_atob k octets h256 h]
    cases hd : decodeUriItems 0 0 0 (octets.map UriItem.octet) with
    | none => rfl
    | some cs =>
      exfalso
      apply hinvalid
      refine ⟨String.mk cs, ?_⟩
      rw [map_toNat_ofNat octets h256]
      exact utf8Bytes_of_decodeUriItems octets.length octets cs (le_refl _) hd
  · intro bin s h hs
    obtain ⟨octets, hbin, h256⟩ := atob_octets k bin h
    subst hbin
    rw [map_toNat_ofNat octets h256] at hs
    rw [b64DecodeUnicode_of_atob k octets h256 h, ← hs, decodeUriItems_utf8Bytes]

/-! ## Evaluations of the decoders, the storage keys and the operations -/

/-- C17, the failing input. On the scaffold key `documents` the decoder of
DeskContext.jsx and of CommandPrompt.jsx raises, because its handler calls `atob`
again, so `handleLs` raises at the root of a tree that holds the scaffold
folder; on the key `/w==`, whose octet is not UTF-8, it returns the octet string
and not the key. The decoder of the hook returns the key in both cases. -/
theorem desk_decoder_raises_on_scaffold_key :
    DeskContext.b64DecodeUnicode "documents" = none ∧
    CommandPrompt.b64DecodeUnicode "documents" = none ∧
    handleLs scaffoldState = none ∧
    DeskContext.b64DecodeUnicode "/w==" = some (String.mk [Char.ofNat 255]) ∧
    b64DecodeUnicode "documents" = "documents" ∧ b64DecodeUnicode "/w==" = "/w==" := by
  decide

/-- C18, the failing input. For the identity `u1` and the recorded storage path
`u1x/file` the key is left as it is, because it begins with the characters
`u1`; it does not begin with `u1/`, and `removeFile` and `catFile` hand it to
the blob store. -/
theorem storage_key_outside_identity_segment :
    effectiveStorageKey (some "u1") (JVal.str "u1x/file") [] "file" =
      some (JVal.str "u1x/file") ∧
    jsStartsWith "u1x/file" "u1/" = false ∧
    (removeFile foreignPathState "file" none 2000 none).map (fun r => storageCalls r.2) =
      some [StorageCall.remove ["u1x/file"]] ∧
    (catFile foreignPathState "file" { data := some "text", error := none }
        { data := none, error := none }).map storageCalls =
      some [StorageCall.download "u1x/file"] := by
  decide

/-- C12, the failing input. For a signed-in user `catFile` on the inline file
`readme.txt` of content `hi there` asks the blob store for the key
`u1/docs/readme.txt`; it reports the download error when the blob store has no
such object and the text of the object when it has one, and never the inline
content. -/
theorem catFile_ignores_inline_content :
    catFile readmeState "readme.txt"
        { data := none, error := some { message := "Object not found" } }
        { data := none, error := none } =
      some [DeskEvent.storage (StorageCall.download "u1/docs/readme.txt"),
        DeskEvent.hook (Effect.addCommandOutput "info" "Content of readme.txt"
          "Error downloading file content.")] ∧
    catFile readmeState "readme.txt" { data := some "other text", error := none }
        { data := none, error := none } =
      some [DeskEvent.storage (StorageCall.download "u1/docs/readme.txt"),
        DeskEvent.hook (Effect.addCommandOutput "info" "Content of readme.txt" "other text")] := by
  decide

/-- C15, the failing input. With a cursor that does not resolve, `handleCreate`
issues the remote mutation for the parent path of the cursor and reports no
error, where `mkdir` reports that the current path does not exist. -/
theorem handleCreate_reaches_network_on_unresolved_path :
    getCurrentDirectory staleCursorState.fileSystem staleCursorState.currentPath =
      some JVal.null ∧
    (handleCreate staleCursorState "notes.txt" "file" 2000 none).map (fun r => r.2) =
      some [Effect.addCommandOutput "info" "Syncing..." "Created file 'notes.txt'",
        Effect.rpcUpsert
          { p_user_id := "u1", p_path := ["ZG9jcw==", "content"],
            p_key := JVal.str "bm90ZXMudHh0",
            p_value := JVal.obj [("type", JVal.str "file"), ("content", JVal.str "")],
            p_delete := false, p_append := false, p_updated_at := 2000 },
        Effect.addCommandOutput "success" "Sync Complete" "Your desk is up to date.",
        Effect.logToMessageCenter "Operation successful: 'Created file 'notes.txt''." false] ∧
    mkdir staleCursorState "notes" 2000 none =
      some (staleCursorState,
        [Effect.addCommandOutput "error" "mkdir Error" "Current path does not exist."]) ∧
    touch staleCursorState "notes.txt" 2000 none =
      some (staleCursorState,
        [Effect.addCommandOutput "error" "touch Error" "'notes.txt' already exists."]) := by
  decide

/-- C14, counterexample. At the root of the tree that holds the scaffold key
`documents`, `mkdir documents` is not rejected: it issues the remote mutation
for the key `ZG9jdW1lbnRz`, and the root then has two keys that decode to
`documents`. -/
theorem mkdir_duplicates_scaffold_name :
    (mkdir scaffoldState "documents" 2000 none).map
        (fun r => (upserts r.2).map (fun a => a.p_key)) =
      some [JVal.str "ZG9jdW1lbnRz"] ∧
    (mkdir scaffoldState "documents" 2000 none).map
        (fun r => (objectKeys r.1.fileSystem).map (fun ks => ks.map b64DecodeUnicode)) =
      some (some ["documents", "documents"]) := by
  decide

/-! ## Create conflicts -/

theorem btoa_escaped (s : String) :
    btoa (String.mk (replacePercentEscapes (encodeURIComponentChars s.data))) =
      some (String.mk (base64Encode (utf8Bytes s.data))) := by
  have hall : (List.map Char.ofNat (utf8Bytes s.data)).all (fun c => decide (c.toNat < 256))
      = true := by
    rw [List.all_eq_true]
    intro c hc
    obtain ⟨b, hb, rfl⟩ := List.mem_map.mp hc
    have := utf8Bytes_lt s.data b hb
    rw [toNat_ofNat_of_lt _ (by omega)]
    simpa using this
  simp only [replace_encodeURIComponent, btoa, hall, if_true,
    map_toNat_ofNat _ (utf8Bytes_lt s.data)]

theorem codex_b64EncodeUnicode_eq (s : String) :
    Codex.b64EncodeUnicode s = b64EncodeUnicode s := by
  rw [b64EncodeUnicode_eq]
  exact btoa_escaped s

theorem mkdir_of_existing (st : HookState) (dirName encoded : String) (now : Int)
    (rpcError : Option RemoteError) (dir : Props) (node : JVal)
    (hd : getCurrentDirectory st.fileSystem st.currentPath = some (JVal.obj dir))
    (he : b64EncodeUnicode dirName = some encoded)
    (hl : lookupKey encoded dir = some node) (hn : truthy node = true) :
    mkdir st dirName now rpcError =
      some (st, [Effect.addCommandOutput "error" "mkdir Error"
        ("'" ++ dirName ++ "' already exists.")]) := by
  have hg : getProp (JVal.obj dir) encoded = node := by rw [getProp_obj, hl]; rfl
  have hne : JVal.obj dir ≠ JVal.null := by intro e; cases e
  simp only [mkdir, he, hd, hg, hn, if_neg hne]
  rfl

theorem touch_of_existing (st : HookState) (fileName encoded : String) (now : Int)
    (rpcError : Option RemoteError) (dir : Props) (node : JVal)
    (hd : getCurrentDirectory st.fileSystem st.currentPath = some (JVal.obj dir))
    (he : b64EncodeUnicode fileName = some encoded)
    (hl : lookupKey encoded dir = some node) (hn : truthy node = true) :
    touch st fileName now rpcError =
      some (st, [Effect.addCommandOutput "error" "touch Error"
        ("'" ++ fileName ++ "' already exists.")]) := by
  have hg : getProp (JVal.obj dir) encoded = node := by rw [getProp_obj, hl]; rfl
  simp only [touch, he, hd, hg, hn]
  rfl

theorem handleCreate_of_existing (st : HookState) (newFileName isCreating encoded : String)
    (now : Int) (rpcError : Option RemoteError) (dir : Props) (node : JVal)
    (hd : getCurrentDirectory st.fileSystem st.currentPath = some (JVal.obj dir))
    (hne : jsTrim newFileName ≠ "")
    (he : b64EncodeUnicode (jsTrim newFileName) = some encoded)
    (hl : lookupKey encoded dir = some node) (hn : truthy node = true) :
    handleCreate st newFileName isCreating now rpcError =
      some (st, [Effect.addCommandOutput "error" "Codex Error"
        ("'" ++ jsTrim newFileName ++ "' already exists.")]) := by
  have hg : getProp (JVal.obj dir) encoded = node := by rw [getProp_obj, hl]; rfl
  simp only [handleCreate, if_neg hne, codex_b64EncodeUnicode_eq, he, hd, hg, hn]
  rfl

theorem handleFileUpload_of_existing (st : HookState) (file : UploadFile) (encoded : String)
    (uploadError : Option RemoteError) (now : Int) (rpcError : Option RemoteError)
    (dir : Props) (node : JVal)
    (hd : getCurrentDirectory st.fileSystem st.currentPath = some (JVal.obj dir))
    (he : b64EncodeUnicode file.name = some encoded)
    (hl : lookupKey encoded dir = some node) (hn : truthy node = true) :
    handleFileUpload st file uploadError now rpcError =
      some (st, [DeskEvent.hook (Effect.addCommandOutput "error" "Upload Error"
        (match st.user with
          | none => "User not authenticated."
          | some _ => "'" ++ file.name ++ "' already exists."))]) := by
  have hg : getProp (JVal.obj dir) encoded = node := by rw [getProp_obj, hl]; rfl
  cases hu : st.user with
  | none => simp only [handleFileUpload, hu]
  | some userId =>
    simp only [handleFileUpload, hu, codex_b64EncodeUnicode_eq, he, hd, hg, hn]
    rfl

/-- C13. Create conflicts are rejected before any network call. When the cursor
resolves to the mapping `dir` and the encoded key of the name holds a node in
`dir`, each of `mkdir`, `touch`, `handleCreate` (for a name that is not blank)
and `handleFileUpload` leaves the state unchanged and its only effect is an
error message: no remote mutation and no upload is issued. -/
theorem create_conflict_rejected (st : HookState) (name encoded : String) (now : Int)
    (rpcError uploadError : Option RemoteError) (dir : Props) (node : JVal)
    (hd : getCurrentDirectory st.fileSystem st.currentPath = some (JVal.obj dir))
    (he : b64EncodeUnicode name = some encoded)
    (hl : lookupKey encoded dir = some node) (hn : truthy node = true) :
    mkdir st name now rpcError =
      some (st, [Effect.addCommandOutput "error" "mkdir Error"
        ("'" ++ name ++ "' already exists.")]) ∧
    touch st name now rpcError =
      some (st, [Effect.addCommandOutput "error" "touch Error"
        ("'" ++ name ++ "' already exists.")]) ∧
    (∀ newFileName isCreating, jsTrim newFileName = name → name ≠ "" →
      handleCreate st newFileName isCreating now rpcError =
        some (st, [Effect.addCommandOutput "error" "Codex Error"
          ("'" ++ name ++ "' already exists.")])) ∧
    (∀ file : UploadFile, file.name = name →
      handleFileUpload st file uploadError now rpcError =
        some (st, [DeskEvent.hook (Effect.addCommandOutput "error" "Upload Error"
          (match st.user with
            | none => "User not authenticated."
            | some _ => "'" ++ name ++ "' already exists."))])) := by
  refine ⟨mkdir_of_existing st name encoded now rpcError dir node hd he hl hn,
    touch_of_existing st name encoded now rpcError dir node hd he hl hn, ?_, ?_⟩
  · intro newFileName isCreating ht hne
    subst ht
    exact handleCreate_of_existing st newFileName isCreating encoded now rpcError dir node hd hne
      he hl hn
  · intro file hf
    subst hf
    exact handleFileUpload_of_existing st file encoded uploadError now rpcError dir node hd he hl hn

theorem canonicalKeys_of_all :
    ∀ dir : Props,
      dir.all (fun kv => decide (b64EncodeUnicode (b64DecodeUnicode kv.1) = some kv.1) &&
        truthy kv.2) = true → CanonicalKeys dir
  | [], _ => by
    intro k node h
    simp [lookupKey] at h
  | (k2, v) :: rest, hall => by
    rw [List.all_cons, Bool.and_eq_true, Bool.and_eq_true, decide_eq_true_eq] at hall
    intro k node h
    rw [lookupKey] at h
    by_cases hk : k2 = k
    · rw [if_pos hk] at h
      cases h
      subst hk
      exact hall.1
    · rw [if_neg hk] at h
      exact canonicalKeys_of_all rest hall.2 k node h

theorem create_conflict_rejected_witness :
    mkdir sampleState "docs" 2000 none =
      some (sampleState, [Effect.addCommandOutput "error" "mkdir Error"
        ("'" ++ "docs" ++ "' already exists.")]) ∧
    touch sampleState "docs" 2000 none =
      some (sampleState, [Effect.addCommandOutput "error" "touch Error"
        ("'" ++ "docs" ++ "' already exists.")]) ∧
    handleCreate sampleState " docs " "folder" 2000 none =
      some (sampleState, [Effect.addCommandOutput "error" "Codex Error"
        ("'" ++ "docs" ++ "' already exists.")]) ∧
    handleFileUpload sampleState { name := "docs", type := "text/plain", size := 2 } none 2000
        none =
      some (sampleState, [DeskEvent.hook (Effect.addCommandOutput "error" "Upload Error"
        (match sampleState.user with
          | none => "User not authenticated."
          | some _ => "'" ++ "docs" ++ "' already exists."))]) :=
  have h := create_conflict_rejected sampleState "docs" "ZG9jcw==" 2000 none none sampleRoot
    (folderNode [("YS50eHQ=", fileNode "hi")]) (by decide) (by decide) (by decide) (by decide)
  ⟨h.1, h.2.1, h.2.2.1 " docs " "folder" (by decide) (by decide),
    h.2.2.2 { name := "docs", type := "text/plain", size := 2 } rfl⟩

/-! ## Storage keys -/

theorem string_append_eq_empty (a b : String) (h : a ++ b = "") : a = "" := by
  have hd : (a ++ b).data = [] := by rw [h]
  rw [String.data_append] at hd
  exact String.ext (List.append_eq_nil.mp hd).1

theorem jsJoin_ne_empty (sep a : String) (rest : List String) (ha : a ≠ "") :
    jsJoin sep (a :: rest) ≠ "" := by
  cases rest with
  | nil => simpa [jsJoin] using ha
  | cons b rest =>
    intro h
    rw [jsJoin, String.append_assoc] at h
    exact ha (string_append_eq_empty _ _ h)

theorem jsJoin_append_singleton (sep n : String) :
    ∀ (a : String) (rest : List String),
      jsJoin sep (a :: rest ++ [n]) = jsJoin sep (a :: rest) ++ sep ++ n
  | a, [] => rfl
  | a, b :: rest => by
    have ih := jsJoin_append_singleton sep n b rest
    simp only [List.cons_append] at ih ⊢
    rw [jsJoin, ih, jsJoin]
    simp only [String.append_assoc]

theorem jsJoin_cons_cons (sep a b : String) (rest : List String) :
    jsJoin sep (a :: b :: rest) = a ++ sep ++ jsJoin sep (b :: rest) := rfl

theorem constructedKey_eq_join (userId n : String) (segs : List String)
    (hseg : ∀ seg ∈ segs, seg ≠ "") :
    constructedKey userId (jsJoin "/" segs) n = jsJoin "/" ([userId] ++ segs ++ [n]) := by
  cases segs with
  | nil =>
    simp only [constructedKey, jsJoin, if_true, List.append_nil, List.singleton_append,
      String.append_empty]
  | cons a rest =>
    have hne : jsJoin "/" (a :: rest) ≠ "" :=
      jsJoin_ne_empty "/" a rest (hseg a (List.mem_cons_self _ _))
    have e : [userId] ++ a :: rest ++ [n] = userId :: (a :: rest ++ [n]) := rfl
    have e2 : jsJoin "/" (userId :: (a :: rest ++ [n])) =
        userId ++ "/" ++ jsJoin "/" (a :: rest ++ [n]) := rfl
    rw [constructedKey, if_neg hne, e, e2, jsJoin_append_singleton]
    simp only [String.append_assoc]

theorem find_first_match (q : String → Bool) (m : String) :
    ∀ (before after : List String), (∀ x ∈ before, q x = false) → q m = true →
      (before ++ m :: after).find? q = some m
  | [], after, _, hm => by simp [List.find?, hm]
  | b :: before, after, hb, hm => by
    have hq : q b = false := hb b (List.mem_cons_self _ _)
    have ih := find_first_match q m before after
      (fun x hx => hb x (List.mem_cons_of_mem _ hx)) hm
    rw [List.cons_append, List.find?_cons, hq]
    exact ih

theorem find_no_match (q : String → Bool) :
    ∀ names : List String, (∀ x ∈ names, q x = false) → names.find? q = none
  | [], _ => rfl
  | b :: rest, hb => by
    have hq : q b = false := hb b (List.mem_cons_self _ _)
    have ih := find_no_match q rest (fun x hx => hb x (List.mem_cons_of_mem _ hx))
    rw [List.find?_cons, hq]
    exact ih

/-- C20. Listing-based key resolution. For a file that carries no storage path,
with `parent = userId ++ "/" ++` the joined decoded folder path: when the
listing succeeded and `m` is the first listed name equal to the file name or to
its `encodeURIComponent` form, the preview loader resolves the key
`parent ++ "/" ++ m`; when the listing failed, returned no data, or lists no
such name (in particular when it is empty), it resolves the constructed key
`parent ++ "/" ++ name`. -/
theorem preview_key_resolution (userId : String) (path : List String) (name : String)
    (storagePath : JVal) (hsp : truthy storagePath = false) :
    (∀ before m after, (∀ x ∈ before, x ≠ name ∧ x ≠ encodeURIComponent name) →
      (m = name ∨ m = encodeURIComponent name) →
      previewStorageKey userId path name storagePath false (some (before ++ m :: after)) =
        some (userId ++ "/" ++ jsJoin "/" (path.map b64DecodeUnicode) ++ "/" ++ m)) ∧
    (∀ listData, previewStorageKey userId path name storagePath true listData =
        some (userId ++ "/" ++ jsJoin "/" (path.map b64DecodeUnicode) ++ "/" ++ name)) ∧
    (∀ listError, previewStorageKey userId path name storagePath listError none =
        some (userId ++ "/" ++ jsJoin "/" (path.map b64DecodeUnicode) ++ "/" ++ name)) ∧
    (∀ names, (∀ x ∈ names, x ≠ name ∧ x ≠ encodeURIComponent name) →
      previewStorageKey userId path name storagePath false (some names) =
        some (userId ++ "/" ++ jsJoin "/" (path.map b64DecodeUnicode) ++ "/" ++ name)) := by
  refine ⟨?_, ?_, ?_, ?_⟩
  · intro before m after hb hm
    have hfind := find_first_match
      (fun f => decide (f = name) || decide (f = encodeURIComponent name)) m before after
      (fun x hx => by simp [(hb x hx).1, (hb x hx).2])
      (by rcases hm with h | h <;> simp [h])
    have hlen : (before ++ m :: after).length > 0 := by simp
    simp only [previewStorageKey, hlen, if_true, hfind]
  · intro listData
    simp only [previewStorageKey, hsp, Bool.false_eq_true, if_false]
  · intro listError
    cases listError <;> simp only [previewStorageKey, hsp, Bool.false_eq_true, if_false]
  · intro names hn
    have hfind := find_no_match
      (fun f => decide (f = name) || decide (f = encodeURIComponent name)) names
      (fun x hx => by simp [(hn x hx).1, (hn x hx).2])
    simp only [previewStorageKey, hfind, hsp, Bool.false_eq_true, if_false, ite_self]

theorem preview_key_resolution_witness :
    previewStorageKey "u1" ["ZG9jcw=="] "a b.png" JVal.undef false
        (some (["other.png"] ++ "a%20b.png" :: ["a b.png"])) =
      some ("u1" ++ "/" ++ jsJoin "/" (["ZG9jcw=="].map b64DecodeUnicode) ++ "/" ++ "a%20b.png") :=
  (preview_key_resolution "u1" ["ZG9jcw=="] "a b.png" JVal.undef (by decide)).1
    ["other.png"] "a%20b.png" ["a b.png"] (by decide) (by decide)

/-! ## The promise chain -/

theorem run_of_step_none (remote : Chain.Remote) (m : Chain.Machine)
    (h : Chain.step remote m = none) : ∀ fuel, Chain.run remote fuel m = m
  | 0 => rfl
  | fuel + 1 => by rw [Chain.run, h]

/-- C11, the failing input. Session start against a remote store without a
document whose first write (the scaffold folder) times out: the refetch of the
failed operation calls `ensureCmdxFileExists`, which appends a second write
behind the failed one and awaits it, so the failed operation never settles and
the second one never starts. An operation enqueued afterwards stays queued for
every number of further turns of the event loop. -/
theorem failed_scaffold_write_blocks_queue :
    Chain.progressOf (Chain.run Chain.timeoutRemote 10 (Chain.bootstrap Chain.timeoutRemote)) =
      [Chain.Progress.suspended, Chain.Progress.queued] ∧
    (Chain.run Chain.timeoutRemote 10 (Chain.bootstrap Chain.timeoutRemote)).waiters.map
        (fun w => (w.caller, w.awaited)) =
      [(Chain.Caller.outside, 0), (Chain.Caller.operation 0, 1)] ∧
    ∀ fuel,
      Chain.progressOf (Chain.run Chain.timeoutRemote fuel
        (Chain.updateFileSystem
          (Chain.run Chain.timeoutRemote 10 (Chain.bootstrap Chain.timeoutRemote))
          "Creating directory 'a'." Chain.sampleWrite).1) =
        [Chain.Progress.suspended, Chain.Progress.queued, Chain.Progress.queued] := by
  refine ⟨by decide, by decide, fun fuel => ?_⟩
  rw [run_of_step_none _ _ (by decide)]
  decide


/-! ## Evaluations of Bootstrap, the patch and the storage keys -/

/-- C21, the failing input. When every remote call succeeds, session start
against a store with no document, with an empty document, or with a document
whose scaffold folder lacks the manifest ends with both scaffold writes issued
and settled, and with the in-memory tree holding the scaffold folder with an
empty content: the tree returned by `ensureCmdxFileExists`, which replaces the
patched tree, does not hold the manifest. -/
theorem bootstrap_tree_lacks_manifest :
    (Chain.step Chain.healthyRemote (Chain.bootstrapped Chain.healthyRemote) = none ∧
      (Chain.bootstrapped Chain.healthyRemote).waiters = [] ∧
      Chain.progressOf (Chain.bootstrapped Chain.healthyRemote) =
        [Chain.Progress.settled, Chain.Progress.settled] ∧
      (Chain.mutations (Chain.bootstrapped Chain.healthyRemote)).map (fun e => e.1) =
        ["Creating documents directory.", "Initializing command manifest."] ∧
      (Chain.bootstrapped Chain.healthyRemote).fileSystem =
        JVal.obj [("documents", folderNode [])]) ∧
    (Chain.step Chain.emptyDocumentRemote (Chain.bootstrapped Chain.emptyDocumentRemote) = none ∧
      (Chain.bootstrapped Chain.emptyDocumentRemote).waiters = [] ∧
      Chain.progressOf (Chain.bootstrapped Chain.emptyDocumentRemote) =
        [Chain.Progress.settled, Chain.Progress.settled] ∧
      (Chain.bootstrapped Chain.emptyDocumentRemote).fileSystem =
        JVal.obj [("documents", folderNode [])]) ∧
    (Chain.step Chain.bareScaffoldRemote (Chain.bootstrapped Chain.bareScaffoldRemote) = none ∧
      (Chain.bootstrapped Chain.bareScaffoldRemote).waiters = [] ∧
      Chain.progressOf (Chain.bootstrapped Chain.bareScaffoldRemote) = [Chain.Progress.settled] ∧
      (Chain.mutations (Chain.bootstrapped Chain.bareScaffoldRemote)).map (fun e => e.1) =
        ["Initializing command manifest."] ∧
      (Chain.bootstrapped Chain.bareScaffoldRemote).fileSystem =
        JVal.obj [("documents", folderNode [])]) ∧
    getProp (getProp (getProp (JVal.obj [("documents", folderNode [])]) "documents") "content")
      Chain.cmdxFileName = JVal.undef := by
  decide

/-- C23, counterexample. After a fetch has recorded the server timestamp 5000, a
successful write started at the clock reading 2000 records 2000, which is
earlier than the value recorded before it. -/
theorem write_records_earlier_clock :
    (recordFetched sampleState (some 5000)).lastUpdatedRef = some (some 5000) ∧
    (syncOperation (recordFetched sampleState (some 5000)) "u1" "Creating file 'b.txt'."
        sampleCreate 2000 none).map (fun r => r.1.lastUpdatedRef) =
      some (some (some 2000)) ∧
    dateGt (some 5000) (some 2000) = true := by
  decide

/-- C24, the failing input. Saving the open file `a.txt`, which records a storage
path, calls `updateFileSystem` with neither key nor value: the remote call has a
null key and a null value, and the patch writes the key `undefined` holding
`undefined` into the current directory, so the tree, well-formed before, is not
well-formed after. -/
theorem handleSave_adds_undefined_key :
    treeOk uploadedRoot = true ∧
    (handleSave uploadedState uploadedEditingFile "hello" none 2000 none).map
        (fun r => r.1.fileSystem) =
      some (JVal.obj (uploadedRoot ++ [("undefined", JVal.undef)])) ∧
    treeOk (uploadedRoot ++ [("undefined", JVal.undef)]) = false ∧
    (handleSave uploadedState uploadedEditingFile "hello" none 2000 none).map
        (fun r => (upserts (hookEffects r.2)).map (fun a => (a.p_path, a.p_key, a.p_value))) =
      some [([], JVal.null, JVal.null)] := by
  decide

/-- C25, the failing input. With the log file holding the line `old`, logging
the command `foo` sends the value `old` followed by the new entry with the flag
`append`, and the patch appends that value to the content: the local content
holds `old` twice before the new entry. -/
theorem logUnrecognizedCommand_repeats_old_content :
    getProp (getProp (getProp (getProp logState.fileSystem "documents") "content")
      "dW5yLWNtZC5sb2c=") "content" = JVal.str "old\n" ∧
    (logUnrecognizedCommand logState "foo" "2024-01-01T00:00:00.000Z" 2000 2001 none none).map
        (fun r => getProp (getProp (getProp (getProp r.1.fileSystem "documents") "content")
          "dW5yLWNtZC5sb2c=") "content") =
      some (JVal.str ("old\n" ++ "old\n" ++ "[2024-01-01T00:00:00.000Z] Unrecognized: " ++
        doubleQuote ++ "foo" ++ doubleQuote ++ "\n")) ∧
    (logUnrecognizedCommand logState "foo" "2024-01-01T00:00:00.000Z" 2000 2001 none none).map
        (fun r => (upserts r.2).map (fun a => (a.p_append, getProp a.p_value "content"))) =
      some [(true, JVal.str ("old\n" ++ "[2024-01-01T00:00:00.000Z] Unrecognized: " ++
        doubleQuote ++ "foo" ++ doubleQuote ++ "\n"))] := by
  decide

/-- C26, the failing input. An append to the uploaded file `a.txt`, whose inline
content is the empty string, takes the replace branch of the patch: the node
becomes the value of the mutation, and its storage path, mime type and size are
gone. -/
theorem append_on_empty_content_replaces_node :
    (getProp uploadedNode "type", getProp uploadedNode "storagePath",
        getProp uploadedNode "mimeType", getProp uploadedNode "size",
        getProp uploadedNode "content") =
      (JVal.str "file", JVal.str "u1/a.txt", JVal.str "text/plain", JVal.num 2, JVal.str "") ∧
    (syncOperation uploadedState "u1" "Appending." uploadedAppend 2000 none).map
        (fun r => getProp r.1.fileSystem "YS50eHQ=") =
      some (fileNode "x") ∧
    (getProp (fileNode "x") "storagePath", getProp (fileNode "x") "mimeType",
        getProp (fileNode "x") "size") =
      (JVal.undef, JVal.undef, JVal.undef) := by
  decide

/-- C27, the failing input. The scaffold folder is written under the key
`documents`, which decodes to `documents` and whose canonical encoding is
`ZG9jdW1lbnRz`: in the tree that Bootstrap leaves on the remote store,
`cd documents` and `removeDirectory('documents')` do not find the folder. -/
theorem scaffold_key_not_canonical :
    (Chain.mutations (Chain.bootstrapped Chain.healthyRemote)).map (fun e => e.2.1.key) =
      [some "documents", some Chain.cmdxFileName] ∧
    b64DecodeUnicode "documents" = "documents" ∧
    b64EncodeUnicode (b64DecodeUnicode "documents") = some "ZG9jdW1lbnRz" ∧
    b64EncodeUnicode (b64DecodeUnicode Chain.cmdxFileName) = some Chain.cmdxFileName ∧
    cd scaffoldState ["documents"] =
      some (scaffoldState,
        [Effect.addCommandOutput "error" "cd Error" "Directory not found: documents"]) ∧
    removeDirectory scaffoldState "documents" 2000 none =
      some (scaffoldState,
        [Effect.addCommandOutput "error" "Error"
          "Directory 'documents' not found in the current directory or is not a directory."]) := by
  decide

/-- C28, the failing input. At the root the folder path is empty, and the preview
loader builds the key `u1//a.png` where the upload, save, cat and remove paths
build `u1/a.png`. -/
theorem preview_key_differs_at_root :
    previewStorageKey "u1" [] "a.png" JVal.undef true none = some "u1//a.png" ∧
    previewStorageKey "u1" [] "a.png" JVal.undef false (some []) = some "u1//a.png" ∧
    constructedKey "u1" (jsJoin "/" (([] : List String).map b64DecodeUnicode)) "a.png" =
      "u1/a.png" ∧
    effectiveStorageKey (some "u1") JVal.undef [] "a.png" = some (JVal.str "u1/a.png") := by
  decide

/-! ## The recorded timestamp -/

theorem syncOperation_records_clock (st : HookState) (userId description : String)
    (options : Options) (now : Int) (st2 : HookState) (effects : List Effect)
    (h : syncOperation st userId description options now none = some (st2, effects)) :
    st2.lastUpdatedRef = some (some now) := by
  simp only [syncOperation] at h
  split at h
  · cases h
  · simp only [Option.some.injEq, Prod.mk.injEq] at h
    rw [← h.1]

/-- C23, in the form that holds. A successful mutation records the clock reading
`now` of its start, whatever was recorded before. So for two successive
successful writes of this client whose clock readings do not decrease, the
second recorded value is not earlier than the first; and the value recorded by a
write is earlier than a value `L` recorded before it exactly when the clock
reading is earlier than `L`. -/
theorem own_writes_record_clock (st s1 s2 : HookState) (userId d1 d2 : String)
    (o1 o2 : Options) (now1 now2 : Int) (e1 e2 : List Effect)
    (h1 : syncOperation st userId d1 o1 now1 none = some (s1, e1))
    (h2 : syncOperation s1 userId d2 o2 now2 none = some (s2, e2))
    (hclock : now1 ≤ now2) :
    s1.lastUpdatedRef = some (some now1) ∧ s2.lastUpdatedRef = some (some now2) ∧
    (∀ a b, s1.lastUpdatedRef = some a → s2.lastUpdatedRef = some b → dateGt a b = false) ∧
    (∀ L b, st.lastUpdatedRef = some (some L) → s1.lastUpdatedRef = some b →
      (dateGt (some L) b = true ↔ now1 < L)) := by
  have r1 := syncOperation_records_clock st userId d1 o1 now1 s1 e1 h1
  have r2 := syncOperation_records_clock s1 userId d2 o2 now2 s2 e2 h2
  refine ⟨r1, r2, ?_, ?_⟩
  · intro a b ha hb
    rw [r1] at ha
    rw [r2] at hb
    cases ha
    cases hb
    simp only [dateGt, decide_eq_false_iff_not, not_lt, gt_iff_lt]
    exact hclock
  · intro L b _ hb
    rw [r1] at hb
    cases hb
    simp only [dateGt, decide_eq_true_eq, gt_iff_lt]

theorem own_writes_record_clock_witness :
    ∃ s1 s2 : HookState,
      s1.lastUpdatedRef = some (some 2000) ∧ s2.lastUpdatedRef = some (some 2001) ∧
      (∀ a b, s1.lastUpdatedRef = some a → s2.lastUpdatedRef = some b → dateGt a b = false) ∧
      (∀ L b, sampleState.lastUpdatedRef = some (some L) → s1.lastUpdatedRef = some b →
        (dateGt (some L) b = true ↔ (2000 : Int) < L)) :=
  ⟨_, _, own_writes_record_clock sampleState _ _ "u1" "Creating file 'b.txt'."
    "Appending." sampleCreate sampleAppend 2000 2001 _ _ rfl rfl (by decide)⟩

/-! ## Well-formed trees -/

theorem lookupKey_isSome_of_mem (k : String) (v : JVal) :
    ∀ m : Props, (k, v) ∈ m → ∃ w, lookupKey k m = some w
  | [], h => by cases h
  | (k2, v2) :: r, h => by
    rw [lookupKey]
    by_cases hk : k2 = k
    · exact ⟨v2, by rw [if_pos hk]⟩
    · rw [if_neg hk]
      rcases List.mem_cons.mp h with e | e
      · cases e; exact absurd rfl hk
      · exact lookupKey_isSome_of_mem k v r e

theorem mem_of_lookupKey (k : String) (v : JVal) :
    ∀ m : Props, lookupKey k m = some v → (k, v) ∈ m
  | [], h => by rw [lookupKey] at h; cases h
  | (k2, v2) :: r, h => by
    rw [lookupKey] at h
    by_cases hk : k2 = k
    · rw [if_pos hk] at h
      cases h
      subst hk
      exact List.mem_cons_self _ _
    · rw [if_neg hk] at h
      exact List.mem_cons_of_mem _ (mem_of_lookupKey k v r h)

theorem treeOk_cons (k : String) (v : JVal) (r : Props) (h : treeOk ((k, v) :: r) = true) :
    lookupKey k r = none ∧ fileOrFolder v = true ∧ treeOk r = true := by
  rw [treeOk, Bool.and_eq_true, Bool.and_eq_true, Option.isNone_iff_eq_none] at h
  exact ⟨h.1.1, h.1.2, h.2⟩

theorem lookupKey_of_mem_treeOk (k : String) (v : JVal) :
    ∀ m : Props, treeOk m = true → (k, v) ∈ m → lookupKey k m = some v
  | [], _, h => by cases h
  | (k2, v2) :: r, hok, h => by
    obtain ⟨hnone, _, hr⟩ := treeOk_cons k2 v2 r hok
    rw [lookupKey]
    rcases List.mem_cons.mp h with e | e
    · cases e; rw [if_pos rfl]
    · by_cases hk : k2 = k
      · subst hk
        obtain ⟨w, hw⟩ := lookupKey_isSome_of_mem k2 v r e
        rw [hnone] at hw
        cases hw
      · rw [if_neg hk]
        exact lookupKey_of_mem_treeOk k v r hr e

theorem fileOrFolder_of_mem (k : String) (v : JVal) :
    ∀ m : Props, treeOk m = true → (k, v) ∈ m → fileOrFolder v = true
  | [], _, h => by cases h
  | (k2, v2) :: r, hok, h => by
    obtain ⟨_, hv, hr⟩ := treeOk_cons k2 v2 r hok
    rcases List.mem_cons.mp h with e | e
    · cases e; exact hv
    · exact fileOrFolder_of_mem k v r hr e

theorem folderFieldsOk_spec (fields : Props) (h : folderFieldsOk fields = true) :
    ∃ c, lookupKey "content" fields = some (JVal.obj c) ∧ treeOk c = true := by
  induction fields with
  | nil => rw [folderFieldsOk] at h; cases h
  | cons kv r ih =>
    obtain ⟨k, v⟩ := kv
    rw [folderFieldsOk] at h
    by_cases hk : k = "content"
    · rw [if_pos hk] at h
      cases v with
      | obj c =>
        rw [folderContentOk] at h
        exact ⟨c, by simp [lookupKey, hk], h⟩
      | _ => rw [folderContentOk] at h; cases h
    · rw [if_neg hk] at h
      obtain ⟨c, hc, hok⟩ := ih h
      exact ⟨c, by simp [lookupKey, hk, hc], hok⟩

theorem lookup_type_of_getProp (fields : Props)
    (ht : getProp (JVal.obj fields) "type" = JVal.str "folder") :
    lookupKey "type" fields = some (JVal.str "folder") := by
  rw [getProp_obj] at ht
  cases hl : lookupKey "type" fields with
  | none => rw [hl] at ht; simp at ht
  | some v => rw [hl] at ht; simp at ht; rw [ht]

theorem fileOrFolder_isObj (v : JVal) (h : fileOrFolder v = true) : ∃ fields, v = JVal.obj fields := by
  cases v with
  | obj fields => exact ⟨fields, rfl⟩
  | _ => rw [fileOrFolder] at h; cases h

theorem folder_content_of_fileOrFolder (v : JVal) (h : fileOrFolder v = true)
    (ht : getProp v "type" = JVal.str "folder") :
    ∃ c, getProp v "content" = JVal.obj c ∧ treeOk c = true := by
  obtain ⟨fields, rfl⟩ := fileOrFolder_isObj v h
  rw [fileOrFolder, if_pos (lookup_type_of_getProp fields ht)] at h
  obtain ⟨c, hc, hok⟩ := folderFieldsOk_spec fields h
  exact ⟨c, by rw [getProp_obj, hc]; rfl, hok⟩

theorem treeOk_of_resolves (root : Props) (path : List String) (m : Props)
    (h : ResolvesTo root path m) (hok : treeOk root = true) : treeOk m = true := by
  induction h with
  | nil root => exact hok
  | cons root segment rest node content m hl hf _ ih =>
    apply ih
    have hv := fileOrFolder_of_mem segment node root hok (mem_of_lookupKey segment node root hl)
    obtain ⟨c, hc, hcok⟩ := folder_content_of_fileOrFolder node hv hf.1
    rw [hf.2] at hc
    cases hc
    exact hcok

theorem resolves_or_null (path : List String) :
    ∀ root : Props, treeOk root = true →
      getCurrentDirectoryLoop (JVal.obj root) path = some JVal.null ∨
        ∃ m, ResolvesTo root path m := by
  induction path with
  | nil => intro root _; exact Or.inr ⟨root, ResolvesTo.nil root⟩
  | cons segment rest ih =>
    intro root hok
    rw [loop_cons_obj]
    by_cases ht : getProp (getProp (JVal.obj root) segment) "type" = JVal.str "folder"
    · rw [if_pos ht]
      obtain ⟨n, hn⟩ := getProp_type_of_not_obj _ ht
      have hl : lookupKey segment root = some (JVal.obj n) := by
        rw [getProp_obj] at hn
        cases hl : lookupKey segment root with
        | none => rw [hl] at hn; cases hn
        | some v => rw [hl] at hn; simp at hn; rw [hn]
      have hv := fileOrFolder_of_mem segment _ root hok (mem_of_lookupKey segment _ root hl)
      rw [hn] at ht
      obtain ⟨c, hc, hcok⟩ := folder_content_of_fileOrFolder _ hv ht
      rw [hn, hc]
      rcases ih c hcok with h | ⟨m, hm⟩
      · exact Or.inl h
      · exact Or.inr ⟨m, ResolvesTo.cons root segment rest _ c m hl ⟨ht, hc⟩ hm⟩
    · rw [if_neg ht]
      exact Or.inl rfl

theorem resolves_prefix (a b : List String) :
    ∀ (root m : Props), ResolvesTo root (a ++ b) m → ∃ m2, ResolvesTo root a m2 := by
  induction a with
  | nil => intro root m _; exact ⟨root, ResolvesTo.nil root⟩
  | cons segment rest ih =>
    intro root m h
    cases h with
    | cons _ _ _ node content _ hl hf hrest =>
      obtain ⟨m2, hm2⟩ := ih content m hrest
      exact ⟨m2, ResolvesTo.cons root segment rest node content m2 hl hf hm2⟩

theorem resolves_snoc (root : Props) (p : List String) (d : Props) (k : String) (node : JVal)
    (c : Props) (h : ResolvesTo root p d) (hl : lookupKey k d = some node)
    (hf : IsFolder node c) : ResolvesTo root (p ++ [k]) c := by
  induction h with
  | nil root => exact ResolvesTo.cons root k [] node c c hl hf (ResolvesTo.nil c)
  | cons root segment rest node2 content m hl2 hf2 _ ih =>
    exact ResolvesTo.cons root segment (rest ++ [k]) node2 content c hl2 hf2 (ih hl)

theorem getCurrentDirectory_of_resolves (root : Props) (path : List String) (m : Props)
    (h : ResolvesTo root path m) :
    getCurrentDirectory (JVal.obj root) path = some (JVal.obj m) := by
  have hg : getCurrentDirectory (JVal.obj root) path =
      getCurrentDirectoryLoop (JVal.obj root) path := by
    simp [getCurrentDirectory, truthy]
  rw [hg]
  exact loop_of_resolves root path m h

theorem resolves_of_not_null (root : Props) (path : List String) (hok : treeOk root = true)
    (h : getCurrentDirectory (JVal.obj root) path ≠ some JVal.null) :
    ∃ m, ResolvesTo root path m := by
  have hg : getCurrentDirectory (JVal.obj root) path =
      getCurrentDirectoryLoop (JVal.obj root) path := by
    simp [getCurrentDirectory, truthy]
  rw [hg] at h
  rcases resolves_or_null path root hok with hn | hr
  · exact absurd hn h
  · exact hr

/-! ## Navigation -/

theorem lookupKey_of_getProp_type (d : Props) (k : String)
    (ht : getProp (getProp (JVal.obj d) k) "type" = JVal.str "folder") :
    lookupKey k d = some (getProp (JVal.obj d) k) := by
  obtain ⟨n, hn⟩ := getProp_type_of_not_obj _ ht
  have hn2 := hn
  rw [getProp_obj] at hn
  cases hl : lookupKey k d with
  | none => rw [hl] at hn; cases hn
  | some v =>
    rw [hl] at hn
    simp only [Option.getD_some] at hn
    rw [hn2, hn]

theorem resolves_enter (root : Props) (p : List String) (d : Props) (k : String)
    (hok : treeOk root = true) (h : ResolvesTo root p d)
    (ht : getProp (getProp (JVal.obj d) k) "type" = JVal.str "folder") :
    ∃ c, ResolvesTo root (p ++ [k]) c := by
  have hl := lookupKey_of_getProp_type d k ht
  have hd := treeOk_of_resolves root p d h hok
  have hv := fileOrFolder_of_mem k _ d hd (mem_of_lookupKey k _ d hl)
  obtain ⟨c, hc, _⟩ := folder_content_of_fileOrFolder _ hv ht
  exact ⟨c, resolves_snoc root p d k _ c h hl ⟨ht, hc⟩⟩

theorem resolves_take (root : Props) (p : List String) (d : Props) (n : Nat)
    (h : ResolvesTo root p d) : ∃ m, ResolvesTo root (p.take n) m := by
  rw [← List.take_append_drop n p] at h
  exact resolves_prefix _ _ root d h

theorem resolves_dropLast (root : Props) (p : List String) (d : Props)
    (h : ResolvesTo root p d) : ∃ m, ResolvesTo root p.dropLast m := by
  rw [List.dropLast_eq_take]
  exact resolves_take root p d _ h

theorem mapM_codexItem_mem :
    ∀ (d : Props) (items : List Item) (item : Item),
      d.mapM (fun kv => codexItem kv.1 kv.2) = some items → item ∈ items →
      ∃ k v, (k, v) ∈ d ∧ codexItem k v = some item
  | [], items, item, h, hm => by
    simp only [List.mapM_nil, Option.pure_def, Option.some.injEq] at h
    subst h
    cases hm
  | (k, v) :: r, items, item, h, hm => by
    rw [List.mapM_cons] at h
    cases h1 : codexItem k v with
    | none =>
      rw [h1] at h
      cases h
    | some first =>
      cases h2 : r.mapM (fun kv => codexItem kv.1 kv.2) with
      | none =>
        rw [h1, h2] at h
        cases h
      | some others =>
        rw [h1, h2] at h
        simp only [Option.pure_def, Option.bind_eq_bind, Option.some_bind,
          Option.some.injEq] at h
        subst h
        rcases List.mem_cons.mp hm with e | e
        · subst e
          exact ⟨k, v, List.mem_cons_self _ _, h1⟩
        · obtain ⟨k2, v2, hmem, hc⟩ := mapM_codexItem_mem r others item h2 e
          exact ⟨k2, v2, List.mem_cons_of_mem _ hmem, hc⟩

theorem codexItem_fields (k : String) (v : JVal) (item : Item) (h : codexItem k v = some item) :
    item.encodedName = k ∧ item.type = getProp v "type" := by
  cases v <;> simp only [codexItem] at h <;> first
    | (cases h; exact ⟨rfl, rfl⟩)
    | cases h

/-- C30. The path cursor stays resolvable under navigation. For a well-formed
tree and a cursor at which `getCurrentDirectory` is not null: every `cd` with
an argument returns, leaves the tree as it is and ends at a cursor that
resolves to a mapping, and it leaves the state unchanged when the argument is a
name whose encoded key is missing or is not a Folder; a click on a listed item,
`navigateUp`, `navigateRoot` and a breadcrumb click end at a cursor that
resolves to a mapping. -/
theorem cursor_stays_resolvable (st : HookState) (root : Props)
    (hfs : st.fileSystem = JVal.obj root) (hok : treeOk root = true)
    (hres : getCurrentDirectory st.fileSystem st.currentPath ≠ some JVal.null) :
    (∀ name rest, ∃ st2 effects, cd st (name :: rest) = some (st2, effects) ∧
      st2.fileSystem = st.fileSystem ∧
      (∃ d, getCurrentDirectory st2.fileSystem st2.currentPath = some (JVal.obj d)) ∧
      (name ≠ ".." → name ≠ "/" → ∀ encoded d, b64EncodeUnicode name = some encoded →
        getCurrentDirectory st.fileSystem st.currentPath = some (JVal.obj d) →
        getProp (getProp (JVal.obj d) encoded) "type" ≠ JVal.str "folder" → st2 = st)) ∧
    (∀ dir items item, getCurrentDirectory st.fileSystem st.currentPath = some dir →
      codexItems dir = some items → item ∈ items →
      ∃ d, getCurrentDirectory (handleItemClick st item).fileSystem
        (handleItemClick st item).currentPath = some (JVal.obj d)) ∧
    (∃ d, getCurrentDirectory (navigateUp st).fileSystem (navigateUp st).currentPath =
      some (JVal.obj d)) ∧
    (∃ d, getCurrentDirectory (navigateRoot st).fileSystem (navigateRoot st).currentPath =
      some (JVal.obj d)) ∧
    (∀ i, ∃ d, getCurrentDirectory (breadcrumbClick st i).fileSystem
      (breadcrumbClick st i).currentPath = some (JVal.obj d)) := by
  rw [hfs] at hres
  obtain ⟨d, hd⟩ := resolves_of_not_null root st.currentPath hok hres
  have hcur := getCurrentDirectory_of_resolves root st.currentPath d hd
  refine ⟨?_, ?_, ?_, ?_, ?_⟩
  · intro name rest
    by_cases h1 : name = ".."
    · obtain ⟨m, hm⟩ := resolves_dropLast root st.currentPath d hd
      refine ⟨{ st with currentPath := st.currentPath.dropLast }, [], ?_, rfl, ⟨m, ?_⟩, ?_⟩
      · simp only [cd, h1, if_true]
      · simp only [hfs]
        exact getCurrentDirectory_of_resolves root _ m hm
      · intro hne; exact absurd h1 hne
    · by_cases h2 : name = "/"
      · refine ⟨{ st with currentPath := [] }, [], ?_, rfl, ⟨root, ?_⟩, ?_⟩
        · subst h2
          simp only [cd, if_neg h1, if_true]
        · simp only [hfs]
          exact getCurrentDirectory_of_resolves root [] root (ResolvesTo.nil root)
        · intro _ hne; exact absurd h2 hne
      · have henc := b64EncodeUnicode_eq name
        by_cases ht : getProp (getProp (JVal.obj d)
            (String.mk (base64Encode (utf8Bytes name.data)))) "type" = JVal.str "folder"
        · obtain ⟨c, hc⟩ := resolves_enter root st.currentPath d _ hok hd ht
          refine ⟨{ st with currentPath := st.currentPath ++
              [String.mk (base64Encode (utf8Bytes name.data))] }, [], ?_, rfl, ⟨c, ?_⟩, ?_⟩
          · simp only [cd, if_neg h1, if_neg h2, hfs, hcur, henc, ht, decide_True,
              Bool.and_true]
            rfl
          · simp only [hfs]
            exact getCurrentDirectory_of_resolves root _ c hc
          · intro _ _ encoded d2 he hd2 hnf
            rw [henc] at he
            cases he
            rw [hfs, hcur] at hd2
            cases hd2
            exact absurd ht hnf
        · refine ⟨st, [Effect.addCommandOutput "error" "cd Error"
              ("Directory not found: " ++ name)], ?_, rfl, ⟨d, ?_⟩, ?_⟩
          · simp only [cd, if_neg h1, if_neg h2, hfs, hcur, henc, ht, decide_False,
              Bool.and_false]
            rfl
          · rw [hfs]; exact hcur
          · intro _ _ _ _ _ _ _; rfl
  · intro dir items item hdir hitems hmem
    rw [hfs, hcur] at hdir
    cases hdir
    have hmap : d.mapM (fun kv => codexItem kv.1 kv.2) = some items := by
      simpa [codexItems, truthy] using hitems
    obtain ⟨k, v, hkv, hc⟩ := mapM_codexItem_mem d items item hmap hmem
    obtain ⟨hname, htype⟩ := codexItem_fields k v item hc
    have hdok := treeOk_of_resolves root st.currentPath d hd hok
    have hl := lookupKey_of_mem_treeOk k v d hdok hkv
    by_cases hf : item.type = JVal.str "folder"
    · have hg : getProp (JVal.obj d) k = v := by rw [getProp_obj, hl]; rfl
      have ht : getProp (getProp (JVal.obj d) k) "type" = JVal.str "folder" := by
        rw [hg, ← htype]; exact hf
      obtain ⟨c, hc2⟩ := resolves_enter root st.currentPath d k hok hd ht
      refine ⟨c, ?_⟩
      simp only [handleItemClick, if_pos hf, changeDirectory, hfs, hname]
      exact getCurrentDirectory_of_resolves root _ c hc2
    · refine ⟨d, ?_⟩
      simp only [handleItemClick, if_neg hf, hfs]
      exact hcur
  · obtain ⟨m, hm⟩ := resolves_dropLast root st.currentPath d hd
    exact ⟨m, by simp only [navigateUp, hfs]; exact getCurrentDirectory_of_resolves root _ m hm⟩
  · exact ⟨root, by
      simp only [navigateRoot, hfs]
      exact getCurrentDirectory_of_resolves root [] root (ResolvesTo.nil root)⟩
  · intro i
    obtain ⟨m, hm⟩ := resolves_take root st.currentPath d (i + 1) hd
    exact ⟨m, by
      simp only [breadcrumbClick, hfs]
      exact getCurrentDirectory_of_resolves root _ m hm⟩

theorem cursor_stays_resolvable_witness :
    treeOk sampleRoot = true ∧
    (∃ d, getCurrentDirectory (navigateUp sampleStateInDocs).fileSystem
      (navigateUp sampleStateInDocs).currentPath = some (JVal.obj d)) ∧
    (∀ i, ∃ d, getCurrentDirectory (breadcrumbClick sampleStateInDocs i).fileSystem
      (breadcrumbClick sampleStateInDocs i).currentPath = some (JVal.obj d)) ∧
    (∃ st2 effects, cd sampleStateInDocs ["a.txt"] = some (st2, effects) ∧
      ∃ d, getCurrentDirectory st2.fileSystem st2.currentPath = some (JVal.obj d)) :=
  have h := cursor_stays_resolvable sampleStateInDocs sampleRoot rfl (by decide) (by decide)
  ⟨by decide, h.2.2.1, h.2.2.2.2,
    (h.1 "a.txt" []).elim fun st2 h2 => h2.elim fun effects h3 => ⟨st2, effects, h3.1, h3.2.2.1⟩⟩

/-! ## `findPath` -/

theorem sizeOf_lt_of_mem (k : String) (v : JVal) :
    ∀ m : Props, (k, v) ∈ m → sizeOf v < sizeOf m
  | [], h => by cases h
  | (k2, v2) :: r, h => by
    rcases List.mem_cons.mp h with e | e
    · cases e
      simp only [List.cons.sizeOf_spec, Prod.mk.sizeOf_spec]
      omega
    · have ih := sizeOf_lt_of_mem k v r e
      simp only [List.cons.sizeOf_spec]
      omega

theorem sizeOf_content_lt (v : JVal) (c : Props) (h : getProp v "content" = JVal.obj c) :
    sizeOf c < sizeOf v := by
  obtain ⟨fields, rfl⟩ := isObj_of_getProp_ne_undef v "content" (by rw [h]; intro e; cases e)
  have hl : lookupKey "content" fields = some (JVal.obj c) := by
    rw [getProp_obj] at h
    cases hl : lookupKey "content" fields with
    | none => rw [hl] at h; cases h
    | some w => rw [hl] at h; simp only [Option.getD_some] at h; rw [h]
  have hlt := sizeOf_lt_of_mem "content" (JVal.obj c) fields (mem_of_lookupKey _ _ _ hl)
  simp only [JVal.obj.sizeOf_spec] at hlt ⊢
  omega

theorem searchValue_obj (t : String) (m : Props) (path cpath : List String) :
    searchValue t (JVal.obj m) path cpath = searchEntries t (JVal.obj m) m path cpath := by
  rw [searchValue]

theorem searchContent_eq (t : String) (path cpath : List String) :
    ∀ fields : Props,
      searchContent t fields path cpath =
        searchValue t (getProp (JVal.obj fields) "content") path cpath
  | [] => by
    rw [searchContent]
    have e : getProp (JVal.obj []) "content" = JVal.undef := rfl
    rw [e, searchValue]
  | (k, v) :: r => by
    rw [searchContent]
    by_cases hk : k = "content"
    · rw [if_pos hk]
      have e : getProp (JVal.obj ((k, v) :: r)) "content" = v := by
        simp [getProp, lookupKey, hk]
      rw [e]
    · rw [if_neg hk, searchContent_eq t path cpath r]
      have e : getProp (JVal.obj ((k, v) :: r)) "content" = getProp (JVal.obj r) "content" := by
        simp [getProp, lookupKey, hk]
      rw [e]

theorem searchNode_of_folder (t : String) (v : JVal) (path cpath : List String)
    (hv : fileOrFolder v = true) (ht : getProp v "type" = JVal.str "folder") :
    searchNode t v path cpath = searchValue t (getProp v "content") path cpath := by
  obtain ⟨fields, rfl⟩ := fileOrFolder_isObj v hv
  rw [searchNode, if_pos (lookup_type_of_getProp fields ht), searchContent_eq]

theorem searchNode_of_not_folder (t : String) (v : JVal) (path cpath : List String)
    (hv : fileOrFolder v = true) (ht : getProp v "type" ≠ JVal.str "folder") :
    searchNode t v path cpath = Search.notFound := by
  obtain ⟨fields, rfl⟩ := fileOrFolder_isObj v hv
  have hl : lookupKey "type" fields ≠ some (JVal.str "folder") := by
    intro hl
    apply ht
    rw [getProp_obj, hl]
    rfl
  rw [searchNode, if_neg hl]

theorem searchEntries_cons_match (t : String) (parent : JVal) (k : String) (v : JVal)
    (rest : Props) (path cpath : List String) (h : b64DecodeUnicode k = t) :
    searchEntries t parent ((k, v) :: rest) path cpath =
      Search.found { parent := parent, encodedName := k, path := path, contentPath := cpath } := by
  rw [searchEntries, if_pos h]

theorem searchEntries_cons_skip (t : String) (parent : JVal) (k : String) (v : JVal)
    (rest : Props) (path cpath : List String) (h : b64DecodeUnicode k ≠ t)
    (hs : searchNode t v (path ++ [k]) (cpath ++ [k, "content"]) = Search.notFound) :
    searchEntries t parent ((k, v) :: rest) path cpath =
      searchEntries t parent rest path cpath := by
  rw [searchEntries, if_neg h, hs]

theorem searchEntries_cons_inner (t : String) (parent : JVal) (k : String) (v : JVal)
    (rest : Props) (path cpath : List String) (h : b64DecodeUnicode k ≠ t)
    (hs : searchNode t v (path ++ [k]) (cpath ++ [k, "content"]) ≠ Search.notFound) :
    searchEntries t parent ((k, v) :: rest) path cpath =
      searchNode t v (path ++ [k]) (cpath ++ [k, "content"]) := by
  rw [searchEntries, if_neg h]
  cases hr : searchNode t v (path ++ [k]) (cpath ++ [k, "content"]) with
  | notFound => exact absurd hr hs
  | raised => rfl
  | found r => rfl

theorem noMatch_of_entries (t : String) (c : Props)
    (h : ∀ k v, (k, v) ∈ c →
      b64DecodeUnicode k ≠ t ∧ ∀ c2, IsFolder v c2 → NoMatch t c2) : NoMatch t c := by
  intro k hk
  obtain ⟨path, m, node, hres, hl⟩ := hk
  cases hres with
  | nil => exact (h k node (mem_of_lookupKey k node c hl)).1
  | cons _ segment rest nd content _ hl2 hf hrest =>
    exact (h segment nd (mem_of_lookupKey segment nd c hl2)).2 content hf k
      ⟨rest, m, node, hrest, hl⟩

theorem search_spec (t : String) (n : Nat) :
    ∀ m : Props, sizeOf m ≤ n → treeOk m = true →
      ∀ (entries pre : Props), m = pre ++ entries → ∀ path cpath : List String,
        searchEntries t (JVal.obj m) entries path cpath ≠ Search.raised ∧
        (searchEntries t (JVal.obj m) entries path cpath = Search.notFound →
          ∀ k v, (k, v) ∈ entries →
            b64DecodeUnicode k ≠ t ∧ ∀ c, IsFolder v c → NoMatch t c) ∧
        (∀ r, searchEntries t (JVal.obj m) entries path cpath = Search.found r →
          ∃ (sub : List String) (m2 : Props) (node : JVal),
            r.path = path ++ sub ∧ r.contentPath = cpath ++ contentPath sub ∧
            ResolvesTo m sub m2 ∧ r.parent = JVal.obj m2 ∧
            lookupKey r.encodedName m2 = some node ∧ b64DecodeUnicode r.encodedName = t) := by
  induction n using Nat.strong_induction_on with
  | _ n ih =>
    intro m hsize hok entries
    induction entries with
    | nil =>
      intro pre _ path cpath
      rw [searchEntries]
      refine ⟨(by intro e; cases e), ?_, ?_⟩
      · intro _ k v hkv; cases hkv
      · intro r e; cases e
    | cons kv rest ihe =>
      obtain ⟨k, v⟩ := kv
      intro pre hm path cpath
      have hmem : (k, v) ∈ m := by rw [hm]; simp
      have hl := lookupKey_of_mem_treeOk k v m hok hmem
      have hv := fileOrFolder_of_mem k v m hok hmem
      have hrest := ihe (pre ++ [(k, v)]) (by rw [hm]; simp) path cpath
      by_cases hd : b64DecodeUnicode k = t
      · rw [searchEntries_cons_match t _ k v rest path cpath hd]
        refine ⟨(by intro e; cases e), (by intro e; cases e), ?_⟩
        intro r e
        cases e
        exact ⟨[], m, v, by simp, by simp [contentPath_nil], ResolvesTo.nil m, rfl, hl, hd⟩
      · by_cases ht : getProp v "type" = JVal.str "folder"
        · obtain ⟨c, hc, hcok⟩ := folder_content_of_fileOrFolder v hv ht
          have hlt : sizeOf c < n := by
            have h1 := sizeOf_content_lt v c hc
            have h2 := sizeOf_lt_of_mem k v m hmem
            omega
          have hin := ih (sizeOf c) hlt c (le_refl _) hcok c [] rfl (path ++ [k])
            (cpath ++ [k, "content"])
          have hnode : searchNode t v (path ++ [k]) (cpath ++ [k, "content"]) =
              searchEntries t (JVal.obj c) c (path ++ [k]) (cpath ++ [k, "content"]) := by
            rw [searchNode_of_folder t v _ _ hv ht, hc, searchValue_obj]
          by_cases hs : searchNode t v (path ++ [k]) (cpath ++ [k, "content"]) =
              Search.notFound
          · rw [searchEntries_cons_skip t _ k v rest path cpath hd hs]
            refine ⟨hrest.1, ?_, hrest.2.2⟩
            intro hnf k2 v2 hkv
            rcases List.mem_cons.mp hkv with e | e
            · cases e
              refine ⟨hd, ?_⟩
              intro c2 hf
              have hcc : c2 = c := by
                have := hf.2
                rw [hc] at this
                cases this
                rfl
              rw [hcc]
              rw [hnode] at hs
              exact noMatch_of_entries t c (hin.2.1 hs)
            · exact hrest.2.1 hnf k2 v2 e
          · rw [searchEntries_cons_inner t _ k v rest path cpath hd hs, hnode]
            rw [hnode] at hs
            refine ⟨hin.1, (by intro e; exact absurd e hs), ?_⟩
            intro r hr
            obtain ⟨sub, m2, node, hp, hcp, hres, hpar, hlk, hdec⟩ := hin.2.2 r hr
            refine ⟨k :: sub, m2, node, ?_, ?_, ?_, hpar, hlk, hdec⟩
            · rw [hp]; simp
            · rw [hcp, contentPath_cons]; simp
            · exact ResolvesTo.cons m k sub v c m2 hl ⟨ht, hc⟩ hres
        · have hs := searchNode_of_not_folder t v (path ++ [k]) (cpath ++ [k, "content"]) hv ht
          rw [searchEntries_cons_skip t _ k v rest path cpath hd hs]
          refine ⟨hrest.1, ?_, hrest.2.2⟩
          intro hnf k2 v2 hkv
          rcases List.mem_cons.mp hkv with e | e
          · cases e
            exact ⟨hd, fun c2 hf => absurd hf.1 ht⟩
          · exact hrest.2.1 hnf k2 v2 e

/-- C29. The function `findPath` is a sound and complete search by decoded
name. On a well-formed tree `findPath(fs, t)` returns without raising; it
returns `null` exactly when no key reachable through Folder nodes decodes to
`t`; and a result `r` names a key `r.encodedName` of the mapping `r.parent`
that decodes to `t`, with `getCurrentDirectory(fs, r.path)` equal to `r.parent`
and `r.contentPath` equal to `r.path` with `content` after every segment. -/
theorem findPath_sound_complete (root : Props) (t : String) (hok : treeOk root = true) :
    findPath (JVal.obj root) t ≠ Search.raised ∧
    (findPath (JVal.obj root) t = Search.notFound ↔
      ¬ ∃ k, Reachable root k ∧ b64DecodeUnicode k = t) ∧
    (∀ r, findPath (JVal.obj root) t = Search.found r →
      ∃ (m : Props) (node : JVal), r.parent = JVal.obj m ∧
        lookupKey r.encodedName m = some node ∧ b64DecodeUnicode r.encodedName = t ∧
        getCurrentDirectory (JVal.obj root) r.path = some r.parent ∧
        r.contentPath = contentPath r.path) := by
  have hfind : findPath (JVal.obj root) t = searchEntries t (JVal.obj root) root [] [] := by
    rw [findPath, searchValue_obj]
  have hspec := search_spec t (sizeOf root) root (le_refl _) hok root [] rfl [] []
  rw [← hfind] at hspec
  have hfound : ∀ r, findPath (JVal.obj root) t = Search.found r →
      ∃ (m : Props) (node : JVal), r.parent = JVal.obj m ∧
        lookupKey r.encodedName m = some node ∧ b64DecodeUnicode r.encodedName = t ∧
        getCurrentDirectory (JVal.obj root) r.path = some r.parent ∧
        r.contentPath = contentPath r.path ∧ Reachable root r.encodedName := by
    intro r hr
    obtain ⟨sub, m2, node, hp, hcp, hres, hpar, hlk, hdec⟩ := hspec.2.2 r hr
    simp only [List.nil_append] at hp hcp
    refine ⟨m2, node, hpar, hlk, hdec, ?_, ?_, ⟨sub, m2, node, hres, hlk⟩⟩
    · rw [hp, hpar]
      exact getCurrentDirectory_of_resolves root sub m2 hres
    · rw [hcp, hp]
  refine ⟨hspec.1, ⟨?_, ?_⟩, ?_⟩
  · intro hnf ⟨k, hk, hdec⟩
    exact noMatch_of_entries t root (hspec.2.1 hnf) k hk hdec
  · intro hno
    cases hr : findPath (JVal.obj root) t with
    | notFound => rfl
    | raised => exact absurd hr hspec.1
    | found r =>
      obtain ⟨m, node, _, _, hdec, _, _, hreach⟩ := hfound r hr
      exact absurd ⟨r.encodedName, hreach, hdec⟩ hno
  · intro r hr
    obtain ⟨m, node, h1, h2, h3, h4, h5, _⟩ := hfound r hr
    exact ⟨m, node, h1, h2, h3, h4, h5⟩

theorem findPath_sound_complete_witness :
    treeOk sampleRoot = true ∧
    findPath (JVal.obj sampleRoot) "a.txt" ≠ Search.raised ∧
    (findPath (JVal.obj sampleRoot) "a.txt" = Search.notFound ↔
      ¬ ∃ k, Reachable sampleRoot k ∧ b64DecodeUnicode k = "a.txt") :=
  have h := findPath_sound_complete sampleRoot "a.txt" (by decide)
  ⟨by decide, h.1, h.2.1⟩

/-! ## The scaffold check -/

theorem mutations_setProgress (p : Chain.Progress) :
    ∀ (i : Nat) (chain : List Chain.Entry),
      (Chain.setProgress p i chain).map (fun e => (e.operationDescription, e.options, e.path)) =
        chain.map (fun e => (e.operationDescription, e.options, e.path))
  | _, [] => by rw [Chain.setProgress]
  | 0, e :: rest => by rw [Chain.setProgress]; rfl
  | i + 1, e :: rest => by
    rw [Chain.setProgress, List.map_cons, List.map_cons, mutations_setProgress p i rest]

theorem fetchReturn_spec (m : Chain.Machine) (caller : Chain.Caller) (fs : JVal) :
    Chain.mutations (Chain.fetchReturn m caller fs) = Chain.mutations m ∧
    (Chain.fetchReturn m caller fs).fileSystem = fs ∧
    (Chain.fetchReturn m caller fs).waiters = m.waiters ∧
    (Chain.fetchReturn m caller fs).hasCreatedCmdxRef = m.hasCreatedCmdxRef := by
  cases caller with
  | outside => exact ⟨rfl, rfl, rfl, rfl⟩
  | operation i =>
    refine ⟨?_, rfl, rfl, rfl⟩
    simp only [Chain.fetchReturn, Chain.finish, Chain.mutations]
    exact mutations_setProgress _ i m.chain

theorem ensureManifest_present (m : Chain.Machine) (caller : Chain.Caller) (fs : JVal)
    (content : Props)
    (hc : getProp (getProp fs "documents") "content" = JVal.obj content)
    (hm : truthy (getProp (JVal.obj content) Chain.cmdxFileName) = true) :
    Chain.ensureManifest m caller fs =
      Chain.fetchReturn { m with hasCreatedCmdxRef := true } caller fs := by
  simp only [Chain.ensureManifest, hc, hm, Bool.not_true, Bool.false_eq_true, if_false]

theorem ensureCmdxFileExists_present (m : Chain.Machine) (caller : Chain.Caller) (fs : JVal)
    (content : Props)
    (ht : getProp (getProp fs "documents") "type" = JVal.str "folder")
    (hc : getProp (getProp fs "documents") "content" = JVal.obj content)
    (hm : truthy (getProp (JVal.obj content) Chain.cmdxFileName) = true) :
    Chain.mutations (Chain.ensureCmdxFileExists m caller fs) = Chain.mutations m ∧
    (Chain.ensureCmdxFileExists m caller fs).fileSystem = fs ∧
    (Chain.ensureCmdxFileExists m caller fs).waiters = m.waiters := by
  obtain ⟨n, hn⟩ := getProp_type_of_not_obj _ ht
  have hdoc : truthy (getProp fs "documents") = true := by rw [hn]; rfl
  by_cases hg : (!truthy fs || m.hasCreatedCmdxRef) = true
  · have e : Chain.ensureCmdxFileExists m caller fs = Chain.fetchReturn m caller fs := by
      simp only [Chain.ensureCmdxFileExists, hg, if_true]
    rw [e]
    have h := fetchReturn_spec m caller fs
    exact ⟨h.1, h.2.1, h.2.2.1⟩
  · have e : Chain.ensureCmdxFileExists m caller fs =
        Chain.fetchReturn { m with hasCreatedCmdxRef := true } caller fs := by
      simp only [Chain.ensureCmdxFileExists, hg, if_false, hdoc, ht, Bool.not_true,
        ne_eq, not_true_eq_false, decide_False, Bool.or_self, Bool.false_eq_true]
      exact ensureManifest_present m caller fs content hc hm
    rw [e]
    have h := fetchReturn_spec { m with hasCreatedCmdxRef := true } caller fs
    exact ⟨h.1, h.2.1, h.2.2.1⟩

theorem ensureCmdxFileExists_flagged (m : Chain.Machine) (caller : Chain.Caller) (fs : JVal)
    (hf : m.hasCreatedCmdxRef = true) :
    Chain.mutations (Chain.ensureCmdxFileExists m caller fs) = Chain.mutations m ∧
    (Chain.ensureCmdxFileExists m caller fs).waiters = m.waiters := by
  have e : Chain.ensureCmdxFileExists m caller fs = Chain.fetchReturn m caller fs := by
    simp only [Chain.ensureCmdxFileExists, hf, Bool.or_true, if_true]
  rw [e]
  have h := fetchReturn_spec m caller fs
  exact ⟨h.1, h.2.2.1⟩

theorem startable_append_settled :
    ∀ (chain rest : List Chain.Entry) (i : Nat),
      (∀ e ∈ chain, e.progress = Chain.Progress.settled) →
      Chain.startable (chain ++ rest) i = Chain.startable rest (i + chain.length)
  | [], rest, i, _ => by simp
  | e :: chain, rest, i, h => by
    have he : e.progress = Chain.Progress.settled := h e (List.mem_cons_self _ _)
    have ih := startable_append_settled chain rest (i + 1)
      (fun x hx => h x (List.mem_cons_of_mem _ hx))
    rw [List.cons_append, Chain.startable, he]
    simp only [List.length_cons]
    rw [ih]
    congr 1
    omega

theorem setProgress_append_length (p : Chain.Progress) (e : Chain.Entry) (rest : List Chain.Entry) :
    ∀ chain : List Chain.Entry,
      Chain.setProgress p chain.length (chain ++ e :: rest) =
        chain ++ { e with progress := p } :: rest
  | [] => by simp [Chain.setProgress]
  | x :: chain => by
    have ih := setProgress_append_length p e rest chain
    rw [List.length_cons, List.cons_append, Chain.setProgress, ih]
    rfl

theorem isSettled_append_length (e : Chain.Entry) (rest : List Chain.Entry) :
    ∀ chain : List Chain.Entry,
      Chain.isSettled (chain ++ e :: rest) chain.length =
        decide (e.progress = Chain.Progress.settled)
  | [] => by simp [Chain.isSettled]
  | x :: chain => by
    have ih := isSettled_append_length e rest chain
    simp only [Chain.isSettled, List.length_cons, List.cons_append, List.get?_cons_succ] at ih ⊢
    exact ih

theorem step_none_of_quiet (remote : Chain.Remote) (m : Chain.Machine) (h : Chain.Quiet m) :
    Chain.step remote m = none := by
  have hs : Chain.startable m.chain 0 = none := by
    have := startable_append_settled m.chain [] 0 h.1
    rw [List.append_nil] at this
    rw [this]
    rfl
  simp only [Chain.step, h.2, Chain.resumable, hs]

theorem run_of_quiet (remote : Chain.Remote) (m : Chain.Machine) (h : Chain.Quiet m)
    (fuel : Nat) : Chain.run remote fuel m = m :=
  run_of_step_none remote m (step_none_of_quiet remote m h) fuel

theorem run_succ (remote : Chain.Remote) (m next : Chain.Machine) (fuel : Nat)
    (h : Chain.step remote m = some next) :
    Chain.run remote (fuel + 1) m = Chain.run remote fuel next := by
  simp only [Chain.run, h]

theorem write_cycle (remote : Chain.Remote)
    (hrpc : ∀ k error, remote.rpc k = some error → isAuthError error = true)
    (m : Chain.Machine) (hq : Chain.Quiet m) (e : Chain.Entry)
    (he : e.progress = Chain.Progress.queued) (w : Chain.Waiter)
    (hw : w.awaited = m.chain.length) :
    ∃ m2 : Chain.Machine, Chain.Quiet m2 ∧ m2.hasCreatedCmdxRef = m.hasCreatedCmdxRef ∧
      ∀ fuel, Chain.run remote (fuel + 2) { m with chain := m.chain ++ [e], waiters := [w] } =
        Chain.run remote fuel (Chain.resumeWaiter m2 w) := by
  have hnot : Chain.isSettled (m.chain ++ [e]) w.awaited = false := by
    rw [hw, isSettled_append_length, he]
    rfl
  have hstart : Chain.startable (m.chain ++ [e]) 0 = some (m.chain.length, e) := by
    rw [startable_append_settled m.chain [e] 0 hq.1, Chain.startable, he]
    simp
  have hstep1 : Chain.step remote { m with chain := m.chain ++ [e], waiters := [w] } =
      some (Chain.syncOperation remote { m with chain := m.chain ++ [e], waiters := [w] }
        m.chain.length e) := by
    simp only [Chain.step, Chain.resumable, hnot, hstart, Bool.false_eq_true, if_false]
  have hsync : ∃ s : Chain.Machine,
      Chain.syncOperation remote { m with chain := m.chain ++ [e], waiters := [w] }
        m.chain.length e = s ∧
      s.chain = m.chain ++ [{ e with progress := Chain.Progress.settled }] ∧
      s.waiters = [w] ∧ s.hasCreatedCmdxRef = m.hasCreatedCmdxRef := by
    cases hr : remote.rpc m.rpcCalls with
    | none =>
      refine ⟨_, rfl, ?_, ?_, ?_⟩
      · simp only [Chain.syncOperation, hr]
        exact setProgress_append_length _ e [] m.chain
      · simp only [Chain.syncOperation, hr]
      · simp only [Chain.syncOperation, hr]
    | some error =>
      have ha := hrpc _ error hr
      refine ⟨_, rfl, ?_, ?_, ?_⟩
      · simp only [Chain.syncOperation, hr, ha, if_true]
        exact setProgress_append_length _ e [] m.chain
      · simp only [Chain.syncOperation, hr, ha, if_true]
      · simp only [Chain.syncOperation, hr, ha, if_true]
  obtain ⟨s, hs, hchain, hwait, hflag⟩ := hsync
  have hsettled : Chain.isSettled s.chain w.awaited = true := by
    rw [hchain, hw, isSettled_append_length]
    rfl
  have hstep2 : Chain.step remote s = some (Chain.resumeWaiter { s with waiters := [] } w) := by
    simp only [Chain.step, hwait, Chain.resumable, hsettled, if_true]
  refine ⟨{ s with waiters := [] }, ⟨?_, rfl⟩, hflag, ?_⟩
  · intro x hx
    have hx2 : x ∈ m.chain ++ [{ e with progress := Chain.Progress.settled }] := by
      rw [← hchain]; exact hx
    rcases List.mem_append.mp hx2 with h1 | h1
    · exact hq.1 x h1
    · rw [List.mem_singleton.mp h1]
  · intro fuel
    rw [run_succ remote _ _ (fuel + 1) hstep1, hs, run_succ remote _ _ fuel hstep2]

theorem ensureManifest_run (remote : Chain.Remote)
    (hrpc : ∀ k error, remote.rpc k = some error → isAuthError error = true)
    (m : Chain.Machine) (hq : Chain.Quiet m) (fs : JVal) (content : Props)
    (hc : getProp (getProp fs "documents") "content" = JVal.obj content) (fuel : Nat) :
    Chain.Quiet (Chain.run remote (fuel + 2) (Chain.ensureManifest m Chain.Caller.outside fs)) ∧
    (Chain.run remote (fuel + 2)
      (Chain.ensureManifest m Chain.Caller.outside fs)).hasCreatedCmdxRef = true := by
  by_cases hm : truthy (getProp (JVal.obj content) Chain.cmdxFileName) = true
  · rw [ensureManifest_present m _ fs content hc hm]
    have hq2 : Chain.Quiet
        (Chain.fetchReturn { m with hasCreatedCmdxRef := true } Chain.Caller.outside fs) :=
      ⟨hq.1, hq.2⟩
    rw [run_of_quiet remote _ hq2]
    exact ⟨hq2, rfl⟩
  · have hm2 : truthy (getProp (JVal.obj content) Chain.cmdxFileName) = false := by
      simpa using hm
    obtain ⟨m2, hq2, _, hrun⟩ := write_cycle remote hrpc m hq Chain.manifestEntry rfl
      (Chain.outsideWaiter m.chain.length Chain.Resume.afterManifestWrite fs) rfl
    have e : Chain.ensureManifest m Chain.Caller.outside fs =
        { m with
          chain := m.chain ++ [Chain.manifestEntry],
          waiters := [Chain.outsideWaiter m.chain.length Chain.Resume.afterManifestWrite fs] } := by
      simp only [Chain.ensureManifest, hc, hm2, Bool.not_false, if_true, Chain.updateFileSystem,
        hq.2, List.nil_append, parentPath, Chain.manifestEntry, Chain.outsideWaiter]
    rw [e, hrun fuel]
    have hq3 : Chain.Quiet (Chain.resumeWaiter m2
        (Chain.outsideWaiter m.chain.length Chain.Resume.afterManifestWrite fs)) :=
      ⟨hq2.1, hq2.2⟩
    rw [run_of_quiet remote _ hq3]
    exact ⟨hq3, rfl⟩

theorem first_call_run (remote : Chain.Remote)
    (hrpc : ∀ k error, remote.rpc k = some error → isAuthError error = true)
    (m : Chain.Machine) (hq : Chain.Quiet m) (root : Props) (hok : mappingOk root = true) :
    Chain.Quiet (Chain.run remote 4
      (Chain.ensureCmdxFileExists m Chain.Caller.outside (JVal.obj root))) ∧
    (Chain.run remote 4
      (Chain.ensureCmdxFileExists m Chain.Caller.outside (JVal.obj root))).hasCreatedCmdxRef =
        true := by
  by_cases hf : m.hasCreatedCmdxRef = true
  · have e : Chain.ensureCmdxFileExists m Chain.Caller.outside (JVal.obj root) =
        Chain.fetchReturn m Chain.Caller.outside (JVal.obj root) := by
      simp only [Chain.ensureCmdxFileExists, hf, Bool.or_true, if_true]
    have hq2 : Chain.Quiet (Chain.fetchReturn m Chain.Caller.outside (JVal.obj root)) :=
      ⟨hq.1, hq.2⟩
    rw [e, run_of_quiet remote _ hq2]
    exact ⟨hq2, hf⟩
  · have hf2 : m.hasCreatedCmdxRef = false := by simpa using hf
    have htr : truthy (JVal.obj root) = true := rfl
    by_cases ht : getProp (getProp (JVal.obj root) "documents") "type" = JVal.str "folder"
    · obtain ⟨n, hn⟩ := getProp_type_of_not_obj _ ht
      have hdoc : truthy (getProp (JVal.obj root) "documents") = true := by rw [hn]; rfl
      have hl : lookupKey "documents" root = some (getProp (JVal.obj root) "documents") := by
        have hn2 := hn
        rw [getProp_obj] at hn
        cases hl : lookupKey "documents" root with
        | none => rw [hl] at hn; cases hn
        | some v =>
          rw [hl] at hn
          simp only [Option.getD_some] at hn
          rw [hn2, hn]
      obtain ⟨c, hc, _⟩ := folder_content_of_nodeOk _ (nodeOk_of_lookup root _ _ hok hl) ht
      have e : Chain.ensureCmdxFileExists m Chain.Caller.outside (JVal.obj root) =
          Chain.ensureManifest m Chain.Caller.outside (JVal.obj root) := by
        simp only [Chain.ensureCmdxFileExists, htr, hf2, hdoc, ht, Bool.not_true, Bool.or_self,
          ne_eq, not_true_eq_false, decide_False, Bool.false_eq_true, if_false]
      rw [e]
      exact ensureManifest_run remote hrpc m hq (JVal.obj root) c hc 2
    · have hcond : (!truthy (getProp (JVal.obj root) "documents") ||
          decide (getProp (getProp (JVal.obj root) "documents") "type" ≠ JVal.str "folder")) =
          true := by
        simp [ht]
      obtain ⟨m2, hq2, _, hrun⟩ := write_cycle remote hrpc m hq Chain.folderEntry rfl
        (Chain.outsideWaiter m.chain.length Chain.Resume.afterFolderWrite (JVal.obj root)) rfl
      have e : Chain.ensureCmdxFileExists m Chain.Caller.outside (JVal.obj root) =
          { m with
            chain := m.chain ++ [Chain.folderEntry],
            waiters :=
              [Chain.outsideWaiter m.chain.length Chain.Resume.afterFolderWrite
                (JVal.obj root)] } := by
        simp only [Chain.ensureCmdxFileExists, htr, hf2, hcond, Bool.not_true, Bool.or_self,
          Bool.false_eq_true, if_false, if_true, Chain.updateFileSystem, hq.2, List.nil_append,
          parentPath, Chain.folderEntry, Chain.outsideWaiter]
      rw [e, hrun 2]
      have hres : Chain.resumeWaiter m2
          (Chain.outsideWaiter m.chain.length Chain.Resume.afterFolderWrite (JVal.obj root)) =
          Chain.ensureManifest m2 Chain.Caller.outside
            (setProp (JVal.obj root) "documents"
              (JVal.obj [("type", JVal.str "folder"), ("content", JVal.obj [])])) := rfl
      rw [hres]
      refine ensureManifest_run remote hrpc m2 hq2 _ [] ?_ 0
      rw [getProp_setProp_same]
      rfl

theorem ensureCmdxFileExists_unflagged (m : Chain.Machine) (caller : Chain.Caller)
    (root : Props) (hf : m.hasCreatedCmdxRef = false)
    (ht : getProp (getProp (JVal.obj root) "documents") "type" ≠ JVal.str "folder") :
    Chain.mutations (Chain.ensureCmdxFileExists m caller (JVal.obj root)) =
      Chain.mutations m ++
        [(Chain.folderEntry.operationDescription, Chain.folderEntry.options,
          Chain.folderEntry.path)] := by
  have htr : truthy (JVal.obj root) = true := rfl
  have hcond : (!truthy (getProp (JVal.obj root) "documents") ||
      decide (getProp (getProp (JVal.obj root) "documents") "type" ≠ JVal.str "folder")) =
      true := by
    simp [ht]
  simp only [Chain.ensureCmdxFileExists, htr, hf, hcond, Bool.not_true, Bool.or_self,
    Bool.false_eq_true, if_false, if_true, Chain.updateFileSystem, Chain.mutations,
    List.map_append, List.map_cons, List.map_nil, parentPath, Chain.folderEntry]

/-- C22, in the form that holds. The scaffold check is idempotent once it has
run to its end. For a tree whose Folder `documents` holds the manifest key,
`ensureCmdxFileExists` appends no mutation to the chain, suspends nowhere and
hands the tree it was given to `setFileSystem`. When nothing is pending, the
remote store lets every write return, and a first call on a well-formed tree
has run to its end, the hook is at rest again and a second call, by any caller
and on any tree, appends no mutation and suspends nowhere. And while
`hasCreatedCmdxRef` is unset, a call on a tree without a Folder `documents`
appends the folder write, whatever is pending. -/
theorem ensureCmdxFileExists_idempotent (remote : Chain.Remote)
    (hrpc : ∀ k error, remote.rpc k = some error → isAuthError error = true) :
    (∀ (m : Chain.Machine) (caller : Chain.Caller) (fs : JVal) (content : Props),
      getProp (getProp fs "documents") "type" = JVal.str "folder" →
      getProp (getProp fs "documents") "content" = JVal.obj content →
      truthy (getProp (JVal.obj content) Chain.cmdxFileName) = true →
      Chain.mutations (Chain.ensureCmdxFileExists m caller fs) = Chain.mutations m ∧
      (Chain.ensureCmdxFileExists m caller fs).fileSystem = fs ∧
      (Chain.ensureCmdxFileExists m caller fs).waiters = m.waiters) ∧
    (∀ (m : Chain.Machine) (root : Props), Chain.Quiet m → mappingOk root = true →
      Chain.Quiet (Chain.run remote 4
        (Chain.ensureCmdxFileExists m Chain.Caller.outside (JVal.obj root))) ∧
      ∀ (caller : Chain.Caller) (fs2 : JVal),
        Chain.mutations (Chain.ensureCmdxFileExists
          (Chain.run remote 4
            (Chain.ensureCmdxFileExists m Chain.Caller.outside (JVal.obj root))) caller fs2) =
          Chain.mutations (Chain.run remote 4
            (Chain.ensureCmdxFileExists m Chain.Caller.outside (JVal.obj root))) ∧
        (Chain.ensureCmdxFileExists
          (Chain.run remote 4
            (Chain.ensureCmdxFileExists m Chain.Caller.outside (JVal.obj root))) caller
          fs2).waiters = []) ∧
    (∀ (m : Chain.Machine) (caller : Chain.Caller) (root : Props),
      m.hasCreatedCmdxRef = false →
      getProp (getProp (JVal.obj root) "documents") "type" ≠ JVal.str "folder" →
      Chain.mutations (Chain.ensureCmdxFileExists m caller (JVal.obj root)) =
        Chain.mutations m ++
          [(Chain.folderEntry.operationDescription, Chain.folderEntry.options,
            Chain.folderEntry.path)]) := by
  refine ⟨?_, ?_, ?_⟩
  · intro m caller fs content ht hc hm
    exact ensureCmdxFileExists_present m caller fs content ht hc hm
  · intro m root hq hok
    obtain ⟨hq2, hflag⟩ := first_call_run remote hrpc m hq root hok
    refine ⟨hq2, ?_⟩
    intro caller fs2
    have h := ensureCmdxFileExists_flagged _ caller fs2 hflag
    exact ⟨h.1, by rw [h.2]; exact hq2.2⟩
  · intro m caller root hf ht
    exact ensureCmdxFileExists_unflagged m caller root hf ht

theorem ensureCmdxFileExists_idempotent_witness :
    Chain.Quiet Chain.initial ∧ mappingOk [] = true ∧
    Chain.mutations (Chain.ensureCmdxFileExists
        (Chain.run Chain.healthyRemote 4
          (Chain.ensureCmdxFileExists Chain.initial Chain.Caller.outside (JVal.obj [])))
        Chain.Caller.outside (JVal.obj [])) =
      Chain.mutations (Chain.run Chain.healthyRemote 4
        (Chain.ensureCmdxFileExists Chain.initial Chain.Caller.outside (JVal.obj []))) :=
  have hq : Chain.Quiet Chain.initial := ⟨(by intro e he; cases he), rfl⟩
  ⟨hq, by decide,
    (((ensureCmdxFileExists_idempotent Chain.healthyRemote
      (by intro k error h; cases h)).2.1 Chain.initial [] hq (by decide)).2
        Chain.Caller.outside (JVal.obj [])).1⟩

/-- C22, counterexample. When every remote call succeeds and a second fetch
starts while the first call of `ensureCmdxFileExists` still awaits its folder
write, the flag is unset and the second call appends the folder write again; run
to the end, the chain has issued each scaffold write twice. And after a first
write that timed out, the refetch of the failed operation appends the folder
write a second time. -/
theorem overlapping_ensure_repeats_writes :
    (Chain.bootstrap Chain.healthyRemote).hasCreatedCmdxRef = false ∧
    (Chain.mutations (Chain.bootstrap Chain.healthyRemote)).map (fun e => e.1) =
      ["Creating documents directory."] ∧
    (Chain.mutations (Chain.fetchFileSystemFromDB Chain.healthyRemote
        (Chain.bootstrap Chain.healthyRemote) Chain.Caller.outside)).map (fun e => e.1) =
      ["Creating documents directory.", "Creating documents directory."] ∧
    (Chain.mutations (Chain.run Chain.healthyRemote 20
        (Chain.fetchFileSystemFromDB Chain.healthyRemote
          (Chain.bootstrap Chain.healthyRemote) Chain.Caller.outside))).map (fun e => e.1) =
      ["Creating documents directory.", "Creating documents directory.",
        "Initializing command manifest.", "Initializing command manifest."] ∧
    (Chain.mutations (Chain.run Chain.timeoutRemote 10
        (Chain.bootstrap Chain.timeoutRemote))).map (fun e => e.1) =
      ["Creating documents directory.", "Creating documents directory."] := by
  decide

/-! ## Create conflicts: the comparison of encoded keys -/

theorem upserts_report (error : RemoteError) (description : String) :
    upserts
      [if jsIncludes error.message "statement timeout" = true then
          Effect.addCommandOutput "error" "Sync State"
            "Negotiating with server; Please Stand-by..."
        else
          Effect.addCommandOutput "error" "Sync Error"
            ("Failed to save changes: " ++ error.message),
        Effect.logToMessageCenter
          ("Sync failed for operation: '" ++ description ++ "'. Reason: " ++ error.message) true,
        Effect.fetchFileSystemFromDB false] = [] := by
  split <;> rfl

theorem upserts_syncOperation (st : HookState) (userId description : String)
    (options : Options) (now : Int) (rpcError : Option RemoteError) (st2 : HookState)
    (effects : List Effect)
    (h : syncOperation st userId description options now rpcError = some (st2, effects)) :
    upserts effects =
      [upsertArgs userId (parentPath st.currentPath options.path) options now] := by
  cases rpcError with
  | some error =>
    by_cases ha : isAuthError error = true
    · simp only [syncOperation, handleAuthError, ha, if_true, Option.some.injEq,
        Prod.mk.injEq] at h
      rw [← h.2]
      simp only [upserts_append, upserts_announce]
      rfl
    · simp only [syncOperation, handleAuthError, ha, if_false, Option.some.injEq,
        Prod.mk.injEq, Bool.false_eq_true] at h
      rw [← h.2]
      simp only [upserts_append, upserts_announce, upserts_report]
      rfl
  | none =>
    simp only [syncOperation] at h
    split at h
    · cases h
    · simp only [Option.some.injEq, Prod.mk.injEq] at h
      rw [← h.2]
      simp only [upserts_append, upserts_announce]
      cases options.silent <;> rfl

theorem updateFileSystem_ne_message (st st2 : HookState) (description : String)
    (options : Options) (now : Int) (rpcError : Option RemoteError)
    (type title message : String) :
    updateFileSystem st description options now rpcError ≠
      some (st2, [Effect.addCommandOutput type title message]) := by
  intro h
  unfold updateFileSystem at h
  cases hu : st.user with
  | none =>
    rw [hu] at h
    simp only [Option.some.injEq, Prod.mk.injEq] at h
    cases h.2
  | some userId =>
    rw [hu] at h
    have := upserts_syncOperation st userId description options now rpcError st2 _ h
    cases this

theorem mkdir_of_absent (st : HookState) (dirName encoded : String) (now : Int)
    (rpcError : Option RemoteError) (dir : Props)
    (hd : getCurrentDirectory st.fileSystem st.currentPath = some (JVal.obj dir))
    (he : b64EncodeUnicode dirName = some encoded)
    (ha : truthy (getProp (JVal.obj dir) encoded) = false) :
    mkdir st dirName now rpcError =
      updateFileSystem st ("Creating directory '" ++ dirName ++ "'.")
        { path := some (contentPath st.currentPath), key := some encoded,
          value := JVal.obj [("type", JVal.str "folder"), ("content", JVal.obj [])],
          delete := false, append := false, silent := false } now rpcError := by
  have hne : JVal.obj dir ≠ JVal.null := by intro e; cases e
  have ht : truthy (JVal.obj dir) = true := rfl
  simp only [mkdir, he, hd, ha, ht, if_neg hne, Bool.not_false, Bool.and_self, if_true]

theorem touch_of_absent (st : HookState) (fileName encoded : String) (now : Int)
    (rpcError : Option RemoteError) (dir : Props)
    (hd : getCurrentDirectory st.fileSystem st.currentPath = some (JVal.obj dir))
    (he : b64EncodeUnicode fileName = some encoded)
    (ha : truthy (getProp (JVal.obj dir) encoded) = false) :
    touch st fileName now rpcError =
      updateFileSystem st ("Creating file '" ++ fileName ++ "'.")
        { path := some (contentPath st.currentPath), key := some encoded,
          value := JVal.obj [("type", JVal.str "file"), ("content", JVal.str "")],
          delete := false, append := false, silent := false } now rpcError := by
  have ht : truthy (JVal.obj dir) = true := rfl
  simp only [touch, he, hd, ha, ht, Bool.not_false, Bool.and_self, if_true]

theorem handleCreate_of_absent (st : HookState) (newFileName isCreating encoded : String)
    (now : Int) (rpcError : Option RemoteError) (dir : Props)
    (hd : getCurrentDirectory st.fileSystem st.currentPath = some (JVal.obj dir))
    (hne : jsTrim newFileName ≠ "")
    (he : b64EncodeUnicode (jsTrim newFileName) = some encoded)
    (ha : truthy (getProp (JVal.obj dir) encoded) = false) :
    handleCreate st newFileName isCreating now rpcError =
      updateFileSystem st ("Created " ++ isCreating ++ " '" ++ jsTrim newFileName ++ "'")
        { path := some (contentPath st.currentPath), key := some encoded,
          value :=
            if isCreating = "file" then
              JVal.obj [("type", JVal.str "file"), ("content", JVal.str "")]
            else JVal.obj [("type", JVal.str "folder"), ("content", JVal.obj [])],
          delete := false, append := false, silent := false } now rpcError := by
  simp only [handleCreate, if_neg hne, codex_b64EncodeUnicode_eq, he, hd, ha, Bool.and_false,
    Bool.false_eq_true, if_false]

/-- C14, in the form that holds. The name-existence checks compare encoded keys.
When the cursor resolves to the mapping `dir` and `enc` is the encoded key of
the name `n`: each of `mkdir`, `touch` and `handleCreate` (for a name that is
not blank) answers `already exists` exactly when `dir[enc]` holds a node (a
truthy value), and otherwise is the call of `updateFileSystem` for the key
`enc`. So in a directory whose keys are all canonical the name is rejected
whenever some key decodes to it; and when a key decodes to `n` while `enc` is
not a key of `dir`, the create is not rejected. -/
theorem create_rejected_iff_encoded_key (st : HookState) (n enc : String) (now : Int)
    (rpcError : Option RemoteError) (dir : Props)
    (hd : getCurrentDirectory st.fileSystem st.currentPath = some (JVal.obj dir))
    (he : b64EncodeUnicode n = some enc) :
    (mkdir st n now rpcError =
        some (st, [Effect.addCommandOutput "error" "mkdir Error"
          ("'" ++ n ++ "' already exists.")]) ↔
      truthy (getProp (JVal.obj dir) enc) = true) ∧
    (touch st n now rpcError =
        some (st, [Effect.addCommandOutput "error" "touch Error"
          ("'" ++ n ++ "' already exists.")]) ↔
      truthy (getProp (JVal.obj dir) enc) = true) ∧
    (∀ newFileName isCreating, jsTrim newFileName = n → n ≠ "" →
      (handleCreate st newFileName isCreating now rpcError =
          some (st, [Effect.addCommandOutput "error" "Codex Error"
            ("'" ++ n ++ "' already exists.")]) ↔
        truthy (getProp (JVal.obj dir) enc) = true)) ∧
    (truthy (getProp (JVal.obj dir) enc) = false →
      mkdir st n now rpcError =
        updateFileSystem st ("Creating directory '" ++ n ++ "'.")
          { path := some (contentPath st.currentPath), key := some enc,
            value := JVal.obj [("type", JVal.str "folder"), ("content", JVal.obj [])],
            delete := false, append := false, silent := false } now rpcError ∧
      touch st n now rpcError =
        updateFileSystem st ("Creating file '" ++ n ++ "'.")
          { path := some (contentPath st.currentPath), key := some enc,
            value := JVal.obj [("type", JVal.str "file"), ("content", JVal.str "")],
            delete := false, append := false, silent := false } now rpcError ∧
      ∀ newFileName isCreating, jsTrim newFileName = n → n ≠ "" →
        handleCreate st newFileName isCreating now rpcError =
          updateFileSystem st ("Created " ++ isCreating ++ " '" ++ n ++ "'")
            { path := some (contentPath st.currentPath), key := some enc,
              value :=
                if isCreating = "file" then
                  JVal.obj [("type", JVal.str "file"), ("content", JVal.str "")]
                else JVal.obj [("type", JVal.str "folder"), ("content", JVal.obj [])],
              delete := false, append := false, silent := false } now rpcError) ∧
    (CanonicalKeys dir → ∀ k node, lookupKey k dir = some node → b64DecodeUnicode k = n →
      truthy (getProp (JVal.obj dir) enc) = true) ∧
    (∀ k node, lookupKey k dir = some node → b64DecodeUnicode k = n →
      lookupKey enc dir = none →
      mkdir st n now rpcError ≠
        some (st, [Effect.addCommandOutput "error" "mkdir Error"
          ("'" ++ n ++ "' already exists.")]) ∧
      touch st n now rpcError ≠
        some (st, [Effect.addCommandOutput "error" "touch Error"
          ("'" ++ n ++ "' already exists.")]) ∧
      ∀ newFileName isCreating, jsTrim newFileName = n → n ≠ "" →
        handleCreate st newFileName isCreating now rpcError ≠
          some (st, [Effect.addCommandOutput "error" "Codex Error"
            ("'" ++ n ++ "' already exists.")])) := by
  have hex : truthy (getProp (JVal.obj dir) enc) = true →
      lookupKey enc dir = some (getProp (JVal.obj dir) enc) :=
    getProp_eq_of_truthy dir enc
  have hfalse : ∀ b : Bool, ¬ b = true → b = false := by intro b; cases b <;> simp
  have hmk : mkdir st n now rpcError =
        some (st, [Effect.addCommandOutput "error" "mkdir Error"
          ("'" ++ n ++ "' already exists.")]) ↔
      truthy (getProp (JVal.obj dir) enc) = true := by
    constructor
    · intro h
      by_contra hc
      rw [mkdir_of_absent st n enc now rpcError dir hd he (hfalse _ hc)] at h
      exact updateFileSystem_ne_message _ _ _ _ _ _ _ _ _ h
    · intro h
      exact mkdir_of_existing st n enc now rpcError dir _ hd he (hex h) h
  have hto : touch st n now rpcError =
        some (st, [Effect.addCommandOutput "error" "touch Error"
          ("'" ++ n ++ "' already exists.")]) ↔
      truthy (getProp (JVal.obj dir) enc) = true := by
    constructor
    · intro h
      by_contra hc
      rw [touch_of_absent st n enc now rpcError dir hd he (hfalse _ hc)] at h
      exact updateFileSystem_ne_message _ _ _ _ _ _ _ _ _ h
    · intro h
      exact touch_of_existing st n enc now rpcError dir _ hd he (hex h) h
  have hcr : ∀ newFileName isCreating, jsTrim newFileName = n → n ≠ "" →
      (handleCreate st newFileName isCreating now rpcError =
          some (st, [Effect.addCommandOutput "error" "Codex Error"
            ("'" ++ n ++ "' already exists.")]) ↔
        truthy (getProp (JVal.obj dir) enc) = true) := by
    intro newFileName isCreating ht hne
    subst ht
    constructor
    · intro h
      by_contra hc
      rw [handleCreate_of_absent st newFileName isCreating enc now rpcError dir hd hne he
        (hfalse _ hc)] at h
      exact updateFileSystem_ne_message _ _ _ _ _ _ _ _ _ h
    · intro h
      exact handleCreate_of_existing st newFileName isCreating enc now rpcError dir _ hd hne he
        (hex h) h
  refine ⟨hmk, hto, hcr, ?_, ?_, ?_⟩
  · intro ha
    refine ⟨mkdir_of_absent st n enc now rpcError dir hd he ha,
      touch_of_absent st n enc now rpcError dir hd he ha, ?_⟩
    intro newFileName isCreating ht hne
    subst ht
    exact handleCreate_of_absent st newFileName isCreating enc now rpcError dir hd hne he ha
  · intro hc k node hl hk
    obtain ⟨hcanon, hn⟩ := hc k node hl
    rw [hk, he] at hcanon
    cases hcanon
    rw [getProp_obj, hl]
    exact hn
  · intro k node _ _ hnone
    have ha : truthy (getProp (JVal.obj dir) enc) = false := by
      rw [getProp_obj, hnone]
      rfl
    have hnt : ¬ truthy (getProp (JVal.obj dir) enc) = true := by rw [ha]; simp
    refine ⟨fun h => hnt (hmk.mp h), fun h => hnt (hto.mp h), ?_⟩
    intro newFileName isCreating ht hne h
    exact hnt ((hcr newFileName isCreating ht hne).mp h)

theorem create_rejected_iff_encoded_key_witness :
    (mkdir sampleState "tmp" 2000 none =
        some (sampleState, [Effect.addCommandOutput "error" "mkdir Error"
          ("'" ++ "tmp" ++ "' already exists.")]) ↔
      truthy (getProp (JVal.obj sampleRoot) "dG1w") = true) ∧
    (touch scaffoldState "documents" 2000 none ≠
      some (scaffoldState, [Effect.addCommandOutput "error" "touch Error"
        ("'" ++ "documents" ++ "' already exists.")])) ∧
    CanonicalKeys sampleRoot ∧ truthy (getProp (JVal.obj sampleRoot) "dG1w") = true :=
  ⟨(create_rejected_iff_encoded_key sampleState "tmp" "dG1w" 2000 none sampleRoot
      (by decide) (by decide)).1,
    ((create_rejected_iff_encoded_key scaffoldState "documents" "ZG9jdW1lbnRz" 2000 none
      scaffoldRoot (by decide) (by decide)).2.2.2.2.2 "documents"
      (folderNode [("Y21keC50eHQ=", fileNode "manifest")]) (by decide) (by decide)
      (by decide)).2.1,
    canonicalKeys_of_all sampleRoot (by decide),
    (create_rejected_iff_encoded_key sampleState "tmp" "dG1w" 2000 none sampleRoot
      (by decide) (by decide)).2.2.2.2.1 (canonicalKeys_of_all sampleRoot (by decide)) "dG1w"
      (folderNode []) (by decide) (by decide)⟩

/-! ## The storage key of each operation -/

theorem storageCalls_append (a b : List DeskEvent) :
    storageCalls (a ++ b) = storageCalls a ++ storageCalls b := by
  induction a with
  | nil => rfl
  | cons e a ih => cases e <;> simp [storageCalls, ih]

theorem storageCalls_hooks (effects : List Effect) :
    storageCalls (effects.map DeskEvent.hook) = [] := by
  induction effects with
  | nil => rfl
  | cons e rest ih => simp only [List.map_cons, storageCalls, ih]

theorem storageCalls_andThen_hookEvents (start : List DeskEvent)
    (r : Option (HookState × List Effect)) (st2 : HookState) (events : List DeskEvent)
    (h : andThen start (hookEvents r) = some (st2, events)) :
    storageCalls events = storageCalls start := by
  cases r with
  | none => simp [hookEvents, andThen] at h
  | some p =>
    obtain ⟨s, effects⟩ := p
    simp only [hookEvents, andThen, Option.some.injEq, Prod.mk.injEq] at h
    rw [← h.2, storageCalls_append, storageCalls_hooks, List.append_nil]

theorem storageCalls_hookEvents (r : Option (HookState × List Effect)) (st2 : HookState)
    (events : List DeskEvent) (h : hookEvents r = some (st2, events)) :
    storageCalls events = [] := by
  cases r with
  | none => simp [hookEvents] at h
  | some p =>
    obtain ⟨s, effects⟩ := p
    simp only [hookEvents, Option.some.injEq, Prod.mk.injEq] at h
    rw [← h.2, storageCalls_hooks]

theorem storageCalls_catShow (fileName : String) (file : JVal) (data : Option String)
    (contentPreview : String) (events : List DeskEvent)
    (h : catShow fileName file data contentPreview = some events) : storageCalls events = [] := by
  unfold catShow at h
  split at h
  · cases h; rfl
  · split at h
    · split at h
      · split at h <;> (cases h; rfl)
      · cases h
    · cases h; rfl

theorem storageCalls_map_catShow (download : List DeskEvent) (fileName : String) (file : JVal)
    (data : Option String) (contentPreview : String) (events : List DeskEvent)
    (h : (catShow fileName file data contentPreview).map (fun ev => download ++ ev) =
      some events) :
    storageCalls events = storageCalls download := by
  cases hc : catShow fileName file data contentPreview with
  | none => rw [hc] at h; cases h
  | some ev =>
    rw [hc] at h
    simp only [Option.map_some', Option.some.injEq] at h
    rw [← h, storageCalls_append, storageCalls_catShow _ _ _ _ _ hc, List.append_nil]

theorem constructedKey_ne_empty (userId folderPath fileName : String) :
    constructedKey userId folderPath fileName ≠ "" := by
  intro h
  unfold constructedKey at h
  have h1 := string_append_eq_empty _ _ h
  have h2 := string_append_eq_empty _ _ h1
  have h3 : (userId ++ "/").data = [] := by rw [h2]
  rw [String.data_append] at h3
  have h4 := (List.append_eq_nil.mp h3).2
  cases h4

theorem effectiveStorageKey_of_absent (userId : String) (storagePath : JVal)
    (path : List String) (fileName : String) (hsp : truthy storagePath = false) :
    effectiveStorageKey (some userId) storagePath path fileName =
      some (JVal.str (constructedKey userId (jsJoin "/" (path.map b64DecodeUnicode))
        fileName)) := by
  simp only [effectiveStorageKey, hsp, Bool.false_eq_true, if_false]

theorem truthy_constructedKey (userId folderPath fileName : String) :
    truthy (JVal.str (constructedKey userId folderPath fileName)) = true := by
  simp only [truthy, decide_eq_true_eq]
  exact constructedKey_ne_empty userId folderPath fileName

theorem constructedKey_eq_join_of_path (userId n : String) (segs : List String)
    (h : segs = [] ∨ jsJoin "/" segs ≠ "") :
    constructedKey userId (jsJoin "/" segs) n = jsJoin "/" ([userId] ++ segs ++ [n]) := by
  cases segs with
  | nil =>
    simp only [constructedKey, jsJoin, if_true, List.append_nil, List.singleton_append,
      String.append_empty]
  | cons a rest =>
    have hne : jsJoin "/" (a :: rest) ≠ "" := by
      rcases h with h | h
      · cases h
      · exact h
    have e : [userId] ++ a :: rest ++ [n] = userId :: (a :: rest ++ [n]) := rfl
    have e2 : jsJoin "/" (userId :: (a :: rest ++ [n])) =
        userId ++ "/" ++ jsJoin "/" (a :: rest ++ [n]) := rfl
    rw [constructedKey, if_neg hne, e, e2, jsJoin_append_singleton]
    simp only [String.append_assoc]

theorem handleFileUpload_storageCalls (st : HookState) (userId : String)
    (hu : st.user = some userId) (file : UploadFile) (uploadError : Option RemoteError)
    (now : Int) (rpcError : Option RemoteError) (dir : JVal) (enc : String) (st2 : HookState)
    (events : List DeskEvent)
    (hd : getCurrentDirectory st.fileSystem st.currentPath = some dir)
    (he : b64EncodeUnicode file.name = some enc)
    (hfree : (truthy dir && truthy (getProp dir enc)) = false)
    (h : handleFileUpload st file uploadError now rpcError = some (st2, events)) :
    storageCalls events =
      [StorageCall.upload
        (constructedKey userId (jsJoin "/" (st.currentPath.map b64DecodeUnicode)) file.name)
        false] := by
  simp only [handleFileUpload, hu, codex_b64EncodeUnicode_eq, he, hd, hfree, Bool.false_eq_true,
    if_false] at h
  cases uploadError with
  | some error =>
    simp only [Option.some.injEq, Prod.mk.injEq] at h
    rw [← h.2]
    rfl
  | none =>
    simp only at h
    rw [storageCalls_andThen_hookEvents _ _ _ _ h]
    rfl

theorem removeFile_storageCalls (st : HookState) (userId : String)
    (hu : st.user = some userId) (fileName : String) (storageError : Option RemoteError)
    (now : Int) (rpcError : Option RemoteError) (dir : JVal) (enc : String) (st2 : HookState)
    (events : List DeskEvent)
    (hfs : truthy st.fileSystem = true)
    (hd : getCurrentDirectory st.fileSystem st.currentPath = some dir)
    (he : b64EncodeUnicode fileName = some enc) (hdir : truthy dir = true)
    (ht : getProp (getProp dir enc) "type" = JVal.str "file")
    (hsp : truthy (getProp (getProp dir enc) "storagePath") = false)
    (h : removeFile st fileName storageError now rpcError = some (st2, events)) :
    storageCalls events =
      [StorageCall.remove
        [constructedKey userId (jsJoin "/" (st.currentPath.map b64DecodeUnicode)) fileName]] := by
  obtain ⟨n, hn⟩ := isObj_of_getProp_ne_undef (getProp dir enc) "type"
    (by rw [ht]; intro e; cases e)
  have hnode : truthy (getProp dir enc) = true := by rw [hn]; rfl
  simp only [removeFile, hfs, if_true, hd, he, hdir, hnode, ht, decide_True, Bool.and_self, hu,
    effectiveStorageKey_of_absent userId _ _ _ hsp, truthy_constructedKey, hsp,
    Bool.false_and, Bool.false_eq_true, if_false] at h
  cases storageError with
  | none =>
    simp only at h
    rw [storageCalls_andThen_hookEvents _ _ _ _ h]
    rfl
  | some error =>
    simp only [List.append_nil] at h
    split at h
    · simp only [Option.some.injEq, Prod.mk.injEq] at h
      rw [← h.2, storageCalls_append, storageCalls_hooks]
      rfl
    · rw [storageCalls_andThen_hookEvents _ _ _ _ h]
      rfl

theorem catFile_storageCalls (st : HookState) (userId : String)
    (hu : st.user = some userId) (fileName : String) (first retry : DownloadAnswer)
    (r : FindResult) (events : List DeskEvent)
    (hfs : truthy st.fileSystem = true)
    (hf : findPath st.fileSystem fileName = Search.found r)
    (ht : getProp (getProp r.parent r.encodedName) "type" = JVal.str "file")
    (hsp : truthy (getProp (getProp r.parent r.encodedName) "storagePath") = false)
    (h : catFile st fileName first retry = some events) :
    storageCalls events =
      [StorageCall.download
        (constructedKey userId (jsJoin "/" (r.path.map b64DecodeUnicode)) fileName)] := by
  simp only [catFile, hfs, if_true, hf, ht, hu, effectiveStorageKey_of_absent userId _ _ _ hsp,
    truthy_constructedKey, hsp, Bool.false_and, Bool.false_eq_true, if_false] at h
  cases hfe : first.error with
  | none =>
    rw [hfe] at h
    simp only at h
    rw [storageCalls_map_catShow _ _ _ _ _ _ h]
    rfl
  | some error =>
    rw [hfe] at h
    simp only at h
    split at h
    · simp only [Option.some.injEq] at h
      rw [← h, storageCalls_append, storageCalls_hooks]
      rfl
    · rw [storageCalls_map_catShow _ _ _ _ _ _ h]
      rfl

theorem handleSave_storageCalls (st : HookState) (userId : String)
    (hu : st.user = some userId) (editingFile : EditingFile) (q : List String)
    (content : String) (uploadError : Option RemoteError) (now : Int)
    (rpcError : Option RemoteError) (st2 : HookState) (events : List DeskEvent)
    (hp : editingFile.path = some q) (hsp : truthy editingFile.storagePath = false)
    (h : handleSave st editingFile content uploadError now rpcError = some (st2, events)) :
    storageCalls events =
      [StorageCall.upload
        (constructedKey userId (jsJoin "/" (q.map b64DecodeUnicode)) editingFile.name) true] := by
  simp only [handleSave, hp, hu, effectiveStorageKey_of_absent userId _ _ _ hsp,
    truthy_constructedKey, if_true, hsp, Bool.not_false] at h
  cases uploadError with
  | some error =>
    simp only [Option.some.injEq, Prod.mk.injEq] at h
    rw [← h.2]
    rfl
  | none =>
    simp only at h
    rw [storageCalls_andThen_hookEvents _ _ _ _ h]
    rfl

/-- C19, counterexample. With the cursor in `tmp`, `catFile('a.txt')` finds the
file in `docs` and downloads `u1/docs/a.txt`, where the join over the current
path gives `u1/tmp/a.txt`. And after `mkdir ""` and `cd ""` the cursor is the
path with the one empty segment, the upload of `a.png` uses the key `u1/a.png`,
and the join over that path gives `u1//a.png`. -/
theorem storage_key_departs_from_cursor_formula :
    (catFile sampleStateInTmp "a.txt" { data := some "hi", error := none }
        { data := none, error := none }).map storageCalls =
      some [StorageCall.download "u1/docs/a.txt"] ∧
    jsJoin "/" (["u1"] ++ sampleStateInTmp.currentPath.map b64DecodeUnicode ++ ["a.txt"]) =
      "u1/tmp/a.txt" ∧
    ((mkdir sampleState "" 2000 none).bind (fun r => cd r.1 [""])).map
        (fun r => r.1.currentPath) = some [""] ∧
    ((mkdir sampleState "" 2000 none).bind (fun r => (cd r.1 [""]).bind (fun r2 =>
        handleFileUpload r2.1 samplePicture none 2001 none))).map (fun r => storageCalls r.2) =
      some [StorageCall.upload "u1/a.png" false] ∧
    jsJoin "/" (["u1"] ++ [""].map b64DecodeUnicode ++ ["a.png"]) = "u1//a.png" := by
  decide

/-- C19, in the form that holds. For a signed-in identity and a file that
records no storage path, every operation hands the blob store the key
`userId/` followed by the joined decoded folder path and `/` when that join is
not empty, followed by the file name: `handleFileUpload` and `removeFile` for
the path cursor, `catFile` for the path at which `findPath` found the file, and
`handleSave` for the path recorded in the open file. That key is the join with
`/` of `[userId] ++ map b64DecodeUnicode q ++ [n]` when the path `q` is empty or
its joined decoded form is not empty, and it is `userId/n` when the joined form
is empty. -/
theorem storage_key_of_operations (st : HookState) (userId : String)
    (hu : st.user = some userId) :
    (∀ (file : UploadFile) (uploadError : Option RemoteError) (now : Int)
        (rpcError : Option RemoteError) (dir : JVal) (enc : String) (st2 : HookState)
        (events : List DeskEvent),
      getCurrentDirectory st.fileSystem st.currentPath = some dir →
      b64EncodeUnicode file.name = some enc →
      (truthy dir && truthy (getProp dir enc)) = false →
      handleFileUpload st file uploadError now rpcError = some (st2, events) →
      storageCalls events =
        [StorageCall.upload
          (constructedKey userId (jsJoin "/" (st.currentPath.map b64DecodeUnicode)) file.name)
          false]) ∧
    (∀ (fileName : String) (storageError : Option RemoteError) (now : Int)
        (rpcError : Option RemoteError) (dir : JVal) (enc : String) (st2 : HookState)
        (events : List DeskEvent),
      truthy st.fileSystem = true →
      getCurrentDirectory st.fileSystem st.currentPath = some dir →
      b64EncodeUnicode fileName = some enc → truthy dir = true →
      getProp (getProp dir enc) "type" = JVal.str "file" →
      truthy (getProp (getProp dir enc) "storagePath") = false →
      removeFile st fileName storageError now rpcError = some (st2, events) →
      storageCalls events =
        [StorageCall.remove
          [constructedKey userId (jsJoin "/" (st.currentPath.map b64DecodeUnicode))
            fileName]]) ∧
    (∀ (fileName : String) (first retry : DownloadAnswer) (r : FindResult)
        (events : List DeskEvent),
      truthy st.fileSystem = true →
      findPath st.fileSystem fileName = Search.found r →
      getProp (getProp r.parent r.encodedName) "type" = JVal.str "file" →
      truthy (getProp (getProp r.parent r.encodedName) "storagePath") = false →
      catFile st fileName first retry = some events →
      storageCalls events =
        [StorageCall.download
          (constructedKey userId (jsJoin "/" (r.path.map b64DecodeUnicode)) fileName)]) ∧
    (∀ (editingFile : EditingFile) (q : List String) (content : String)
        (uploadError : Option RemoteError) (now : Int) (rpcError : Option RemoteError)
        (st2 : HookState) (events : List DeskEvent),
      editingFile.path = some q → truthy editingFile.storagePath = false →
      handleSave st editingFile content uploadError now rpcError = some (st2, events) →
      storageCalls events =
        [StorageCall.upload
          (constructedKey userId (jsJoin "/" (q.map b64DecodeUnicode)) editingFile.name)
          true]) ∧
    (∀ (q : List String) (n : String),
      (q = [] ∨ jsJoin "/" (q.map b64DecodeUnicode) ≠ "") →
      constructedKey userId (jsJoin "/" (q.map b64DecodeUnicode)) n =
        jsJoin "/" ([userId] ++ q.map b64DecodeUnicode ++ [n])) ∧
    (∀ (q : List String) (n : String), jsJoin "/" (q.map b64DecodeUnicode) = "" →
      constructedKey userId (jsJoin "/" (q.map b64DecodeUnicode)) n = userId ++ "/" ++ n) := by
  refine ⟨?_, ?_, ?_, ?_, ?_, ?_⟩
  · intro file uploadError now rpcError dir enc st2 events hd he hfree h
    exact handleFileUpload_storageCalls st userId hu file uploadError now rpcError dir enc st2
      events hd he hfree h
  · intro fileName storageError now rpcError dir enc st2 events hfs hd he hdir ht hsp h
    exact removeFile_storageCalls st userId hu fileName storageError now rpcError dir enc st2
      events hfs hd he hdir ht hsp h
  · intro fileName first retry r events hfs hf ht hsp h
    exact catFile_storageCalls st userId hu fileName first retry r events hfs hf ht hsp h
  · intro editingFile q content uploadError now rpcError st2 events hp hsp h
    exact handleSave_storageCalls st userId hu editingFile q content uploadError now rpcError
      st2 events hp hsp h
  · intro q n h
    rcases h with h | h
    · subst h
      exact constructedKey_eq_join_of_path userId n _ (Or.inl rfl)
    · exact constructedKey_eq_join_of_path userId n _ (Or.inr h)
  · intro q n h
    rw [constructedKey, if_pos h, String.append_empty]

theorem storage_key_of_operations_witness :
    (handleFileUpload sampleStateInDocs samplePicture none 2000 none).map
        (fun r => storageCalls r.2) =
      some [StorageCall.upload "u1/docs/a.png" false] ∧
    (removeFile sampleStateInDocs "a.txt" none 2000 none).map (fun r => storageCalls r.2) =
      some [StorageCall.remove ["u1/docs/a.txt"]] ∧
    (catFile sampleStateInTmp "a.txt" { data := some "hi", error := none }
        { data := none, error := none }).map storageCalls =
      some [StorageCall.download "u1/docs/a.txt"] ∧
    (handleSave sampleState sampleEditingFile "hello" none 2000 none).map
        (fun r => storageCalls r.2) =
      some [StorageCall.upload "u1/docs/a.txt" true] ∧
    constructedKey "u1" (jsJoin "/" (["ZG9jcw=="].map b64DecodeUnicode)) "a.txt" =
      jsJoin "/" (["u1"] ++ ["ZG9jcw=="].map b64DecodeUnicode ++ ["a.txt"]) := by
  have h1 := storage_key_of_operations sampleStateInDocs "u1" rfl
  have h2 := storage_key_of_operations sampleStateInTmp "u1" rfl
  have h3 := storage_key_of_operations sampleState "u1" rfl
  refine ⟨?_, ?_, ?_, ?_, h3.2.2.2.2.1 ["ZG9jcw=="] "a.txt" (Or.inr (by decide))⟩
  · cases hr : handleFileUpload sampleStateInDocs samplePicture none 2000 none with
    | none => exact absurd hr (by decide)
    | some p =>
      obtain ⟨st2, events⟩ := p
      rw [Option.map_some', h1.1 samplePicture none 2000 none
        (JVal.obj [("YS50eHQ=", fileNode "hi")]) "YS5wbmc=" st2 events (by decide) (by decide)
        (by decide) hr]
      rfl
  · cases hr : removeFile sampleStateInDocs "a.txt" none 2000 none with
    | none => exact absurd hr (by decide)
    | some p =>
      obtain ⟨st2, events⟩ := p
      rw [Option.map_some', h1.2.1 "a.txt" none 2000 none
        (JVal.obj [("YS50eHQ=", fileNode "hi")]) "YS50eHQ=" st2 events (by decide) (by decide)
        (by decide) (by decide) (by decide) (by decide) hr]
      rfl
  · cases hr : catFile sampleStateInTmp "a.txt" { data := some "hi", error := none }
        { data := none, error := none } with
    | none => exact absurd hr (by decide)
    | some events =>
      rw [Option.map_some', h2.2.2.1 "a.txt" { data := some "hi", error := none }
        { data := none, error := none }
        { parent := JVal.obj [("YS50eHQ=", fileNode "hi")], encodedName := "YS50eHQ=",
          path := ["ZG9jcw=="], contentPath := ["ZG9jcw==", "content"] }
        events (by decide) (by decide) (by decide) (by decide) hr]
      rfl
  · cases hr : handleSave sampleState sampleEditingFile "hello" none 2000 none with
    | none => exact absurd hr (by decide)
    | some p =>
      obtain ⟨st2, events⟩ := p
      rw [Option.map_some', h3.2.2.2.1 sampleEditingFile ["ZG9jcw=="] "hello" none 2000 none
        st2 events rfl (by decide) hr]
      rfl

end HostX
